import Mathlib

/-!
# Robust model estimation (RANSAC / LMedS): `modelest.cpp`

A shallow embedding of `src/ext/opencv-ffi/calib3d/modelest.cpp`.

Conventions of the embedding.

* `double` and `float` values are elements of a linearly ordered field `K`
  (exact arithmetic, no rounding, no inf, no NaN).  `log` and `sqrt` come from
  libm and are parameters of the functions that call them.
* C arrays (`CvMat` data) are lists; a write `a[i] = v` is `List.set`.
* `cvRandInt(&rng)` is the `pos`-th value of a stream `rng : Nat → Nat`; the
  position is threaded through the state.
* The pure virtual members `runKernel` and `computeReprojError` are fields of
  `Estimator`.
* Loops that need not terminate (the sampling loop of `getSubset`, which
  retries a duplicate index without counting an attempt) take fuel and return
  `none` / `Fault.outOfFuel` when it runs out.
* A raised `CV_Error` or failed `CV_Assert` is `Fault.cvError`. A division by
  a divisor that is exactly zero has no value in exact arithmetic and is
  `Fault.divByZero`.
* Ghost state: the drivers log every sampler call, kernel call, evaluated
  candidate and recomputed iteration budget in a `trace`; the trace is never
  read by the code.
-/

namespace ModelEst

/-- A 2D point, `CvPoint2D64f`. -/
structure Point (K : Type) where
  x : K
  y : K

/-- Ways a call can end without a return value: a raised `CV_Error` /
failed `CV_Assert`, a division by zero (no value in exact arithmetic), or the
fuel of the embedding running out. -/
inductive Fault where
  | cvError
  | divByZero
  | outOfFuel
  deriving DecidableEq, Repr

section Core

variable {K : Type} [LinearOrderedField K]

/-- The constant `FLT_EPSILON` of `<float.h>`: 2^-23. -/
def FLT_EPSILON : K := 1 / 2 ^ 23

/-- The constant `DBL_MIN` of `<float.h>`: 2^-1022. -/
def DBL_MIN : K := 1 / 2 ^ 1022

/-- The constant `DBL_MAX` of `<float.h>`: (2 - 2^-52) * 2^1023. -/
def DBL_MAX : K := 2 ^ 1024 - 2 ^ 971

/-- Read `ptr[i]`; an index outside the buffer (never produced by the code on
its intended inputs) reads the origin. -/
def ptAt (ptr : List (Point K)) (i : Int) : Point K :=
  ptr.getD i.toNat ⟨0, 0⟩

/-- The loop `for( ; n iterations left; i++ ) if( brk i ) break;` started at
`i`: returns the value of the loop variable on exit. -/
def forBreak (brk : Int → Bool) : Nat → Int → Int
  | 0, i => i
  | n + 1, i => if brk i then i else forBreak brk n (i + 1)

/-- The collinearity test of `checkSubset` (line 377) for the points with
indices `k`, `j`, `i`. -/
def collinearTest (ptr : List (Point K)) (i j k : Int) : Bool :=
  let dx1 := (ptAt ptr j).x - (ptAt ptr i).x
  let dy1 := (ptAt ptr j).y - (ptAt ptr i).y
  let dx2 := (ptAt ptr k).x - (ptAt ptr i).x
  let dy2 := (ptAt ptr k).y - (ptAt ptr i).y
  decide (|dx2 * dy1 - dy2 * dx1| ≤ FLT_EPSILON * (|dx1| + |dy1| + |dx2| + |dy2|))

/-- The loop over `k` (lines 373-379): value of `k` on exit. -/
def checkSubsetK (ptr : List (Point K)) (i j : Int) : Int :=
  forBreak (fun k => collinearTest ptr i j k) j.toNat 0

/-- The loop over `j` (lines 369-382): value of `j` on exit. -/
def checkSubsetJ (ptr : List (Point K)) (i : Int) : Int :=
  forBreak (fun j => decide (checkSubsetK ptr i j < j)) i.toNat 0

/-- `CvffiModelEstimator2::checkSubset` (lines 353-388). `i0`, `i1` and the
loop variable `i` are C ints; the loop over `i` runs from `i0` to `i1`
inclusive and the function returns `i >= i1`. -/
def checkSubset (checkPartialSubsets : Bool) (m : List (Point K)) (count : Int) : Bool :=
  let i1 := count - 1
  let i0 := if checkPartialSubsets then count - 1 else 0
  let i := forBreak (fun i => decide (checkSubsetJ m i < i)) (i1 - i0 + 1).toNat i0
  decide (i ≥ i1)

/-- Local state of `getSubset`: the index buffer, the two subset buffers, the
slot counter `i`, the attempt counter `iters`, and the position in the random
stream. -/
structure SubsetState (K : Type) where
  idx : List Nat
  ms1 : List (Point K)
  ms2 : List (Point K)
  i : Nat
  iters : Int
  pos : Nat

/-- The scan `for( j = 0; j < i; j++ ) if( idx_i == idx[j] ) break;`
(lines 326-328): value of `j` on exit. -/
def dupScan (idx : List Nat) (idx_i : Nat) (i : Nat) : Int :=
  forBreak (fun j => decide (idx_i = idx.getD j.toNat 0)) i 0

/-- The inner loop of `getSubset` (lines 323-342). Each unit of fuel pays for
one pass through the loop body. -/
def getSubsetInner (checkPartialSubsets : Bool) (modelPoints : Nat) (rng : Nat → Nat)
    (m1 m2 : List (Point K)) (maxAttempts : Int) :
    Nat → SubsetState K → Option (SubsetState K)
  | 0, _ => none
  | fuel + 1, st =>
    if st.i < modelPoints ∧ st.iters < maxAttempts then
      let count := m1.length
      let idx_i := rng st.pos % count
      let st := { st with idx := st.idx.set st.i idx_i, pos := st.pos + 1 }
      if dupScan st.idx idx_i st.i < st.i then
        getSubsetInner checkPartialSubsets modelPoints rng m1 m2 maxAttempts fuel st
      else
        let st := { st with ms1 := st.ms1.set st.i (ptAt m1 idx_i),
                            ms2 := st.ms2.set st.i (ptAt m2 idx_i) }
        if checkPartialSubsets &&
            (!checkSubset checkPartialSubsets st.ms1 (st.i + 1) ||
             !checkSubset checkPartialSubsets st.ms2 (st.i + 1)) then
          getSubsetInner checkPartialSubsets modelPoints rng m1 m2 maxAttempts fuel
            { st with iters := st.iters + 1 }
        else
          getSubsetInner checkPartialSubsets modelPoints rng m1 m2 maxAttempts fuel
            { st with i := st.i + 1 }
    else some st

/-- The outer loop of `getSubset` (lines 321-347). -/
def getSubsetOuter (checkPartialSubsets : Bool) (modelPoints : Nat) (rng : Nat → Nat)
    (m1 m2 : List (Point K)) (maxAttempts : Int) :
    Nat → SubsetState K → Option (SubsetState K)
  | 0, _ => none
  | fuel + 1, st =>
    if st.iters < maxAttempts then
      match getSubsetInner checkPartialSubsets modelPoints rng m1 m2 maxAttempts fuel
          { st with i := 0 } with
      | none => none
      | some st =>
        if !checkPartialSubsets && decide (st.i = modelPoints) &&
            (!checkSubset checkPartialSubsets st.ms1 st.i ||
             !checkSubset checkPartialSubsets st.ms2 st.i) then
          getSubsetOuter checkPartialSubsets modelPoints rng m1 m2 maxAttempts fuel
            { st with iters := st.iters + 1 }
        else some st
    else some st

/-- `CvffiModelEstimator2::getSubset` (lines 307-350). `pos` is the position
in the random stream on entry, `ms1`, `ms2` the subset buffers on entry. The
result is the returned flag and the final local state (buffers, indices,
stream position); `none` when the fuel runs out. -/
def getSubset (checkPartialSubsets : Bool) (modelPoints : Nat) (rng : Nat → Nat)
    (fuel : Nat) (pos : Nat) (m1 m2 ms1 ms2 : List (Point K)) (maxAttempts : Int) :
    Option (Bool × SubsetState K) :=
  let st0 : SubsetState K :=
    { idx := List.replicate modelPoints 0, ms1 := ms1, ms2 := ms2, i := 0, iters := 0, pos := pos }
  match getSubsetOuter checkPartialSubsets modelPoints rng m1 m2 maxAttempts fuel st0 with
  | none => none
  | some st => some (decide (st.i = modelPoints) && decide (st.iters < maxAttempts), st)

/-- The virtual `computeReprojError(m1, m2, model, err)`: `reprojError m1 m2
model i` is the value it stores in `err[i]`; the buffer has `count` entries. -/
def computeReprojError {M : Type} (reprojError : List (Point K) → List (Point K) → M → Nat → K)
    (m1 m2 : List (Point K)) (model : M) (count : Nat) : List K :=
  (List.range count).map (reprojError m1 m2 model)

/-- The scan of `findInliers` (lines 97-98), `n` iterations left, loop
variable `i`: `goodCount += mask[i] = err[i] <= threshold`. -/
def findInliersLoop (err : List K) (threshold : K) :
    Nat → Nat → List Nat → Int → List Nat × Int
  | 0, _, mask, goodCount => (mask, goodCount)
  | n + 1, i, mask, goodCount =>
    let b : Nat := if err.getD i 0 ≤ threshold then 1 else 0
    findInliersLoop err threshold n (i + 1) (mask.set i b) (goodCount + b)

/-- The body of `findInliers` after `computeReprojError` has filled `err`
(lines 96-99): the threshold is squared, the mask written, the count returned. -/
def findInliersScan (err : List K) (mask : List Nat) (threshold : K) : List Nat × Int :=
  let threshold := threshold * threshold
  findInliersLoop err threshold err.length 0 mask 0

/-- `CvffiModelEstimator2::findInliers` (lines 87-100). `count` is the size
of the `_err` buffer, `mask` the content of `_mask` on entry; the result is the
content of `_mask` on exit and the returned `goodCount`. -/
def findInliers {M : Type} (reprojError : List (Point K) → List (Point K) → M → Nat → K)
    (m1 m2 : List (Point K)) (model : M) (count : Nat) (mask : List Nat) (threshold : K) :
    List Nat × Int :=
  findInliersScan (computeReprojError reprojError m1 m2 model count) mask threshold

/-- Follows the spec's words (section 4.4): mask[i] = (error[i] ≤ threshold²),
as 0/1 bytes. -/
def specInlierMask (err : List K) (threshold : K) : List Nat :=
  err.map (fun e => if e ≤ threshold * threshold then 1 else 0)

/-- Invariant of the sampling loops of `getSubset` (proof device): the
buffers keep their size, and the slots below `i` hold pairwise distinct
in-range indices together with the points they select. -/
def SubsetInv (modelPoints : Nat) (m1 m2 : List (Point K)) (st : SubsetState K) : Prop :=
  st.idx.length = modelPoints ∧ st.ms1.length = modelPoints ∧ st.ms2.length = modelPoints ∧
  st.i ≤ modelPoints ∧
  (∀ j, j < st.i → st.idx.getD j 0 < m1.length ∧
      st.ms1[j]? = m1[st.idx.getD j 0]? ∧ st.ms2[j]? = m2[st.idx.getD j 0]?) ∧
  (∀ j k, j < k → k < st.i → st.idx.getD j 0 ≠ st.idx.getD k 0)

/-- The indices held by the slots below `i` of the index buffer of `getSubset`
(proof device). -/
def takenIdx (st : SubsetState K) : List Nat :=
  (List.range st.i).map (fun j => st.idx.getD j 0)

end Core

section Rounding

variable {K : Type} [LinearOrderedField K] [FloorRing K]

/-- Modelled from the spec: `cvRound` is an OpenCV inline function that is not
under `src/`; it rounds to the nearest integer. Ties go to the even
neighbour, as `lrint` does in the default rounding mode. -/
def cvRound (x : K) : Int :=
  let f : Int := ⌊x⌋
  let d : K := x - f
  if d < 1 / 2 then f
  else if 1 / 2 < d then f + 1
  else if f % 2 = 0 then f else f + 1

/-- `cvRANSACUpdateNumIters` (lines 103-126). `log` is the libm logarithm;
`CV_Error` is `Fault.cvError`. -/
def cvRANSACUpdateNumIters (log : K → K) (p ep : K) (model_points max_iters : Int) :
    Except Fault Int :=
  if model_points ≤ 0 then .error .cvError
  else
    let p := max p 0
    let p := min p 1
    let ep := max ep 0
    let ep := min ep 1
    let num := max (1 - p) DBL_MIN
    let denom := 1 - (1 - ep) ^ model_points.toNat
    if denom < DBL_MIN then .ok 0
    else
      let num := log num
      let denom := log denom
      .ok (if denom ≥ 0 ∨ -num ≥ (max_iters : K) * (-denom) then max_iters
           else cvRound (num / denom))

/-- The estimator object `CvffiModelEstimator2`: its fields that the drivers
read, and its two pure virtual members. `runKernel ms1 ms2` is the list of
candidate models the kernel stores in `models` (its length is the returned
`nmodels`; a return value `<= 0` is the empty list). -/
structure Estimator (K M : Type) where
  modelPoints : Nat
  maxIters : Int
  checkPartialSubsets : Bool
  runKernel : List (Point K) → List (Point K) → List M
  reprojError : List (Point K) → List (Point K) → M → Nat → K

/-- Ghost log entries of a driver run. -/
inductive Event (K M : Type) where
  /-- A call of `getSubset` and the flag it returned. -/
  | sample (found : Bool)
  /-- A call of `runKernel` and the subset buffers it was given. -/
  | kernel (ms1 ms2 : List (Point K))
  /-- A candidate scored by `runRANSAC`, with its inlier count. -/
  | candidate (model : M) (goodCount : Int)
  /-- A recomputation of `niters` by `runRANSAC` on a new best, with the new value. -/
  | budget (niters : Int)
  /-- A candidate scored by `runLMeDS`, with its median. -/
  | scored (model : M) (median : K)

/-- How a driver loop ends: by the `return false` of a sampling failure in
iteration 0, or by leaving the loop with the loop variable `iter`. -/
inductive LoopExit (S : Type) where
  | aborted (st : S)
  | done (iter : Int) (st : S)

/-- Variables of `runRANSAC` that change in the loop: the buffers behind the
handles `mask` and `tmask`, the output buffer `model`, `maxGoodCount`,
`niters`, the subset buffers, the stream position, and the ghost trace. -/
structure RansacState (K M : Type) where
  mask : List Nat
  tmask : List Nat
  model : M
  maxGoodCount : Int
  niters : Int
  ms1 : List (Point K)
  ms2 : List (Point K)
  pos : Nat
  trace : List (Event K M)

/-- Body of the loop over the candidates (lines 182-193) for the candidate
`model_i`. -/
def ransacCandidate {M : Type} (est : Estimator K M) (log : K → K) (m1 m2 : List (Point K))
    (reprojThreshold confidence : K) (st : RansacState K M) (model_i : M) :
    Except Fault (RansacState K M) :=
  let count : Int := m1.length
  let r := findInliers est.reprojError m1 m2 model_i m1.length st.tmask reprojThreshold
  let goodCount := r.2
  let st := { st with tmask := r.1, trace := st.trace ++ [Event.candidate model_i goodCount] }
  if goodCount > max st.maxGoodCount ((est.modelPoints : Int) - 1) then
    match cvRANSACUpdateNumIters log confidence (((count - goodCount : Int) : K) / (count : K))
        est.modelPoints st.niters with
    | .error f => .error f
    | .ok n =>
      .ok { st with mask := st.tmask, tmask := st.mask, model := model_i,
                    maxGoodCount := goodCount, niters := n,
                    trace := st.trace ++ [Event.budget n] }
  else .ok st

/-- The loop over the candidates of one kernel call (lines 180-194). -/
def ransacCandidates {M : Type} (est : Estimator K M) (log : K → K) (m1 m2 : List (Point K))
    (reprojThreshold confidence : K) :
    List M → RansacState K M → Except Fault (RansacState K M)
  | [], st => .ok st
  | model_i :: rest, st =>
    match ransacCandidate est log m1 m2 reprojThreshold confidence st model_i with
    | .error f => .error f
    | .ok st => ransacCandidates est log m1 m2 reprojThreshold confidence rest st

/-- The sampling step at the head of an iteration of either driver
(lines 166-175, 262-271): `getSubset` is called only when
`count > modelPoints`; otherwise the subset buffers (clones of `m1`, `m2`)
stay as they are and the step counts as found. The result is the flag, the
subset buffers, the stream position, and the events to log. -/
def sampleStep {M : Type} (est : Estimator K M) (rng : Nat → Nat) (fuel : Nat)
    (m1 m2 ms1 ms2 : List (Point K)) (pos : Nat) :
    Except Fault (Bool × List (Point K) × List (Point K) × Nat × List (Event K M)) :=
  if m1.length > est.modelPoints then
    match getSubset est.checkPartialSubsets est.modelPoints rng fuel pos m1 m2 ms1 ms2 300 with
    | none => .error .outOfFuel
    | some (found, sub) => .ok (found, sub.ms1, sub.ms2, sub.pos, [Event.sample found])
  else .ok (true, ms1, ms2, pos, [])

/-- One trial of `runRANSAC` after sampling (lines 177-194): the kernel call
and the loop over its candidates. -/
def ransacTrial {M : Type} (est : Estimator K M) (log : K → K) (m1 m2 : List (Point K))
    (reprojThreshold confidence : K) (st : RansacState K M) :
    Except Fault (RansacState K M) :=
  let models := est.runKernel st.ms1 st.ms2
  let st := { st with trace := st.trace ++ [Event.kernel st.ms1 st.ms2] }
  ransacCandidates est log m1 m2 reprojThreshold confidence models st

/-- The main loop of `runRANSAC` (lines 163-195), entered with loop variable
`iter`. One unit of `loopFuel` pays for one evaluation of the loop test;
every call of `getSubset` gets `fuel`. -/
def ransacLoop {M : Type} (est : Estimator K M) (log : K → K) (rng : Nat → Nat) (fuel : Nat)
    (m1 m2 : List (Point K)) (reprojThreshold confidence : K) :
    Nat → Int → RansacState K M → Except Fault (LoopExit (RansacState K M))
  | 0, _, _ => .error .outOfFuel
  | loopFuel + 1, iter, st =>
    if iter < st.niters then
      match sampleStep est rng fuel m1 m2 st.ms1 st.ms2 st.pos with
      | .error f => .error f
      | .ok (found, ms1, ms2, pos, evs) =>
        let st := { st with ms1 := ms1, ms2 := ms2, pos := pos, trace := st.trace ++ evs }
        if found then
          match ransacTrial est log m1 m2 reprojThreshold confidence st with
          | .error f => .error f
          | .ok st =>
            ransacLoop est log rng fuel m1 m2 reprojThreshold confidence loopFuel (iter + 1) st
        else if iter = 0 then .ok (.aborted st)
        else .ok (.done iter st)
    else .ok (.done iter st)

/-- What `runRANSAC` leaves behind: the returned flag, the caller's `model`
and `mask0` buffers, the reference parameter `totalIters`, the stream
position, and as ghost values the final `maxGoodCount` and the trace. -/
structure RansacResult (K M : Type) where
  result : Bool
  model : M
  mask0 : List Nat
  totalIters : Int
  pos : Nat
  maxGoodCount : Int
  trace : List (Event K M)

/-- The state of `runRANSAC` on entry to the main loop (lines 134-161), for
`count >= modelPoints`. `mask` is a clone of `mask0`. Fresh matrices (`tmask`,
and `ms1`, `ms2` when `count > modelPoints`) start zero-filled; the code
writes each of their entries before reading it. When `count == modelPoints`
the subset buffers are clones of `m1`, `m2` and `niters` is 1. -/
def ransacInit {M : Type} (est : Estimator K M) (pos : Nat) (m1 m2 : List (Point K))
    (model : M) (mask0 : List Nat) : RansacState K M :=
  let count := m1.length
  { mask := mask0, tmask := List.replicate count 0, model := model, maxGoodCount := 0,
    niters := if count > est.modelPoints then est.maxIters else 1,
    ms1 := if count > est.modelPoints then List.replicate est.modelPoints ⟨0, 0⟩ else m1,
    ms2 := if count > est.modelPoints then List.replicate est.modelPoints ⟨0, 0⟩ else m2,
    pos := pos, trace := [] }

/-- `CvffiModelEstimator2::runRANSAC` (lines 128-210). `model`, `mask0` and
`totalIters` are the contents of the caller's buffers on entry. `mask` is a
fresh clone of `mask0`, so the test `mask != mask0` of line 202 always holds.
The diagnostic `printf` of line 198 is not modelled. -/
def runRANSAC {M : Type} (est : Estimator K M) (log : K → K) (rng : Nat → Nat) (fuel : Nat)
    (pos : Nat) (m1 m2 : List (Point K)) (model : M) (mask0 : List Nat) (totalIters : Int)
    (reprojThreshold confidence : K) : Except Fault (RansacResult K M) :=
  let count := m1.length
  if ¬ (m1.length = m2.length ∧ m1.length = mask0.length) then .error .cvError
  else if count < est.modelPoints then
    .ok { result := false, model := model, mask0 := mask0, totalIters := totalIters,
          pos := pos, maxGoodCount := 0, trace := [] }
  else
    match ransacLoop est log rng fuel m1 m2 reprojThreshold confidence fuel 0
        (ransacInit est pos m1 m2 model mask0) with
    | .error f => .error f
    | .ok (.aborted st) =>
      .ok { result := false, model := st.model, mask0 := mask0, totalIters := totalIters,
            pos := st.pos, maxGoodCount := st.maxGoodCount, trace := st.trace }
    | .ok (.done iter st) =>
      if st.maxGoodCount > 0 then
        .ok { result := true, model := st.model, mask0 := st.mask, totalIters := iter,
              pos := st.pos, maxGoodCount := st.maxGoodCount, trace := st.trace }
      else
        .ok { result := false, model := st.model, mask0 := mask0, totalIters := iter,
              pos := st.pos, maxGoodCount := st.maxGoodCount, trace := st.trace }

/-- Modelled from the spec: `icvSortDistances` is generated by the macro
`CV_IMPLEMENT_QSORT`, which is not under `src/`; it sorts the error vector in
ascending order. (The code sorts the floats through their integer bit
patterns, which is the same order when no error is negative.) -/
def icvSortDistances (err : List K) : List K :=
  err.insertionSort (fun a b => a ≤ b)

/-- The median of line 283-284 of a sorted error buffer with `count` entries. -/
def lmedsMedian (err : List K) (count : Int) : K :=
  if count % 2 ≠ 0 then err.getD (count / 2).toNat 0
  else (err.getD (count / 2 - 1).toNat 0 + err.getD (count / 2).toNat 0) * (1 / 2)

/-- Variables of `runLMeDS` that change in the loop. -/
structure LmedsState (K M : Type) where
  model : M
  minMedian : K
  ms1 : List (Point K)
  ms2 : List (Point K)
  pos : Nat
  trace : List (Event K M)

/-- Body of the loop over the candidates of `runLMeDS` (lines 278-290). -/
def lmedsCandidate {M : Type} (est : Estimator K M) (m1 m2 : List (Point K))
    (st : LmedsState K M) (model_i : M) : LmedsState K M :=
  let err := computeReprojError est.reprojError m1 m2 model_i m1.length
  let err := icvSortDistances err
  let median := lmedsMedian err m1.length
  let st := { st with trace := st.trace ++ [Event.scored model_i median] }
  if median < st.minMedian then { st with minMedian := median, model := model_i }
  else st

/-- One trial of `runLMeDS` after sampling (lines 273-291): the kernel call
and the loop over its candidates. -/
def lmedsTrial {M : Type} (est : Estimator K M) (m1 m2 : List (Point K))
    (st : LmedsState K M) : LmedsState K M :=
  let models := est.runKernel st.ms1 st.ms2
  let st := { st with trace := st.trace ++ [Event.kernel st.ms1 st.ms2] }
  models.foldl (lmedsCandidate est m1 m2) st

/-- The main loop of `runLMeDS` (lines 259-292). -/
def lmedsLoop {M : Type} (est : Estimator K M) (rng : Nat → Nat) (fuel : Nat)
    (m1 m2 : List (Point K)) (niters : Int) :
    Nat → Int → LmedsState K M → Except Fault (LoopExit (LmedsState K M))
  | 0, _, _ => .error .outOfFuel
  | loopFuel + 1, iter, st =>
    if iter < niters then
      match sampleStep est rng fuel m1 m2 st.ms1 st.ms2 st.pos with
      | .error f => .error f
      | .ok (found, ms1, ms2, pos, evs) =>
        let st := { st with ms1 := ms1, ms2 := ms2, pos := pos, trace := st.trace ++ evs }
        if found then
          lmedsLoop est rng fuel m1 m2 niters loopFuel (iter + 1) (lmedsTrial est m1 m2 st)
        else if iter = 0 then .ok (.aborted st)
        else .ok (.done iter st)
    else .ok (.done iter st)

/-- The iteration count of `runLMeDS` (lines 229-257): the cap `maxIters`
from `_maxIters`, then `niters` from the confidence, clamped. The assignment
`niters = 1` of line 251 (case `count == modelPoints`) does not appear: line
256 overwrites `niters` on every path before it is read. A zero divisor has no
quotient in exact arithmetic and is `Fault.divByZero`. -/
def lmedsNiters (log : K → K) (modelPoints : Nat) (count : Int) (confidence : K)
    (_maxIters : Int) : Except Fault Int :=
  let outlierRatio : K := 45 / 100
  let maxIters : Int :=
    if _maxIters > 0 then _maxIters
    else if _maxIters < 0 then -_maxIters * count
    else count
  let d := log (1 - (1 - outlierRatio) ^ modelPoints)
  if d = 0 then .error .divByZero
  else
    let niters := cvRound (log (1 - confidence) / d)
    .ok (min (max niters 3) maxIters)

/-- What `runLMeDS` leaves behind: the returned flag, the caller's `model` and
`mask` buffers, the stream position, and as ghost values the final
`minMedian`, the loop variable on exit, `niters` and the trace. -/
structure LmedsResult (K M : Type) where
  result : Bool
  model : M
  mask : List Nat
  pos : Nat
  minMedian : K
  iter : Int
  niters : Int
  trace : List (Event K M)

/-- The state of `runLMeDS` on entry to the main loop (lines 225, 244-254),
for `count >= modelPoints`: `minMedian` is `DBL_MAX`; the subset buffers are
fresh (zero-filled, written before read) when `count > modelPoints` and
clones of `m1`, `m2` otherwise. -/
def lmedsInit {M : Type} (est : Estimator K M) (pos : Nat) (m1 m2 : List (Point K))
    (model : M) : LmedsState K M :=
  let count : Int := m1.length
  { model := model, minMedian := DBL_MAX,
    ms1 := if count > est.modelPoints then List.replicate est.modelPoints ⟨0, 0⟩ else m1,
    ms2 := if count > est.modelPoints then List.replicate est.modelPoints ⟨0, 0⟩ else m2,
    pos := pos, trace := [] }

/-- `CvffiModelEstimator2::runLMeDS` (lines 215-304). `model` and `mask` are
the contents of the caller's buffers on entry; `sqrt` is the libm square
root. The divisor `count - modelPoints` of line 296 is checked: when it is
zero the quotient has no value in exact arithmetic, `Fault.divByZero`. -/
def runLMeDS {M : Type} (est : Estimator K M) (log sqrt : K → K) (rng : Nat → Nat) (fuel : Nat)
    (pos : Nat) (m1 m2 : List (Point K)) (model : M) (mask : List Nat)
    (confidence : K) (_maxIters : Int) : Except Fault (LmedsResult K M) :=
  let count : Int := m1.length
  if ¬ (m1.length = m2.length ∧ m1.length = mask.length) then .error .cvError
  else if count < est.modelPoints then
    .ok { result := false, model := model, mask := mask, pos := pos, minMedian := DBL_MAX,
          iter := 0, niters := 0, trace := [] }
  else
    match lmedsNiters log est.modelPoints count confidence _maxIters with
    | .error f => .error f
    | .ok niters =>
      match lmedsLoop est rng fuel m1 m2 niters fuel 0 (lmedsInit est pos m1 m2 model) with
      | .error f => .error f
      | .ok (.aborted st) =>
        .ok { result := false, model := st.model, mask := mask, pos := st.pos,
              minMedian := st.minMedian, iter := 0, niters := niters, trace := st.trace }
      | .ok (.done iter st) =>
        if st.minMedian < DBL_MAX then
          if count - est.modelPoints = 0 then .error .divByZero
          else
            let sigma : K := (25 / 10) * (14826 / 10000) *
              (1 + 5 / ((count - est.modelPoints : Int) : K)) * sqrt st.minMedian
            let sigma := max sigma (1 / 1000)
            let r := findInliers est.reprojError m1 m2 st.model m1.length mask sigma
            .ok { result := decide (r.2 ≥ est.modelPoints), model := st.model, mask := r.1,
                  pos := st.pos, minMedian := st.minMedian, iter := iter, niters := niters,
                  trace := st.trace }
        else
          .ok { result := false, model := st.model, mask := mask, pos := st.pos,
                minMedian := st.minMedian, iter := iter, niters := niters, trace := st.trace }

/-- The flags returned by the `getSubset` calls of a run, in call order. -/
def sampleCalls {M : Type} (tr : List (Event K M)) : List Bool :=
  tr.filterMap (fun e => match e with
    | .sample b => some b
    | _ => none)

/-- The subset buffers handed to the `runKernel` calls of a run, in call order. -/
def kernelCalls {M : Type} (tr : List (Event K M)) : List (List (Point K) × List (Point K)) :=
  tr.filterMap (fun e => match e with
    | .kernel a b => some (a, b)
    | _ => none)

/-- The candidates `runRANSAC` scored in a run, each with the inlier count
`findInliers` returned for it, in evaluation order. -/
def candidates {M : Type} (tr : List (Event K M)) : List (M × Int) :=
  tr.filterMap (fun e => match e with
    | .candidate model g => some (model, g)
    | _ => none)

/-- The values `niters` was recomputed to in a run of `runRANSAC`, in order. -/
def budgets {M : Type} (tr : List (Event K M)) : List Int :=
  tr.filterMap (fun e => match e with
    | .budget n => some n
    | _ => none)

/-- Invariant of the iteration budget of `runRANSAC` (proof device), `init`
being the value `niters` starts with: `niters` is between 0 and `init`, every
recomputed value so far is between the current `niters` and `init`, and the
recomputed values never increase. -/
def BudgetInv {M : Type} (init : Int) (st : RansacState K M) : Prop :=
  0 ≤ st.niters ∧ st.niters ≤ init ∧
  (∀ b ∈ budgets st.trace, st.niters ≤ b ∧ b ≤ init) ∧
  (budgets st.trace).Pairwise (fun a b => b ≤ a)

/-- Invariant of the loops of `runRANSAC` (proof device), for `N`
correspondences, threshold `thr` and iteration cap `cap`: both mask buffers
have `N` entries; every scored candidate was logged with its own inlier count
and is either no better than the current best or below the floor
`modelPoints`; a positive `maxGoodCount` belongs to a scored candidate that is
in the output buffer and whose inlier mask is behind `mask`; `niters` is at
most the cap. -/
def RansacInv {M : Type} (est : Estimator K M) (m1 m2 : List (Point K)) (thr : K) (cap : Int)
    (st : RansacState K M) : Prop :=
  st.tmask.length = m1.length ∧ st.mask.length = m1.length ∧
  0 ≤ st.maxGoodCount ∧
  (∀ c ∈ candidates st.trace,
    c.2 = (((specInlierMask (computeReprojError est.reprojError m1 m2 c.1 m1.length) thr).count 1
      : Nat) : Int) ∧
    (c.2 ≤ st.maxGoodCount ∨ c.2 < est.modelPoints)) ∧
  (0 < st.maxGoodCount →
    (est.modelPoints : Int) ≤ st.maxGoodCount ∧
    (st.model, st.maxGoodCount) ∈ candidates st.trace ∧
    st.mask = specInlierMask (computeReprojError est.reprojError m1 m2 st.model m1.length) thr) ∧
  st.niters ≤ cap

/-- Invariant at the head of the main loop of `runRANSAC` (proof device): the
loop variable is between 0 and the cap and bounds the number of sampler and
kernel calls so far, no sampler call so far has failed, the trace is empty in
iteration 0 (where nothing has been scored yet) and not empty afterwards. -/
def RansacHead {M : Type} (cap : Int) (iter : Int) (st : RansacState K M) : Prop :=
  0 ≤ iter ∧ iter ≤ cap ∧
  ((sampleCalls st.trace).length : Int) ≤ iter ∧
  ((kernelCalls st.trace).length : Int) ≤ iter ∧
  (∀ b ∈ sampleCalls st.trace, b = true) ∧
  (0 < iter → st.trace ≠ []) ∧
  (iter = 0 → st.trace = [] ∧ st.maxGoodCount = 0)

/-- What holds when the main loop of `runRANSAC` is left (proof device). -/
def RansacExit {M : Type} (est : Estimator K M) (m1 m2 : List (Point K)) (thr : K) (cap : Int) :
    LoopExit (RansacState K M) → Prop
  | .aborted st => st.trace = [Event.sample false] ∧ st.maxGoodCount = 0
  | .done iter st =>
    RansacInv est m1 m2 thr cap st ∧ 0 ≤ iter ∧ iter ≤ cap ∧
    ((sampleCalls st.trace).length : Int) ≤ cap ∧
    ((kernelCalls st.trace).length : Int) ≤ cap ∧
    ((∀ b ∈ sampleCalls st.trace, b = true) ∨
      ∃ tr0, tr0 ≠ [] ∧ st.trace = tr0 ++ [Event.sample false] ∧
        ∀ b ∈ sampleCalls tr0, b = true)

/-- Follows the spec's words (section 4.5, adaptive iteration-count update):
with `p`, `ep` clamped to [0,1], the result is 0 when `1-(1-ep)^k` underflows
(`< DBL_MIN`), the cap when the logarithm of the denominator is 0 or the ratio
`log(1-p) / log(1-(1-ep)^k)` reaches the cap, and otherwise that ratio rounded
to the nearest integer. -/
def specUpdateNumIters (log : K → K) (p ep : K) (k : Nat) (max_iters : Int) : Int :=
  let p := min (max p 0) 1
  let ep := min (max ep 0) 1
  if 1 - (1 - ep) ^ k < DBL_MIN then 0
  else if log (1 - (1 - ep) ^ k) = 0 ∨ log (1 - p) / log (1 - (1 - ep) ^ k) ≥ (max_iters : K)
  then max_iters
  else cvRound (log (1 - p) / log (1 - (1 - ep) ^ k))

/-- The candidates `runLMeDS` scored in a run, each with the median computed
for it, in evaluation order. -/
def scored {M : Type} (tr : List (Event K M)) : List (M × K) :=
  tr.filterMap (fun e => match e with
    | .scored model median => some (model, median)
    | _ => none)

/-- The score `runLMeDS` computes for a model (lines 280-284): the median of
its sorted error vector over all `count` correspondences. -/
def lmedsScore {M : Type} (est : Estimator K M) (m1 m2 : List (Point K)) (model : M) : K :=
  lmedsMedian (icvSortDistances (computeReprojError est.reprojError m1 m2 model m1.length))
    m1.length

/-- Follows the spec's words (section 4.6): sigma = 2.5 × 1.4826 ×
(1 + 5/(N − modelPoints)) × sqrt(minMedian), floored at 0.001. -/
def specSigma (sqrt : K → K) (N modelPoints : Nat) (minMedian : K) : K :=
  max ((25 / 10) * (14826 / 10000) * (1 + 5 / ((N : K) - (modelPoints : K))) * sqrt minMedian)
    (1 / 1000)

/-- Invariant of the loops of `runLMeDS` (proof device): every scored
candidate was logged with its own score and is no better than `minMedian`;
`minMedian` never exceeds `DBL_MAX`; once below `DBL_MAX` it is the score of
the model in the output buffer, which is the first scored candidate with that
score. -/
def LmedsInv {M : Type} (est : Estimator K M) (m1 m2 : List (Point K))
    (st : LmedsState K M) : Prop :=
  (∀ c ∈ scored st.trace, c.2 = lmedsScore est m1 m2 c.1 ∧ st.minMedian ≤ c.2) ∧
  st.minMedian ≤ DBL_MAX ∧
  (st.minMedian < DBL_MAX →
    ∃ pre post, scored st.trace = pre ++ (st.model, st.minMedian) :: post ∧
      ∀ d ∈ pre, st.minMedian < d.2)

/-- Invariant at the head of the main loop of `runLMeDS` (proof device). -/
def LmedsHead {M : Type} (niters : Int) (iter : Int) (st : LmedsState K M) : Prop :=
  0 ≤ iter ∧ iter ≤ max niters 0 ∧
  ((sampleCalls st.trace).length : Int) ≤ iter ∧
  ((kernelCalls st.trace).length : Int) ≤ iter ∧
  (∀ b ∈ sampleCalls st.trace, b = true) ∧
  (0 < iter → st.trace ≠ []) ∧
  (iter = 0 → st.trace = [] ∧ st.minMedian = DBL_MAX)

/-- What holds when the main loop of `runLMeDS` is left (proof device). -/
def LmedsExit {M : Type} (est : Estimator K M) (m1 m2 : List (Point K)) (niters : Int) :
    LoopExit (LmedsState K M) → Prop
  | .aborted st => st.trace = [Event.sample false] ∧ st.minMedian = DBL_MAX
  | .done iter st =>
    LmedsInv est m1 m2 st ∧ 0 ≤ iter ∧ iter ≤ max niters 0 ∧
    ((sampleCalls st.trace).length : Int) ≤ max niters 0 ∧
    ((kernelCalls st.trace).length : Int) ≤ max niters 0 ∧
    ((∀ b ∈ sampleCalls st.trace, b = true) ∨
      ∃ tr0, tr0 ≠ [] ∧ st.trace = tr0 ++ [Event.sample false] ∧
        ∀ b ∈ sampleCalls tr0, b = true)

end Rounding

section Examples

/-- Example estimator for the concrete runs: one correspondence fixes the model
`c = y - x` (first sequence); the error of correspondence `i` under `c` is
`(y_i - x_i - c)^2`. -/
def exEstimator : Estimator ℚ ℚ where
  modelPoints := 1
  maxIters := 2
  checkPartialSubsets := true
  runKernel := fun ms1 _ => [(ptAt ms1 0).y - (ptAt ms1 0).x]
  reprojError := fun m1 _ c i => ((ptAt m1 i).y - (ptAt m1 i).x - c) ^ 2

/-- Example correspondences for the concrete runs (used for both sequences). -/
def exPoints : List (Point ℚ) := [⟨0, 0⟩, ⟨1, 1⟩, ⟨2, 5⟩]

/-- A stand-in for the logarithm on rationals in the concrete runs: `x - 1`, which
like `log` is not positive on (0,1]. -/
def exLog (x : ℚ) : ℚ := x - 1

/-- A stand-in for the square root on rationals in the concrete runs: the
identity, which agrees with the square root at 0 and at 1. -/
def exSqrt (x : ℚ) : ℚ := x

end Examples

/-! ## Theorems -/

section Theorems

variable {K : Type} [LinearOrderedField K]

theorem findInliersLoop_split (thr : K) (suf : List K) :
    ∀ (pre : List K) (done rest : List Nat) (g : Int),
      done.length = pre.length → rest.length = suf.length →
      findInliersLoop (pre ++ suf) thr suf.length pre.length (done ++ rest) g
        = (done ++ suf.map (fun e => if e ≤ thr then 1 else 0),
           g + ((suf.map (fun e => if e ≤ thr then (1 : Nat) else 0)).count 1 : Nat)) := by
  induction suf with
  | nil =>
    intro pre done rest g _ hr
    have : rest = [] := List.length_eq_zero.mp hr
    subst this
    simp [findInliersLoop]
  | cons e suf ih =>
    intro pre done rest g hd hr
    cases rest with
    | nil => simp at hr
    | cons r rest =>
      have hr2 : rest.length = suf.length := by simpa using hr
      have hget : (pre ++ e :: suf).getD pre.length 0 = e := by
        rw [List.getD_eq_getElem?_getD, List.getElem?_append_right (le_refl _)]
        simp
      have hset : ∀ b : Nat, (done ++ r :: rest).set pre.length b = (done ++ [b]) ++ rest := by
        intro b
        rw [← hd]
        simp [List.set_append_right]
      have ih2 := ih (pre ++ [e]) (done ++ [if e ≤ thr then 1 else 0]) rest
        (g + ((if e ≤ thr then 1 else 0 : Nat) : Int)) (by simp [hd]) hr2
      simp only [List.length_cons, findInliersLoop, hget, hset]
      have e1 : pre ++ e :: suf = (pre ++ [e]) ++ suf := by simp
      have e2 : pre.length + 1 = (pre ++ [e]).length := by simp
      rw [e1, e2, ih2]
      by_cases h : e ≤ thr
      · simp [h, List.count_cons]; ring
      · simp [h, List.count_cons]

theorem findInliersScan_eq (err : List K) (mask : List Nat) (t : K)
    (h : mask.length = err.length) :
    findInliersScan err mask t
      = (specInlierMask err t, (((specInlierMask err t).count 1 : Nat) : Int)) := by
  have := findInliersLoop_split (t * t) err [] [] mask 0 rfl h
  simpa [findInliersScan, specInlierMask] using this

theorem computeReprojError_length {M : Type}
    (reprojError : List (Point K) → List (Point K) → M → Nat → K)
    (m1 m2 : List (Point K)) (model : M) (count : Nat) :
    (computeReprojError reprojError m1 m2 model count).length = count := by
  simp [computeReprojError]

theorem computeReprojError_getD {M : Type}
    (reprojError : List (Point K) → List (Point K) → M → Nat → K)
    (m1 m2 : List (Point K)) (model : M) (count i : Nat) (hi : i < count) :
    (computeReprojError reprojError m1 m2 model count).getD i 0 = reprojError m1 m2 model i := by
  simp [computeReprojError, List.getD_eq_getElem?_getD, List.getElem?_range hi, hi]

theorem findInliers_eq {M : Type}
    (reprojError : List (Point K) → List (Point K) → M → Nat → K)
    (m1 m2 : List (Point K)) (model : M) (count : Nat) (mask : List Nat) (t : K)
    (h : mask.length = count) :
    findInliers reprojError m1 m2 model count mask t
      = (specInlierMask (computeReprojError reprojError m1 m2 model count) t,
         (((specInlierMask (computeReprojError reprojError m1 m2 model count) t).count 1 : Nat)
           : Int)) :=
  findInliersScan_eq _ _ _ (by rw [computeReprojError_length]; exact h)

theorem specInlierMask_length (err : List K) (t : K) :
    (specInlierMask err t).length = err.length := by
  simp [specInlierMask]

theorem specInlierMask_getD (err : List K) (t : K) (i : Nat) (hi : i < err.length) :
    (specInlierMask err t).getD i 0 = if err.getD i 0 ≤ t * t then 1 else 0 := by
  simp [specInlierMask, List.getD_eq_getElem?_getD, List.getElem?_eq_getElem hi]

/-- C1: for the error vector `err` of length `N` that `computeReprojError`
produces and every threshold `t`, `findInliers` (given a mask buffer of `N`
entries) leaves a mask of `N` entries with `mask[i] = 1` exactly when
`err[i] <= t*t` and `mask[i] = 0` otherwise, and the integer it returns is the
number of entries of that mask that are 1. -/
theorem findInliers_mask_and_count {M : Type}
    (reprojError : List (Point K) → List (Point K) → M → Nat → K)
    (m1 m2 : List (Point K)) (model : M) (N : Nat) (mask : List Nat) (t : K)
    (hmask : mask.length = N) :
    (computeReprojError reprojError m1 m2 model N).length = N ∧
    (findInliers reprojError m1 m2 model N mask t).1.length = N ∧
    (∀ i, i < N →
      ((findInliers reprojError m1 m2 model N mask t).1.getD i 0 = 1 ↔
        (computeReprojError reprojError m1 m2 model N).getD i 0 ≤ t * t) ∧
      ((findInliers reprojError m1 m2 model N mask t).1.getD i 0 = 0 ↔
        ¬ (computeReprojError reprojError m1 m2 model N).getD i 0 ≤ t * t)) ∧
    (findInliers reprojError m1 m2 model N mask t).2
      = ((findInliers reprojError m1 m2 model N mask t).1.count 1 : Nat) := by
  have hl := computeReprojError_length reprojError m1 m2 model N
  rw [findInliers_eq reprojError m1 m2 model N mask t hmask]
  refine ⟨hl, by simp [specInlierMask_length, hl], ?_, rfl⟩
  intro i hi
  simp only
  rw [specInlierMask_getD _ _ _ (by omega)]
  by_cases hc : (computeReprojError reprojError m1 m2 model N).getD i 0 ≤ t * t <;> simp [hc]

theorem findInliers_mask_and_count_witness :
    (findInliers (fun _ _ (_ : Unit) i => (i : ℚ)) [] [] () 3 [7, 7, 7] 1).1.length = 3 ∧
    (findInliers (fun _ _ (_ : Unit) i => (i : ℚ)) [] [] () 3 [7, 7, 7] 1).2
      = ((findInliers (fun _ _ (_ : Unit) i => (i : ℚ)) [] [] () 3 [7, 7, 7] 1).1.count 1 : Nat) :=
  ⟨(findInliers_mask_and_count (fun _ _ (_ : Unit) i => (i : ℚ)) [] [] () 3 [7, 7, 7] 1 rfl).2.1,
   (findInliers_mask_and_count (fun _ _ (_ : Unit) i => (i : ℚ)) [] [] () 3 [7, 7, 7] 1 rfl).2.2.2⟩

theorem forBreak_no_break (brk : Int → Bool) :
    ∀ (n : Nat) (s : Int), ¬ forBreak brk n s < s + n →
      ∀ j : Int, s ≤ j → j < s + n → brk j = false := by
  intro n
  induction n with
  | zero => intro s _ j h1 h2; omega
  | succ n ih =>
    intro s h j h1 h2
    unfold forBreak at h
    by_cases hb : brk s = true
    · rw [if_pos hb] at h; exact absurd (by push_cast; omega) h
    · rw [if_neg hb] at h
      by_cases hj : j = s
      · subst hj; simpa using hb
      · have h3 : ¬ forBreak brk n (s + 1) < s + 1 + n := by
          intro hlt; apply h; push_cast; omega
        exact ih (s + 1) h3 j (by omega) (by push_cast at h2; omega)

theorem ptAt_eq (m : List (Point K)) (j : Nat) (h : j < m.length) :
    some (ptAt m (j : Int)) = m[j]? := by
  simp [ptAt, List.getD_eq_getElem?_getD, List.getElem?_eq_getElem h]

theorem getSubsetInner_inv (cps : Bool) (modelPoints : Nat) (rng : Nat → Nat)
    (m1 m2 : List (Point K)) (maxAttempts : Int) (hlen : m1.length = m2.length)
    (hN : 0 < m1.length) :
    ∀ (fuel : Nat) (st st' : SubsetState K), SubsetInv modelPoints m1 m2 st →
      getSubsetInner cps modelPoints rng m1 m2 maxAttempts fuel st = some st' →
      SubsetInv modelPoints m1 m2 st' := by
  intro fuel
  induction fuel with
  | zero => intro st st' _ h; simp [getSubsetInner] at h
  | succ fuel ih =>
    intro st st' hinv h
    obtain ⟨hidx, hms1, hms2, hi, hslots, hdist⟩ := hinv
    unfold getSubsetInner at h
    split at h
    · rename_i hc
      have hilt : st.i < modelPoints := hc.1
      have hmod : rng st.pos % m1.length < m1.length := Nat.mod_lt _ hN
      have hget : ∀ j, j < st.i →
          (st.idx.set st.i (rng st.pos % m1.length)).getD j 0 = st.idx.getD j 0 := by
        intro j hj
        simp [List.getD_eq_getElem?_getD, List.getElem?_set_ne (Nat.ne_of_gt hj)]
      simp only at h
      split at h
      · -- duplicate index: retry the slot
        refine ih _ _ ?_ h
        refine ⟨by simpa using hidx, hms1, hms2, hi, ?_, ?_⟩
        · intro j hj
          simp only at hj ⊢
          rw [hget j hj]; exact hslots j hj
        · intro j k hjk hk
          simp only at hk ⊢
          rw [hget j (by omega), hget k hk]; exact hdist j k hjk hk
      · rename_i hnd
        have hnb := forBreak_no_break _ st.i 0 (by simpa [dupScan] using hnd)
        have hnew : ∀ j, j < st.i → st.idx.getD j 0 ≠ rng st.pos % m1.length := by
          intro j hj
          have := hnb (j : Int) (by omega) (by omega)
          simp only [Int.toNat_ofNat, decide_eq_false_iff_not] at this
          rw [← List.getD_eq_getElem?_getD, hget j hj] at this
          exact fun e => this e.symm
        have hself : (st.idx.set st.i (rng st.pos % m1.length)).getD st.i 0
            = rng st.pos % m1.length := by
          simp [List.getD_eq_getElem?_getD, List.getElem?_set_self, hidx, hilt]
        have hbase : SubsetInv modelPoints m1 m2
            { idx := st.idx.set st.i (rng st.pos % m1.length),
              ms1 := st.ms1.set st.i (ptAt m1 ((rng st.pos % m1.length : Nat) : Int)),
              ms2 := st.ms2.set st.i (ptAt m2 ((rng st.pos % m1.length : Nat) : Int)),
              i := st.i + 1, iters := st.iters, pos := st.pos + 1 } := by
          refine ⟨by simpa using hidx, by simpa using hms1, by simpa using hms2, hilt, ?_, ?_⟩
          · intro j hj
            simp only at hj ⊢
            by_cases hji : j = st.i
            · subst hji
              rw [hself]
              refine ⟨hmod, ?_, ?_⟩
              · rw [List.getElem?_set_self (by omega)]; exact ptAt_eq m1 _ hmod
              · rw [List.getElem?_set_self (by omega)]; exact ptAt_eq m2 _ (hlen ▸ hmod)
            · have hj2 : j < st.i := by omega
              rw [hget j hj2, List.getElem?_set_ne (Nat.ne_of_gt hj2),
                List.getElem?_set_ne (Nat.ne_of_gt hj2)]
              exact hslots j hj2
          · intro j k hjk hk
            simp only at hk ⊢
            by_cases hki : k = st.i
            · subst hki
              rw [hself, hget j hjk]; exact hnew j hjk
            · rw [hget j (by omega), hget k (by omega)]; exact hdist j k hjk (by omega)
        split at h
        · -- rejected by the partial check: retry the slot
          refine ih _ _ ?_ h
          obtain ⟨b1, b2, b3, _, b5, b6⟩ := hbase
          refine ⟨b1, b2, b3, hi, ?_, ?_⟩
          · intro j hj; exact b5 j (Nat.lt_succ_of_lt hj)
          · intro j k hjk hk; exact b6 j k hjk (Nat.lt_succ_of_lt hk)
        · exact ih _ _ hbase h
    · cases h; exact ⟨hidx, hms1, hms2, hi, hslots, hdist⟩

theorem getSubsetOuter_inv (cps : Bool) (modelPoints : Nat) (rng : Nat → Nat)
    (m1 m2 : List (Point K)) (maxAttempts : Int) (hlen : m1.length = m2.length)
    (hN : 0 < m1.length) :
    ∀ (fuel : Nat) (st st' : SubsetState K), SubsetInv modelPoints m1 m2 st →
      getSubsetOuter cps modelPoints rng m1 m2 maxAttempts fuel st = some st' →
      SubsetInv modelPoints m1 m2 st' := by
  intro fuel
  induction fuel with
  | zero => intro st st' _ h; simp [getSubsetOuter] at h
  | succ fuel ih =>
    intro st st' hinv h
    unfold getSubsetOuter at h
    split at h
    · have h0 : SubsetInv modelPoints m1 m2 { st with i := 0 } := by
        obtain ⟨a1, a2, a3, _, _, _⟩ := hinv
        exact ⟨a1, a2, a3, Nat.zero_le _, fun j hj => absurd hj (Nat.not_lt_zero j),
          fun j k _ hk => absurd hk (Nat.not_lt_zero k)⟩
      split at h
      · cases h
      · rename_i st1 hin
        have h1 := getSubsetInner_inv cps modelPoints rng m1 m2 maxAttempts hlen hN _ _ _ h0 hin
        split at h
        · exact ih _ _ (by exact h1) h
        · cases h; exact h1
    · cases h; exact hinv

/-- C2: whenever `getSubset` returns true on a correspondence set of length
`N >= modelPoints >= 1` (subset buffers of `modelPoints` entries), there are
`modelPoints` pairwise distinct indices, each below `N`, such that slot `i` of
`ms1` holds `m1[idx[i]]` and slot `i` of `ms2` holds `m2[idx[i]]`; this holds
for every `maxAttempts`, random stream and `checkPartialSubsets` policy. -/
theorem getSubset_true_distinct_indices (checkPartialSubsets : Bool) (modelPoints : Nat)
    (rng : Nat → Nat) (fuel pos : Nat) (m1 m2 ms1 ms2 : List (Point K)) (maxAttempts : Int)
    (st : SubsetState K)
    (hmp : 1 ≤ modelPoints) (hN : modelPoints ≤ m1.length) (hlen : m1.length = m2.length)
    (hms1 : ms1.length = modelPoints) (hms2 : ms2.length = modelPoints)
    (h : getSubset checkPartialSubsets modelPoints rng fuel pos m1 m2 ms1 ms2 maxAttempts
      = some (true, st)) :
    ∃ idx : List Nat, idx.length = modelPoints ∧ idx.Nodup ∧
      (∀ i, i < modelPoints → idx.getD i 0 < m1.length) ∧
      st.ms1.length = modelPoints ∧ st.ms2.length = modelPoints ∧
      (∀ i, i < modelPoints →
        st.ms1[i]? = m1[idx.getD i 0]? ∧ st.ms2[i]? = m2[idx.getD i 0]?) := by
  unfold getSubset at h
  simp only at h
  split at h
  · cases h
  · rename_i st1 hout
    have h0 : SubsetInv modelPoints m1 m2
        { idx := List.replicate modelPoints 0, ms1 := ms1, ms2 := ms2, i := 0, iters := 0,
          pos := pos } :=
      ⟨by simp, hms1, hms2, Nat.zero_le _, fun j hj => absurd hj (Nat.not_lt_zero j),
        fun j k _ hk => absurd hk (Nat.not_lt_zero k)⟩
    have hinv := getSubsetOuter_inv checkPartialSubsets modelPoints rng m1 m2 maxAttempts hlen
      (by omega) _ _ _ h0 hout
    simp only [Option.some.injEq, Prod.mk.injEq, Bool.and_eq_true, decide_eq_true_eq] at h
    obtain ⟨⟨hi, _⟩, rfl⟩ := h
    obtain ⟨a1, a2, a3, _, a5, a6⟩ := hinv
    rw [hi] at a5 a6
    refine ⟨st1.idx, a1, ?_, fun i hi => (a5 i hi).1, a2, a3, fun i hi => (a5 i hi).2⟩
    rw [List.nodup_iff_getElem?_ne_getElem?]
    intro j k hjk hk
    rw [a1] at hk
    have := a6 j k hjk hk
    rw [List.getElem?_eq_getElem (by omega), List.getElem?_eq_getElem (by omega)]
    intro e
    apply this
    simp only [List.getD_eq_getElem?_getD, List.getElem?_eq_getElem (show j < st1.idx.length by omega),
      List.getElem?_eq_getElem (show k < st1.idx.length by omega)]
    simpa using e

theorem getSubset_true_distinct_indices_witness :
    ∃ idx : List Nat, idx.length = 1 ∧ idx.Nodup ∧
      (∀ i, i < 1 → idx.getD i 0 < 2) ∧
      ([⟨3, 4⟩] : List (Point ℚ)).length = 1 ∧ ([⟨7, 8⟩] : List (Point ℚ)).length = 1 ∧
      (∀ i, i < 1 →
        ([⟨3, 4⟩] : List (Point ℚ))[i]? = ([⟨1, 2⟩, ⟨3, 4⟩] : List (Point ℚ))[idx.getD i 0]? ∧
        ([⟨7, 8⟩] : List (Point ℚ))[i]? = ([⟨5, 6⟩, ⟨7, 8⟩] : List (Point ℚ))[idx.getD i 0]?) :=
  @getSubset_true_distinct_indices ℚ _ false 1 (fun _ => 1) 5 0
    [⟨1, 2⟩, ⟨3, 4⟩] [⟨5, 6⟩, ⟨7, 8⟩] [⟨0, 0⟩] [⟨0, 0⟩] 300
    { idx := [1], ms1 := [⟨3, 4⟩], ms2 := [⟨7, 8⟩], i := 1, iters := 0, pos := 1 }
    (by decide) (by decide) (by decide) (by decide) (by decide) (by rfl)

theorem checkSubset_partial_true (m : List (Point K)) (count : Int) :
    checkSubset true m count = true := by
  simp only [checkSubset, if_true, sub_self, zero_add, Int.toNat_one, forBreak]
  split <;> simp

theorem checkSubset_three (cps : Bool) (m : List (Point K)) :
    checkSubset cps m 3 = true := by
  cases cps
  · simp [checkSubset, forBreak, checkSubsetJ, checkSubsetK]
    split <;> simp
  · exact checkSubset_partial_true m 3

/-- C8 (code defect): the three points (0,0), (1,1), (2,2) are exactly collinear
(the test of line 377 fires for them), yet `checkSubset` with `count = 3`
returns true under both `checkPartialSubsets` policies: the loop breaks at
`i = i1` and `return i >= i1` still accepts. -/
theorem checkSubset_accepts_collinear_triple :
    collinearTest ([⟨0, 0⟩, ⟨1, 1⟩, ⟨2, 2⟩] : List (Point ℚ)) 2 1 0 = true ∧
    checkSubset true ([⟨0, 0⟩, ⟨1, 1⟩, ⟨2, 2⟩] : List (Point ℚ)) 3 = true ∧
    checkSubset false ([⟨0, 0⟩, ⟨1, 1⟩, ⟨2, 2⟩] : List (Point ℚ)) 3 = true := by
  refine ⟨?_, checkSubset_three _ _, checkSubset_three _ _⟩
  simp [collinearTest, ptAt, FLT_EPSILON]
  norm_num

/-- C9 (code defect): on the four correspondences (0,0), (1,1), (2,2), (5,7)
(both sequences), `modelPoints = 3` and the draws 0, 1, 2, `getSubset` returns
true under both policies with the subset (0,0), (1,1), (2,2), whose third
point lies exactly on the line through the first two. -/
theorem getSubset_returns_collinear_subset :
    (∀ cps : Bool,
      getSubset cps 3 (fun n => n) 10 0
        ([⟨0, 0⟩, ⟨1, 1⟩, ⟨2, 2⟩, ⟨5, 7⟩] : List (Point ℚ)) [⟨0, 0⟩, ⟨1, 1⟩, ⟨2, 2⟩, ⟨5, 7⟩]
        [⟨0, 0⟩, ⟨0, 0⟩, ⟨0, 0⟩] [⟨0, 0⟩, ⟨0, 0⟩, ⟨0, 0⟩] 300
      = some (true, { idx := [0, 1, 2], ms1 := [⟨0, 0⟩, ⟨1, 1⟩, ⟨2, 2⟩],
                      ms2 := [⟨0, 0⟩, ⟨1, 1⟩, ⟨2, 2⟩], i := 3, iters := 0, pos := 3 })) ∧
    collinearTest ([⟨0, 0⟩, ⟨1, 1⟩, ⟨2, 2⟩] : List (Point ℚ)) 2 1 0 = true := by
  refine ⟨?_, ?_⟩
  · intro cps
    cases cps <;>
      simp [getSubset, getSubsetOuter, getSubsetInner, dupScan, forBreak, ptAt,
        checkSubset_three, checkSubset_partial_true]
  · simp [collinearTest, ptAt, FLT_EPSILON]
    norm_num

end Theorems

section DriverTheorems

variable {K : Type} [LinearOrderedField K] [FloorRing K]

theorem cvRound_cases (x : K) : cvRound x = ⌊x⌋ ∨ cvRound x = ⌊x⌋ + 1 := by
  unfold cvRound
  simp only
  split
  · exact Or.inl rfl
  · split
    · exact Or.inr rfl
    · split
      · exact Or.inl rfl
      · exact Or.inr rfl

theorem cvRound_le_of_lt (x : K) (n : Int) (h : x < (n : K)) : cvRound x ≤ n := by
  have hf : ⌊x⌋ < n := Int.floor_lt.mpr h
  rcases cvRound_cases x with e | e <;> omega

theorem cvRound_nonneg (x : K) (h : 0 ≤ x) : 0 ≤ cvRound x := by
  have hf : (0 : Int) ≤ ⌊x⌋ := Int.floor_nonneg.mpr h
  rcases cvRound_cases x with e | e <;> omega

theorem cvRound_near (x : K) : |x - (cvRound x : K)| ≤ 1 / 2 := by
  have h1 : (⌊x⌋ : K) ≤ x := Int.floor_le x
  have h2 : x < (⌊x⌋ : K) + 1 := Int.lt_floor_add_one x
  unfold cvRound
  simp only
  rw [abs_le]
  split
  · constructor <;> linarith
  · rename_i h3
    split
    · push_cast; constructor <;> linarith
    · rename_i h4
      split
      · constructor <;> linarith
      · push_cast; constructor <;> linarith

theorem cvRANSACUpdateNumIters_le_max (log : K → K) (p ep : K) (model_points max_iters n : Int)
    (h : cvRANSACUpdateNumIters log p ep model_points max_iters = .ok n) :
    n ≤ max max_iters 0 := by
  unfold cvRANSACUpdateNumIters at h
  simp only at h
  split at h
  · cases h
  · split at h
    · cases h; exact le_max_right _ _
    · simp only [Except.ok.injEq] at h
      split at h
      · subst h; exact le_max_left _ _
      · rename_i hc
        subst h
        push_neg at hc
        obtain ⟨hd, hn⟩ := hc
        refine le_trans (cvRound_le_of_lt _ _ ?_) (le_max_left _ _)
        rw [div_lt_iff_of_neg hd]
        linarith

theorem cvRANSACUpdateNumIters_nonneg (log : K → K)
    (hlog : ∀ x : K, 0 < x → x ≤ 1 → log x ≤ 0)
    (p ep : K) (model_points max_iters n : Int) (hmax : 0 ≤ max_iters)
    (h : cvRANSACUpdateNumIters log p ep model_points max_iters = .ok n) :
    0 ≤ n := by
  unfold cvRANSACUpdateNumIters at h
  simp only at h
  split at h
  · cases h
  · split at h
    · cases h; exact le_refl _
    · simp only [Except.ok.injEq] at h
      split at h
      · subst h; exact hmax
      · rename_i hc
        subst h
        push_neg at hc
        obtain ⟨hd, _⟩ := hc
        apply cvRound_nonneg
        apply div_nonneg_of_nonpos _ (le_of_lt hd)
        apply hlog
        · exact lt_of_lt_of_le (by unfold DBL_MIN; positivity) (le_max_right _ _)
        · apply max_le
          · have : (0 : K) ≤ min (max p 0) 1 := le_min (le_max_right _ _) zero_le_one
            linarith
          · unfold DBL_MIN
            rw [div_le_one (by positivity)]
            exact one_le_pow₀ (by norm_num)

theorem cvRANSACUpdateNumIters_ok (log : K → K) (p ep : K) (model_points max_iters : Int)
    (h : 1 ≤ model_points) :
    ∃ n, cvRANSACUpdateNumIters log p ep model_points max_iters = .ok n := by
  unfold cvRANSACUpdateNumIters
  simp only
  rw [if_neg (by omega)]
  split
  · exact ⟨_, rfl⟩
  · exact ⟨_, rfl⟩

theorem ransacCandidate_unfold {M : Type} (est : Estimator K M) (log : K → K)
    (m1 m2 : List (Point K)) (thr conf : K) (st : RansacState K M) (model_i : M)
    (ht : st.tmask.length = m1.length) :
    ransacCandidate est log m1 m2 thr conf st model_i =
      if (((specInlierMask (computeReprojError est.reprojError m1 m2 model_i m1.length) thr).count 1
            : Nat) : Int) > max st.maxGoodCount ((est.modelPoints : Int) - 1) then
        match cvRANSACUpdateNumIters log conf
            ((((m1.length : Int) -
              (((specInlierMask (computeReprojError est.reprojError m1 m2 model_i m1.length)
                thr).count 1 : Nat) : Int) : Int) : K) / ((m1.length : Int) : K))
            est.modelPoints st.niters with
        | .error f => .error f
        | .ok n =>
          .ok { st with
            mask := specInlierMask (computeReprojError est.reprojError m1 m2 model_i m1.length) thr,
            tmask := st.mask, model := model_i,
            maxGoodCount := (((specInlierMask
              (computeReprojError est.reprojError m1 m2 model_i m1.length) thr).count 1 : Nat) : Int),
            niters := n,
            trace := st.trace ++ [Event.candidate model_i (((specInlierMask
              (computeReprojError est.reprojError m1 m2 model_i m1.length) thr).count 1 : Nat)
                : Int)] ++ [Event.budget n] }
      else
        .ok { st with
          tmask := specInlierMask (computeReprojError est.reprojError m1 m2 model_i m1.length) thr,
          trace := st.trace ++ [Event.candidate model_i (((specInlierMask
            (computeReprojError est.reprojError m1 m2 model_i m1.length) thr).count 1 : Nat)
              : Int)] } := by
  unfold ransacCandidate
  simp only [findInliers_eq est.reprojError m1 m2 model_i m1.length st.tmask thr ht]

theorem sampleCalls_append {M : Type} (a b : List (Event K M)) :
    sampleCalls (a ++ b) = sampleCalls a ++ sampleCalls b := by
  simp [sampleCalls]

theorem kernelCalls_append {M : Type} (a b : List (Event K M)) :
    kernelCalls (a ++ b) = kernelCalls a ++ kernelCalls b := by
  simp [kernelCalls]

theorem candidates_append {M : Type} (a b : List (Event K M)) :
    candidates (a ++ b) = candidates a ++ candidates b := by
  simp [candidates]

theorem budgets_append {M : Type} (a b : List (Event K M)) :
    budgets (a ++ b) = budgets a ++ budgets b := by
  simp [budgets]

/-- What scoring candidates leaves alone: the sampler and kernel logs, the
subset buffers and the stream position; the trace only grows. -/
theorem ransacCandidate_frame {M : Type} (est : Estimator K M) (log : K → K)
    (m1 m2 : List (Point K)) (thr conf : K) (st st' : RansacState K M) (model_i : M)
    (h : ransacCandidate est log m1 m2 thr conf st model_i = .ok st') :
    sampleCalls st'.trace = sampleCalls st.trace ∧
    kernelCalls st'.trace = kernelCalls st.trace ∧
    st'.ms1 = st.ms1 ∧ st'.ms2 = st.ms2 ∧ st'.pos = st.pos ∧
    (st.trace ≠ [] → st'.trace ≠ []) := by
  unfold ransacCandidate at h
  simp only at h
  split at h
  · split at h
    · cases h
    · cases h
      simp [sampleCalls_append, kernelCalls_append, sampleCalls, kernelCalls]
  · cases h
    simp [sampleCalls_append, kernelCalls_append, sampleCalls, kernelCalls]

theorem ransacCandidate_inv {M : Type} (est : Estimator K M) (log : K → K)
    (m1 m2 : List (Point K)) (thr conf : K) (cap : Int) (hcap : 0 ≤ cap)
    (st st' : RansacState K M) (model_i : M)
    (hinv : RansacInv est m1 m2 thr cap st)
    (h : ransacCandidate est log m1 m2 thr conf st model_i = .ok st') :
    RansacInv est m1 m2 thr cap st' := by
  obtain ⟨i1, i2, i3, i4, i5, i6⟩ := hinv
  rw [ransacCandidate_unfold est log m1 m2 thr conf st model_i i1] at h
  have hlen : (specInlierMask (computeReprojError est.reprojError m1 m2 model_i m1.length)
      thr).length = m1.length := by
    rw [specInlierMask_length, computeReprojError_length]
  split at h
  · rename_i hgt
    split at h
    · cases h
    · rename_i n hn
      cases h
      have hn2 := cvRANSACUpdateNumIters_le_max _ _ _ _ _ _ hn
      have hgt1 := lt_of_le_of_lt (le_max_left _ _) hgt
      have hgt2 := lt_of_le_of_lt (le_max_right _ _) hgt
      have hcand : ∀ g : Int, candidates (st.trace ++ [Event.candidate model_i g]
          ++ [Event.budget n]) = candidates st.trace ++ [(model_i, g)] := by
        intro g; simp [candidates_append, candidates]
      refine ⟨i2, hlen, by simp only; omega, ?_, ?_, ?_⟩
      · intro c hc
        simp only [hcand, List.mem_append, List.mem_singleton] at hc
        rcases hc with hc | hc
        · refine ⟨(i4 c hc).1, ?_⟩
          rcases (i4 c hc).2 with h1 | h1
          · left; simp only; omega
          · right; exact h1
        · subst hc
          exact ⟨rfl, Or.inl (le_refl _)⟩
      · intro _
        refine ⟨by simp only; omega, ?_, rfl⟩
        simp only [hcand, List.mem_append, List.mem_singleton, or_true]
      · simp only
        have : max st.niters 0 ≤ cap := max_le i6 hcap
        omega
  · rename_i hle
    cases h
    refine ⟨hlen, i2, i3, ?_, ?_, i6⟩
    · intro c hc
      simp only [candidates_append, List.mem_append] at hc
      rcases hc with hc | hc
      · exact i4 c hc
      · simp only [candidates, List.filterMap_cons, List.filterMap_nil,
          List.mem_singleton] at hc
        subst hc
        refine ⟨rfl, ?_⟩
        simp only [gt_iff_lt, not_lt] at hle
        rcases le_max_iff.mp hle with h1 | h1
        · left; exact h1
        · right; simp only; omega
    · intro hpos
      obtain ⟨a, b, c⟩ := i5 hpos
      refine ⟨a, ?_, c⟩
      simp only [candidates_append, List.mem_append]
      exact Or.inl b

theorem ransacCandidates_inv {M : Type} (est : Estimator K M) (log : K → K)
    (m1 m2 : List (Point K)) (thr conf : K) (cap : Int) (hcap : 0 ≤ cap) :
    ∀ (models : List M) (st st' : RansacState K M),
      RansacInv est m1 m2 thr cap st →
      ransacCandidates est log m1 m2 thr conf models st = .ok st' →
      RansacInv est m1 m2 thr cap st' ∧
      sampleCalls st'.trace = sampleCalls st.trace ∧
      kernelCalls st'.trace = kernelCalls st.trace ∧
      st'.ms1 = st.ms1 ∧ st'.ms2 = st.ms2 ∧ st'.pos = st.pos ∧
      (st.trace ≠ [] → st'.trace ≠ []) := by
  intro models
  induction models with
  | nil =>
    intro st st' hinv h
    simp only [ransacCandidates, Except.ok.injEq] at h
    subst h
    exact ⟨hinv, rfl, rfl, rfl, rfl, rfl, id⟩
  | cons model_i rest ih =>
    intro st st' hinv h
    unfold ransacCandidates at h
    split at h
    · cases h
    · rename_i st1 h1
      have hf := ransacCandidate_frame est log m1 m2 thr conf st st1 model_i h1
      have hi := ransacCandidate_inv est log m1 m2 thr conf cap hcap st st1 model_i hinv h1
      obtain ⟨a, b, c, d, e, f, g⟩ := ih st1 st' hi h
      exact ⟨a, b.trans hf.1, c.trans hf.2.1, d.trans hf.2.2.1, e.trans hf.2.2.2.1,
        f.trans hf.2.2.2.2.1, fun hne => g (hf.2.2.2.2.2 hne)⟩

theorem ransacCandidate_ok {M : Type} (est : Estimator K M) (log : K → K)
    (m1 m2 : List (Point K)) (thr conf : K) (hmp : 1 ≤ est.modelPoints)
    (st : RansacState K M) (model_i : M) :
    ∃ st', ransacCandidate est log m1 m2 thr conf st model_i = .ok st' := by
  unfold ransacCandidate
  simp only
  split
  · obtain ⟨n, hn⟩ := cvRANSACUpdateNumIters_ok log conf
      ((((m1.length : Int) - (findInliers est.reprojError m1 m2 model_i m1.length st.tmask thr).2
        : Int) : K) / ((m1.length : Int) : K)) est.modelPoints st.niters (by omega)
    rw [hn]
    exact ⟨_, rfl⟩
  · exact ⟨_, rfl⟩

theorem ransacCandidates_ok {M : Type} (est : Estimator K M) (log : K → K)
    (m1 m2 : List (Point K)) (thr conf : K) (hmp : 1 ≤ est.modelPoints) :
    ∀ (models : List M) (st : RansacState K M),
      ∃ st', ransacCandidates est log m1 m2 thr conf models st = .ok st' := by
  intro models
  induction models with
  | nil => intro st; exact ⟨st, rfl⟩
  | cons model_i rest ih =>
    intro st
    obtain ⟨st1, h1⟩ := ransacCandidate_ok est log m1 m2 thr conf hmp st model_i
    obtain ⟨st2, h2⟩ := ih st1
    exact ⟨st2, by simp only [ransacCandidates, h1, h2]⟩

theorem RansacInv_congr {M : Type} (est : Estimator K M) (m1 m2 : List (Point K)) (thr : K)
    (cap : Int) (st st' : RansacState K M)
    (h1 : st'.tmask = st.tmask) (h2 : st'.mask = st.mask)
    (h3 : st'.maxGoodCount = st.maxGoodCount) (h4 : candidates st'.trace = candidates st.trace)
    (h5 : st'.model = st.model) (h6 : st'.niters = st.niters)
    (hinv : RansacInv est m1 m2 thr cap st) : RansacInv est m1 m2 thr cap st' := by
  unfold RansacInv at hinv ⊢
  rw [h1, h2, h3, h4, h5, h6]
  exact hinv

theorem sampleStep_events {M : Type} (est : Estimator K M) (rng : Nat → Nat) (fuel : Nat)
    (m1 m2 ms1 ms2 : List (Point K)) (pos : Nat) (found : Bool)
    (ms1' ms2' : List (Point K)) (pos' : Nat) (evs : List (Event K M))
    (h : sampleStep est rng fuel m1 m2 ms1 ms2 pos = .ok (found, ms1', ms2', pos', evs)) :
    (evs = [Event.sample found] ∧ est.modelPoints < m1.length) ∨
    (evs = [] ∧ found = true ∧ ms1' = ms1 ∧ ms2' = ms2 ∧ pos' = pos ∧
      ¬ est.modelPoints < m1.length) := by
  unfold sampleStep at h
  split at h
  · rename_i hgt
    split at h
    · cases h
    · cases h
      exact Or.inl ⟨rfl, hgt⟩
  · rename_i hgt
    cases h
    exact Or.inr ⟨rfl, rfl, rfl, rfl, rfl, hgt⟩

theorem ransacTrial_inv {M : Type} (est : Estimator K M) (log : K → K)
    (m1 m2 : List (Point K)) (thr conf : K) (cap : Int) (hcap : 0 ≤ cap)
    (st st' : RansacState K M) (hinv : RansacInv est m1 m2 thr cap st)
    (h : ransacTrial est log m1 m2 thr conf st = .ok st') :
    RansacInv est m1 m2 thr cap st' ∧
    sampleCalls st'.trace = sampleCalls st.trace ∧
    kernelCalls st'.trace = kernelCalls st.trace ++ [(st.ms1, st.ms2)] ∧
    st'.ms1 = st.ms1 ∧ st'.ms2 = st.ms2 ∧ st'.pos = st.pos ∧ st'.trace ≠ [] := by
  unfold ransacTrial at h
  simp only at h
  have hk : RansacInv est m1 m2 thr cap
      { st with trace := st.trace ++ [Event.kernel st.ms1 st.ms2] } :=
    RansacInv_congr est m1 m2 thr cap st _ rfl rfl rfl
      (by simp [candidates_append, candidates]) rfl rfl hinv
  obtain ⟨a, b, c, d, e, f, g⟩ :=
    ransacCandidates_inv est log m1 m2 thr conf cap hcap _ _ _ hk h
  refine ⟨a, ?_, ?_, d, e, f, g (by simp)⟩
  · rw [b]; simp [sampleCalls_append, sampleCalls]
  · rw [c]; simp [kernelCalls_append, kernelCalls]

theorem ransacLoop_exit {M : Type} (est : Estimator K M) (log : K → K) (rng : Nat → Nat)
    (fuel : Nat) (m1 m2 : List (Point K)) (thr conf : K) (cap : Int) (hcap : 0 ≤ cap) :
    ∀ (loopFuel : Nat) (iter : Int) (st : RansacState K M) (ex : LoopExit (RansacState K M)),
      RansacInv est m1 m2 thr cap st → RansacHead cap iter st →
      ransacLoop est log rng fuel m1 m2 thr conf loopFuel iter st = .ok ex →
      RansacExit est m1 m2 thr cap ex := by
  intro loopFuel
  induction loopFuel with
  | zero => intro iter st ex _ _ h; simp [ransacLoop] at h
  | succ loopFuel ih =>
    intro iter st ex hinv hhead h
    obtain ⟨g1, g2, g3, g4, g5, g6, g7⟩ := hhead
    unfold ransacLoop at h
    split at h
    · rename_i hlt
      have hn : st.niters ≤ cap := hinv.2.2.2.2.2
      split at h
      · cases h
      · rename_i found ms1 ms2 pos evs hs
        have hev := sampleStep_events est rng fuel m1 m2 _ _ _ _ _ _ _ _ hs
        have hinv1 : RansacInv est m1 m2 thr cap
            { st with ms1 := ms1, ms2 := ms2, pos := pos, trace := st.trace ++ evs } := by
          refine RansacInv_congr est m1 m2 thr cap st _ rfl rfl rfl ?_ rfl rfl hinv
          rcases hev with ⟨he, _⟩ | ⟨he, _⟩ <;> subst he <;> simp [candidates_append, candidates]
        have hk1 : kernelCalls (st.trace ++ evs) = kernelCalls st.trace := by
          rcases hev with ⟨he, _⟩ | ⟨he, _⟩ <;> subst he <;> simp [kernelCalls_append, kernelCalls]
        have hs1 : sampleCalls (st.trace ++ evs) = sampleCalls st.trace ∨
            sampleCalls (st.trace ++ evs) = sampleCalls st.trace ++ [found] := by
          rcases hev with ⟨he, _⟩ | ⟨he, _⟩ <;> subst he <;> simp [sampleCalls_append, sampleCalls]
        simp only at h
        split at h
        · rename_i hfound
          split at h
          · cases h
          · rename_i st2 ht
            obtain ⟨a, b, c, _, _, _, e⟩ :=
              ransacTrial_inv est log m1 m2 thr conf cap hcap _ _ hinv1 ht
            simp only at b c
            refine ih (iter + 1) st2 ex a ⟨by omega, by omega, ?_, ?_, ?_, fun _ => e, ?_⟩ h
            · rw [b]
              rcases hs1 with h1 | h1 <;> rw [h1]
              · omega
              · simp only [List.length_append, List.length_singleton]; push_cast; omega
            · rw [c, hk1]
              simp only [List.length_append, List.length_singleton]; push_cast; omega
            · rw [b]
              rcases hs1 with h1 | h1 <;> rw [h1]
              · exact g5
              · intro x hx
                simp only [List.mem_append, List.mem_singleton] at hx
                rcases hx with hx | hx
                · exact g5 x hx
                · rw [hx]; exact hfound
            · intro h0; omega
        · rename_i hfound
          have hff : found = false := by simpa using hfound
          subst hff
          have hevs : evs = [Event.sample false] := by
            rcases hev with ⟨he, _⟩ | ⟨_, he, _⟩
            · exact he
            · cases he
          subst hevs
          split at h
          · rename_i hi0
            cases h
            obtain ⟨t0, m0⟩ := g7 hi0
            exact ⟨by simp [t0], m0⟩
          · rename_i hi0
            cases h
            refine ⟨hinv1, g1, g2, ?_, ?_, Or.inr ⟨st.trace, g6 (by omega), rfl, g5⟩⟩
            · have hsf : sampleCalls (st.trace ++ [Event.sample false])
                  = sampleCalls st.trace ++ [false] := by
                simp [sampleCalls_append, sampleCalls]
              simp only [hsf, List.length_append, List.length_singleton]
              push_cast
              omega
            · simp only [hk1]; omega
    · cases h
      exact ⟨hinv, g1, g2, by omega, by omega, Or.inl g5⟩

theorem BudgetInv_congr {M : Type} (init : Int) (st st' : RansacState K M)
    (h1 : st'.niters = st.niters) (h2 : budgets st'.trace = budgets st.trace)
    (hinv : BudgetInv init st) : BudgetInv init st' := by
  unfold BudgetInv at hinv ⊢
  rw [h1, h2]
  exact hinv

theorem ransacCandidate_budget {M : Type} (est : Estimator K M) (log : K → K)
    (hlog : ∀ x : K, 0 < x → x ≤ 1 → log x ≤ 0)
    (m1 m2 : List (Point K)) (thr conf : K) (init : Int)
    (st st' : RansacState K M) (model_i : M) (hinv : BudgetInv init st)
    (h : ransacCandidate est log m1 m2 thr conf st model_i = .ok st') :
    BudgetInv init st' ∧ st'.niters ≤ st.niters := by
  obtain ⟨b1, b2, b3, b4⟩ := hinv
  unfold ransacCandidate at h
  simp only at h
  split at h
  · split at h
    · cases h
    · rename_i n hn
      cases h
      have hle := cvRANSACUpdateNumIters_le_max _ _ _ _ _ _ hn
      have hnn := cvRANSACUpdateNumIters_nonneg _ hlog _ _ _ _ _ b1 hn
      rw [max_eq_left b1] at hle
      have hb : ∀ g : Int, budgets (st.trace ++ [Event.candidate model_i g] ++ [Event.budget n])
          = budgets st.trace ++ [n] := by
        intro g; simp [budgets_append, budgets]
      refine ⟨⟨hnn, by simp only; omega, ?_, ?_⟩, hle⟩
      · intro b hb'
        simp only [hb, List.mem_append, List.mem_singleton] at hb'
        rcases hb' with hb' | hb'
        · have := b3 b hb'
          simp only
          omega
        · subst hb'
          simp only
          omega
      · simp only [hb, List.pairwise_append, List.pairwise_singleton, List.mem_singleton,
          true_and]
        refine ⟨b4, ?_⟩
        intro a ha b hb'
        subst hb'
        have := b3 a ha
        omega
  · cases h
    refine ⟨BudgetInv_congr init st _ rfl ?_ ⟨b1, b2, b3, b4⟩, le_refl _⟩
    simp [budgets_append, budgets]

theorem ransacCandidates_budget {M : Type} (est : Estimator K M) (log : K → K)
    (hlog : ∀ x : K, 0 < x → x ≤ 1 → log x ≤ 0)
    (m1 m2 : List (Point K)) (thr conf : K) (init : Int) :
    ∀ (models : List M) (st st' : RansacState K M), BudgetInv init st →
      ransacCandidates est log m1 m2 thr conf models st = .ok st' → BudgetInv init st' := by
  intro models
  induction models with
  | nil =>
    intro st st' hinv h
    simp only [ransacCandidates, Except.ok.injEq] at h
    subst h
    exact hinv
  | cons model_i rest ih =>
    intro st st' hinv h
    unfold ransacCandidates at h
    split at h
    · cases h
    · rename_i st1 h1
      exact ih st1 st'
        (ransacCandidate_budget est log hlog m1 m2 thr conf init st st1 model_i hinv h1).1 h

theorem ransacLoop_budget {M : Type} (est : Estimator K M) (log : K → K)
    (hlog : ∀ x : K, 0 < x → x ≤ 1 → log x ≤ 0) (rng : Nat → Nat)
    (fuel : Nat) (m1 m2 : List (Point K)) (thr conf : K) (init : Int) :
    ∀ (loopFuel : Nat) (iter : Int) (st : RansacState K M) (ex : LoopExit (RansacState K M)),
      BudgetInv init st →
      ransacLoop est log rng fuel m1 m2 thr conf loopFuel iter st = .ok ex →
      ∀ st', (ex = .aborted st' ∨ ∃ it, ex = .done it st') → BudgetInv init st' := by
  intro loopFuel
  induction loopFuel with
  | zero => intro iter st ex _ h; simp [ransacLoop] at h
  | succ loopFuel ih =>
    intro iter st ex hinv h
    unfold ransacLoop at h
    split at h
    · split at h
      · cases h
      · rename_i found ms1 ms2 pos evs hs
        have hev := sampleStep_events est rng fuel m1 m2 _ _ _ _ _ _ _ _ hs
        have hinv1 : BudgetInv init
            { st with ms1 := ms1, ms2 := ms2, pos := pos, trace := st.trace ++ evs } := by
          refine BudgetInv_congr init st _ rfl ?_ hinv
          rcases hev with ⟨he, _⟩ | ⟨he, _⟩ <;> subst he <;> simp [budgets_append, budgets]
        simp only at h
        split at h
        · split at h
          · cases h
          · rename_i st2 ht
            unfold ransacTrial at ht
            simp only at ht
            have hk := BudgetInv_congr init
              { st with ms1 := ms1, ms2 := ms2, pos := pos, trace := st.trace ++ evs }
              { st with ms1 := ms1, ms2 := ms2, pos := pos,
                        trace := st.trace ++ evs ++ [Event.kernel ms1 ms2] }
              rfl (by simp [budgets_append, budgets]) hinv1
            exact ih (iter + 1) st2 ex
              (ransacCandidates_budget est log hlog m1 m2 thr conf init _ _ _ hk ht) h
        · split at h
          · cases h
            intro st' hst
            rcases hst with hst | ⟨it, hst⟩
            · cases hst; exact hinv1
            · cases hst
          · cases h
            intro st' hst
            rcases hst with hst | ⟨it, hst⟩
            · cases hst
            · cases hst; exact hinv1
    · cases h
      intro st' hst
      rcases hst with hst | ⟨it, hst⟩
      · cases hst
      · cases hst; exact hinv

theorem runRANSAC_cases {M : Type} (est : Estimator K M) (log : K → K) (rng : Nat → Nat)
    (fuel pos : Nat) (m1 m2 : List (Point K)) (model : M) (mask0 : List Nat) (totalIters : Int)
    (thr conf : K) (r : RansacResult K M)
    (h : runRANSAC est log rng fuel pos m1 m2 model mask0 totalIters thr conf = .ok r) :
    m1.length = m2.length ∧ m1.length = mask0.length ∧
    ((m1.length < est.modelPoints ∧ r.result = false ∧ r.model = model ∧ r.mask0 = mask0 ∧
        r.totalIters = totalIters ∧ r.pos = pos ∧ r.trace = [] ∧ r.maxGoodCount = 0) ∨
     (est.modelPoints ≤ m1.length ∧
      ∃ ex, ransacLoop est log rng fuel m1 m2 thr conf fuel 0
          (ransacInit est pos m1 m2 model mask0) = .ok ex ∧
        ((∃ st, ex = .aborted st ∧ r.result = false ∧ r.model = st.model ∧ r.mask0 = mask0 ∧
            r.totalIters = totalIters ∧ r.pos = st.pos ∧ r.trace = st.trace ∧
            r.maxGoodCount = st.maxGoodCount) ∨
         (∃ iter st, ex = .done iter st ∧ r.result = decide (0 < st.maxGoodCount) ∧
            r.model = st.model ∧ r.mask0 = (if 0 < st.maxGoodCount then st.mask else mask0) ∧
            r.totalIters = iter ∧ r.pos = st.pos ∧ r.trace = st.trace ∧
            r.maxGoodCount = st.maxGoodCount)))) := by
  unfold runRANSAC at h
  simp only at h
  split at h
  · cases h
  · rename_i hsz
    have hsz2 : m1.length = m2.length ∧ m1.length = mask0.length := by
      by_contra hc; exact hsz hc
    refine ⟨hsz2.1, hsz2.2, ?_⟩
    split at h
    · rename_i hlt
      cases h
      exact Or.inl ⟨hlt, rfl, rfl, rfl, rfl, rfl, rfl, rfl⟩
    · rename_i hge
      right
      refine ⟨by omega, ?_⟩
      split at h
      · cases h
      · rename_i st hl
        cases h
        exact ⟨_, hl, Or.inl ⟨st, rfl, rfl, rfl, rfl, rfl, rfl, rfl, rfl⟩⟩
      · rename_i iter st hl
        refine ⟨_, hl, Or.inr ⟨iter, st, rfl, ?_⟩⟩
        split at h
        · rename_i hp
          cases h
          exact ⟨by simp [hp], rfl, by simp [hp], rfl, rfl, rfl, rfl⟩
        · rename_i hp
          cases h
          have hp2 : ¬ 0 < st.maxGoodCount := hp
          exact ⟨by simp [hp2], rfl, by simp [hp2], rfl, rfl, rfl, rfl⟩

theorem ransacInit_inv {M : Type} (est : Estimator K M) (pos : Nat) (m1 m2 : List (Point K))
    (model : M) (mask0 : List Nat) (thr : K) (hm : m1.length = mask0.length) :
    RansacInv est m1 m2 thr (max est.maxIters 1) (ransacInit est pos m1 m2 model mask0) ∧
    RansacHead (max est.maxIters 1) 0 (ransacInit est pos m1 m2 model mask0) := by
  refine ⟨⟨by simp [ransacInit], hm.symm, le_refl _, ?_, ?_, ?_⟩,
    ⟨le_refl _, le_trans zero_le_one (le_max_right _ _), ?_, ?_, ?_, ?_, ?_⟩⟩
  · intro c hc; simp [ransacInit, candidates] at hc
  · intro hp; simp [ransacInit] at hp
  · simp only [ransacInit]
    split
    · exact le_max_left _ _
    · exact le_max_right _ _
  · simp [ransacInit, sampleCalls]
  · simp [ransacInit, kernelCalls]
  · intro b hb; simp [ransacInit, sampleCalls] at hb
  · intro hp; exact absurd hp (lt_irrefl _)
  · intro _; exact ⟨rfl, rfl⟩

/-- Summary of a completed run of `runRANSAC`: sizes matched, and either the
run stopped at once, or was aborted by a sampling failure in iteration 0, or
left the loop in a state satisfying the loop invariants. -/
theorem runRANSAC_exit {M : Type} (est : Estimator K M) (log : K → K) (rng : Nat → Nat)
    (fuel pos : Nat) (m1 m2 : List (Point K)) (model : M) (mask0 : List Nat) (totalIters : Int)
    (thr conf : K) (r : RansacResult K M)
    (h : runRANSAC est log rng fuel pos m1 m2 model mask0 totalIters thr conf = .ok r) :
    (r.result = false ∧ r.totalIters = totalIters ∧ r.trace = [] ∧ r.maxGoodCount = 0) ∨
    (r.result = false ∧ r.totalIters = totalIters ∧ r.trace = [Event.sample false] ∧
      r.maxGoodCount = 0) ∨
    (∃ iter st, RansacExit est m1 m2 thr (max est.maxIters 1) (.done iter st) ∧
      r.result = decide (0 < st.maxGoodCount) ∧
      r.model = st.model ∧ r.mask0 = (if 0 < st.maxGoodCount then st.mask else mask0) ∧
      r.totalIters = iter ∧ r.trace = st.trace ∧ r.maxGoodCount = st.maxGoodCount) := by
  obtain ⟨_, hm, hc⟩ := runRANSAC_cases est log rng fuel pos m1 m2 model mask0 totalIters thr conf r h
  rcases hc with ⟨_, a, _, _, b, _, c, d⟩ | ⟨_, ex, hl, hc⟩
  · exact Or.inl ⟨a, b, c, d⟩
  · obtain ⟨hi, hh⟩ := ransacInit_inv est pos m1 m2 model mask0 thr hm
    have hex := ransacLoop_exit est log rng fuel m1 m2 thr conf (max est.maxIters 1)
      (le_trans zero_le_one (le_max_right _ _)) fuel 0 _ ex hi hh hl
    rcases hc with ⟨st, he, a, _, _, b, _, c, d⟩ | ⟨iter, st, he, a, b, c, d, _, e, f⟩
    · subst he
      exact Or.inr (Or.inl ⟨a, b, c.trans hex.1, d.trans hex.2⟩)
    · subst he
      exact Or.inr (Or.inr ⟨iter, st, hex, a, b, c, d, e, f⟩)

theorem mem_sampleCalls {M : Type} (tr : List (Event K M)) (b : Bool)
    (h : Event.sample b ∈ tr) : b ∈ sampleCalls tr := by
  simp only [sampleCalls, List.mem_filterMap]
  exact ⟨_, h, rfl⟩

theorem failed_sample_is_last {M : Type} (tr0 pre post : List (Event K M))
    (hall : ∀ b ∈ sampleCalls tr0, b = true)
    (h : tr0 ++ [Event.sample false] = pre ++ Event.sample false :: post) :
    post = [] ∧ pre = tr0 := by
  rcases List.append_eq_append_iff.mp h with ⟨a, h1, h2⟩ | ⟨c, h1, h2⟩
  · -- pre = tr0 ++ a, [sample false] = a ++ sample false :: post
    cases a with
    | nil =>
      simp only [List.nil_append, List.cons.injEq, true_and] at h2
      exact ⟨h2.symm, by simpa using h1⟩
    | cons x a =>
      have := congrArg List.length h2
      simp at this
  · -- tr0 = pre ++ c, sample false :: post = c ++ [sample false]
    cases c with
    | nil =>
      simp only [List.nil_append, List.cons.injEq, true_and] at h2
      exact ⟨h2, by simpa using h1.symm⟩
    | cons x c =>
      simp only [List.cons_append, List.cons.injEq] at h2
      obtain ⟨hx, _⟩ := h2
      subst hx
      have hmem : Event.sample false ∈ tr0 := by rw [h1]; simp
      have := hall false (mem_sampleCalls tr0 false hmem)
      cases this

/-- C3: in `runRANSAC` (with `modelPoints >= 1`) a candidate replaces the
current best (model buffer, best mask, `maxGoodCount`) exactly when its inlier
count is strictly greater than both `maxGoodCount` and `modelPoints - 1`, and
otherwise leaves them unchanged; a completed run returns true if and only if
some candidate it evaluated had an inlier count `>= modelPoints`, and if and
only if the final `maxGoodCount` is positive; a failed sampler call is always
the last event of the run, and when it is also the first (iteration 0) the
run returns false. -/
theorem runRANSAC_best_update_and_result {M : Type} (est : Estimator K M) (log : K → K)
    (rng : Nat → Nat) (fuel pos : Nat) (m1 m2 : List (Point K)) (model : M)
    (mask0 : List Nat) (totalIters : Int) (thr conf : K) (r : RansacResult K M)
    (hmp : 1 ≤ est.modelPoints)
    (h : runRANSAC est log rng fuel pos m1 m2 model mask0 totalIters thr conf = .ok r) :
    (∀ (st : RansacState K M) (model_i : M),
      ∃ st', ransacCandidate est log m1 m2 thr conf st model_i = .ok st' ∧
        (((findInliers est.reprojError m1 m2 model_i m1.length st.tmask thr).2 > st.maxGoodCount ∧
          (findInliers est.reprojError m1 m2 model_i m1.length st.tmask thr).2
            > (est.modelPoints : Int) - 1) →
          st'.model = model_i ∧
          st'.maxGoodCount = (findInliers est.reprojError m1 m2 model_i m1.length st.tmask thr).2 ∧
          st'.mask = (findInliers est.reprojError m1 m2 model_i m1.length st.tmask thr).1) ∧
        (¬ ((findInliers est.reprojError m1 m2 model_i m1.length st.tmask thr).2 > st.maxGoodCount ∧
            (findInliers est.reprojError m1 m2 model_i m1.length st.tmask thr).2
              > (est.modelPoints : Int) - 1) →
          st'.model = st.model ∧ st'.maxGoodCount = st.maxGoodCount ∧ st'.mask = st.mask)) ∧
    (r.result = true ↔ ∃ c ∈ candidates r.trace, (est.modelPoints : Int) ≤ c.2) ∧
    (r.result = true ↔ 0 < r.maxGoodCount) ∧
    (∀ pre post, r.trace = pre ++ Event.sample false :: post →
      post = [] ∧ (pre = [] → r.result = false)) := by
  refine ⟨?_, ?_⟩
  · intro st model_i
    obtain ⟨st', hst⟩ := ransacCandidate_ok est log m1 m2 thr conf hmp st model_i
    refine ⟨st', hst, ?_, ?_⟩
    · intro hc
      unfold ransacCandidate at hst
      simp only at hst
      rw [if_pos (max_lt hc.1 hc.2)] at hst
      split at hst
      · cases hst
      · cases hst; exact ⟨rfl, rfl, rfl⟩
    · intro hc
      unfold ransacCandidate at hst
      simp only at hst
      rw [if_neg (fun hgt => hc ⟨lt_of_le_of_lt (le_max_left _ _) hgt,
        lt_of_le_of_lt (le_max_right _ _) hgt⟩)] at hst
      cases hst; exact ⟨rfl, rfl, rfl⟩
  · rcases runRANSAC_exit est log rng fuel pos m1 m2 model mask0 totalIters thr conf r h with
      ⟨a, _, c, d⟩ | ⟨a, _, c, d⟩ | ⟨iter, st, hex, a, _, _, _, c, d⟩
    · refine ⟨?_, ?_, ?_⟩
      · simp [a, c, candidates]
      · simp [a, d]
      · intro pre post hp
        rw [c] at hp
        simp at hp
    · refine ⟨?_, ?_, ?_⟩
      · simp [a, c, candidates]
      · simp [a, d]
      · intro pre post hp
        rw [c] at hp
        have := failed_sample_is_last ([] : List (Event K M)) pre post
          (by intro b hb; simp [sampleCalls] at hb) (by simpa using hp)
        exact ⟨this.1, fun _ => a⟩
    · obtain ⟨⟨_, _, j3, j4, j5, _⟩, _, _, _, _, hs⟩ := hex
      refine ⟨?_, ?_, ?_⟩
      · rw [a, c, decide_eq_true_iff]
        constructor
        · intro hp
          exact ⟨_, (j5 hp).2.1, (j5 hp).1⟩
        · rintro ⟨x, hx, hxm⟩
          rcases (j4 x hx).2 with h1 | h1 <;> omega
      · rw [a, d, decide_eq_true_iff]
      · intro pre post hp
        rw [c] at hp
        rcases hs with hs | ⟨tr0, hne, htr, hall⟩
        · have hmem : Event.sample false ∈ st.trace := by rw [hp]; simp
          have := hs false (mem_sampleCalls st.trace false hmem)
          cases this
        · rw [htr] at hp
          obtain ⟨p1, p2⟩ := failed_sample_is_last tr0 pre post hall hp
          exact ⟨p1, fun hpre => absurd (p2.symm.trans hpre) hne⟩

/-- C4: whenever `runRANSAC` returns true, the model in the output buffer is
one of the candidates evaluated in the run (logged with inlier count `g`),
the caller's mask buffer holds exactly that model's own inlier mask in
correspondence order (`mask[i] = 1` iff its error at `i` is `<= threshold^2`,
else 0) with `g` ones, and no candidate evaluated in the run has more than `g`
inliers. -/
theorem runRANSAC_true_returns_best {M : Type} (est : Estimator K M) (log : K → K)
    (rng : Nat → Nat) (fuel pos : Nat) (m1 m2 : List (Point K)) (model : M)
    (mask0 : List Nat) (totalIters : Int) (thr conf : K) (r : RansacResult K M)
    (h : runRANSAC est log rng fuel pos m1 m2 model mask0 totalIters thr conf = .ok r)
    (hres : r.result = true) :
    ∃ g : Int, (r.model, g) ∈ candidates r.trace ∧
      r.mask0.length = m1.length ∧
      (∀ i, i < m1.length →
        (r.mask0.getD i 0 = 1 ↔ est.reprojError m1 m2 r.model i ≤ thr * thr) ∧
        (r.mask0.getD i 0 = 0 ↔ ¬ est.reprojError m1 m2 r.model i ≤ thr * thr)) ∧
      g = ((r.mask0.count 1 : Nat) : Int) ∧
      (∀ c ∈ candidates r.trace, c.2 ≤ g) := by
  rcases runRANSAC_exit est log rng fuel pos m1 m2 model mask0 totalIters thr conf r h with
    ⟨a, _⟩ | ⟨a, _⟩ | ⟨iter, st, hex, a, b, c, _, d, _⟩
  · rw [a] at hres; cases hres
  · rw [a] at hres; cases hres
  · obtain ⟨⟨_, _, _, j4, j5, _⟩, _⟩ := hex
    rw [a, decide_eq_true_iff] at hres
    obtain ⟨k1, k2, k3⟩ := j5 hres
    rw [if_pos hres] at c
    refine ⟨st.maxGoodCount, by rw [b, d]; exact k2, ?_, ?_, ?_, ?_⟩
    · rw [c, k3, specInlierMask_length, computeReprojError_length]
    · intro i hi
      rw [c, k3, b, specInlierMask_getD _ _ _ (by rw [computeReprojError_length]; exact hi),
        computeReprojError_getD _ _ _ _ _ _ hi]
      by_cases hc : est.reprojError m1 m2 st.model i ≤ thr * thr <;> simp [hc]
    · rw [c, k3]
      exact (j4 _ k2).1
    · intro x hx
      rw [d] at hx
      rcases (j4 x hx).2 with h1 | h1 <;> omega

/-- C6: with `maxIters >= 1` (and a logarithm that is not positive on (0,1],
as the libm one), in every completed run of `runRANSAC` the budget `niters`
starts at most `maxIters`, each value it is recomputed to is between 0 and
`maxIters` and not above any earlier recomputed value, the sampler and the
kernel are each called at most `maxIters` times, and `totalIters` is either
left as the caller passed it (early return) or set to a value in
`[0, maxIters]`. -/
theorem runRANSAC_iterations_bounded {M : Type} (est : Estimator K M) (log : K → K)
    (rng : Nat → Nat) (fuel pos : Nat) (m1 m2 : List (Point K)) (model : M)
    (mask0 : List Nat) (totalIters : Int) (thr conf : K) (r : RansacResult K M)
    (hlog : ∀ x : K, 0 < x → x ≤ 1 → log x ≤ 0)
    (hmax : 1 ≤ est.maxIters)
    (h : runRANSAC est log rng fuel pos m1 m2 model mask0 totalIters thr conf = .ok r) :
    (ransacInit est pos m1 m2 model mask0).niters ≤ est.maxIters ∧
    (budgets r.trace).Pairwise (fun a b => b ≤ a) ∧
    (∀ b ∈ budgets r.trace, 0 ≤ b ∧ b ≤ est.maxIters) ∧
    ((sampleCalls r.trace).length : Int) ≤ est.maxIters ∧
    ((kernelCalls r.trace).length : Int) ≤ est.maxIters ∧
    (r.totalIters = totalIters ∨ (0 ≤ r.totalIters ∧ r.totalIters ≤ est.maxIters)) := by
  have hinit : 0 ≤ (ransacInit est pos m1 m2 model mask0).niters ∧
      (ransacInit est pos m1 m2 model mask0).niters ≤ est.maxIters := by
    simp only [ransacInit]
    split <;> omega
  have hb0 : BudgetInv (ransacInit est pos m1 m2 model mask0).niters
      (ransacInit est pos m1 m2 model mask0) := by
    refine ⟨hinit.1, le_refl _, ?_, ?_⟩
    · intro b hb; simp [ransacInit, budgets] at hb
    · simp [ransacInit, budgets]
  have hcap : max est.maxIters 1 = est.maxIters := max_eq_left hmax
  refine ⟨hinit.2, ?_⟩
  have hbud : (budgets r.trace).Pairwise (fun a b => b ≤ a) ∧
      (∀ b ∈ budgets r.trace, 0 ≤ b ∧ b ≤ est.maxIters) := by
    obtain ⟨_, _, hc⟩ :=
      runRANSAC_cases est log rng fuel pos m1 m2 model mask0 totalIters thr conf r h
    rcases hc with ⟨_, _, _, _, _, _, c, _⟩ | ⟨_, ex, hl, hc⟩
    · rw [c]; simp [budgets]
    · have hbi := ransacLoop_budget est log hlog rng fuel m1 m2 thr conf _ fuel 0 _ ex hb0 hl
      have key : ∀ st : RansacState K M,
          BudgetInv (ransacInit est pos m1 m2 model mask0).niters st → r.trace = st.trace →
          (budgets r.trace).Pairwise (fun a b => b ≤ a) ∧
          (∀ b ∈ budgets r.trace, 0 ≤ b ∧ b ≤ est.maxIters) := by
        intro st ⟨b1, _, b3, b4⟩ htr
        rw [htr]
        refine ⟨b4, fun b hb => ?_⟩
        have := b3 b hb
        omega
      rcases hc with ⟨st, he, _, _, _, _, _, c, _⟩ | ⟨iter, st, he, _, _, _, _, _, c, _⟩
      · exact key st (hbi st (Or.inl he)) c
      · exact key st (hbi st (Or.inr ⟨iter, he⟩)) c
  refine ⟨hbud.1, hbud.2, ?_⟩
  rcases runRANSAC_exit est log rng fuel pos m1 m2 model mask0 totalIters thr conf r h with
    ⟨_, b, c, _⟩ | ⟨_, b, c, _⟩ | ⟨iter, st, hex, _, _, _, b, c, _⟩
  · rw [c]
    refine ⟨?_, ?_, Or.inl b⟩ <;> simp [sampleCalls, kernelCalls] <;> omega
  · rw [c]
    refine ⟨?_, ?_, Or.inl b⟩ <;> simp [sampleCalls, kernelCalls] <;> omega
  · obtain ⟨_, e1, e2, e3, e4, _⟩ := hex
    rw [hcap] at e2 e3 e4
    rw [c, b]
    exact ⟨e3, e4, Or.inr ⟨e1, e2⟩⟩

theorem lmeds_too_few {M : Type} (est : Estimator K M) (log sqrt : K → K) (rng : Nat → Nat)
    (fuel pos : Nat) (m1 m2 : List (Point K)) (model : M) (mask : List Nat)
    (conf : K) (_maxIters : Int)
    (h12 : m1.length = m2.length) (hm : m1.length = mask.length)
    (hN : m1.length < est.modelPoints) :
    runLMeDS est log sqrt rng fuel pos m1 m2 model mask conf _maxIters
      = .ok { result := false, model := model, mask := mask, pos := pos, minMedian := DBL_MAX,
              iter := 0, niters := 0, trace := [] } := by
  unfold runLMeDS
  simp only
  rw [if_neg (not_not_intro ⟨h12, hm⟩)]
  rw [if_pos (by exact_mod_cast hN)]

/-- C7: on an input with matching sizes and `N < modelPoints`, `runRANSAC`
and `runLMeDS` both return false at once, for every fuel: no sampler call, no
kernel call and no candidate is logged, no random value is consumed, and the
caller's model buffer, mask buffer (and `totalIters`) are left as they were. -/
theorem drivers_reject_too_few_points {M : Type} (est : Estimator K M) (log sqrt : K → K)
    (rng : Nat → Nat) (fuel pos : Nat) (m1 m2 : List (Point K)) (model : M)
    (mask : List Nat) (totalIters : Int) (thr conf : K) (_maxIters : Int)
    (h12 : m1.length = m2.length) (hm : m1.length = mask.length)
    (hN : m1.length < est.modelPoints) :
    (∃ r, runRANSAC est log rng fuel pos m1 m2 model mask totalIters thr conf = .ok r ∧
      r.result = false ∧ r.trace = [] ∧ r.pos = pos ∧ r.model = model ∧ r.mask0 = mask ∧
      r.totalIters = totalIters) ∧
    (∃ r, runLMeDS est log sqrt rng fuel pos m1 m2 model mask conf _maxIters = .ok r ∧
      r.result = false ∧ r.trace = [] ∧ r.pos = pos ∧ r.model = model ∧ r.mask = mask) := by
  constructor
  · refine ⟨{ result := false, model := model, mask0 := mask, totalIters := totalIters,
              pos := pos, maxGoodCount := 0, trace := [] }, ?_, rfl, rfl, rfl, rfl, rfl, rfl⟩
    unfold runRANSAC
    simp only
    rw [if_neg (not_not_intro ⟨h12, hm⟩)]
    rw [if_pos hN]
  · exact ⟨_, lmeds_too_few est log sqrt rng fuel pos m1 m2 model mask conf _maxIters h12 hm hN,
      rfl, rfl, rfl, rfl, rfl⟩

/-- C10: on an input with matching sizes and `N == modelPoints` (`>= 1`),
whatever `maxIters` is, `runRANSAC` completes (for every fuel `>= 2`) without
calling `getSubset` and without consuming a random value, calls the kernel
exactly once, on the entire correspondence set (`ms1 = m1`, `ms2 = m2`), and
reports `totalIters = 1`. -/
theorem runRANSAC_exact_size_single_trial {M : Type} (est : Estimator K M) (log : K → K)
    (rng : Nat → Nat) (fuel pos : Nat) (m1 m2 : List (Point K)) (model : M)
    (mask0 : List Nat) (totalIters : Int) (thr conf : K)
    (h12 : m1.length = m2.length) (hm : m1.length = mask0.length)
    (hN : m1.length = est.modelPoints) (hmp : 1 ≤ est.modelPoints) :
    ∃ r, runRANSAC est log rng (fuel + 2) pos m1 m2 model mask0 totalIters thr conf = .ok r ∧
      sampleCalls r.trace = [] ∧ kernelCalls r.trace = [(m1, m2)] ∧
      r.totalIters = 1 ∧ r.pos = pos := by
  have hgt : ¬ m1.length > est.modelPoints := by omega
  have hinit : ransacInit est pos m1 m2 model mask0 =
      { mask := mask0, tmask := List.replicate m1.length 0, model := model, maxGoodCount := 0,
        niters := 1, ms1 := m1, ms2 := m2, pos := pos, trace := [] } := by
    simp only [ransacInit, if_neg hgt]
  have hinv : RansacInv est m1 m2 thr 1
      ({ mask := mask0, tmask := List.replicate m1.length 0, model := model, maxGoodCount := 0,
         niters := 1, ms1 := m1, ms2 := m2, pos := pos, trace := [] } : RansacState K M) := by
    refine ⟨by simp, hm.symm, le_refl _, ?_, ?_, le_refl _⟩
    · intro c hc; simp [candidates] at hc
    · intro hp; simp at hp
  obtain ⟨st2, ht⟩ := ransacCandidates_ok est log m1 m2 thr conf hmp (est.runKernel m1 m2)
    ({ mask := mask0, tmask := List.replicate m1.length 0, model := model, maxGoodCount := 0,
       niters := 1, ms1 := m1, ms2 := m2, pos := pos,
       trace := [Event.kernel m1 m2] } : RansacState K M)
  have ht2 : ransacTrial est log m1 m2 thr conf
      ({ mask := mask0, tmask := List.replicate m1.length 0, model := model, maxGoodCount := 0,
         niters := 1, ms1 := m1, ms2 := m2, pos := pos, trace := [] } : RansacState K M)
      = .ok st2 := by
    unfold ransacTrial
    simpa using ht
  obtain ⟨i1, i2, i3, _, _, i6, _⟩ :=
    ransacTrial_inv est log m1 m2 thr conf 1 zero_le_one _ _ hinv ht2
  have hn : st2.niters ≤ 1 := i1.2.2.2.2.2
  have hloop : ransacLoop est log rng (fuel + 2) m1 m2 thr conf (fuel + 2) 0
      (ransacInit est pos m1 m2 model mask0) = .ok (.done 1 st2) := by
    rw [hinit]
    unfold ransacLoop
    simp only [zero_lt_one, if_true, sampleStep, if_neg hgt, List.append_nil, ht2]
    unfold ransacLoop
    simp only [zero_add]
    rw [if_neg (by omega)]
  have hrun : ∃ r, runRANSAC est log rng (fuel + 2) pos m1 m2 model mask0 totalIters thr conf
      = .ok r ∧ r.totalIters = 1 ∧ r.pos = st2.pos ∧ r.trace = st2.trace := by
    unfold runRANSAC
    simp only
    rw [if_neg (not_not_intro ⟨h12, hm⟩), if_neg (by omega), hloop]
    simp only
    split
    · exact ⟨_, rfl, rfl, rfl, rfl⟩
    · exact ⟨_, rfl, rfl, rfl, rfl⟩
  obtain ⟨r, hr, a, b, c⟩ := hrun
  refine ⟨r, hr, ?_, ?_, a, b.trans i6⟩
  · rw [c, i2]; simp [sampleCalls]
  · rw [c, i3]; simp [kernelCalls]

theorem ex_getSubset :
    getSubset true 1 (fun n => n) 5 0 exPoints exPoints [⟨0, 0⟩] [⟨0, 0⟩] 300
      = some (true, { idx := [0], ms1 := [⟨0, 0⟩], ms2 := [⟨0, 0⟩], i := 1, iters := 0,
                      pos := 1 }) := by
  simp [getSubset, getSubsetOuter, getSubsetInner, dupScan, forBreak, ptAt, exPoints,
    checkSubset_partial_true]

theorem ex_findInliers (tmask : List Nat) (h : tmask.length = 3) :
    findInliers exEstimator.reprojError exPoints exPoints (0 : ℚ) 3 tmask 1 = ([1, 1, 0], 2) := by
  rw [findInliers_eq _ _ _ _ _ _ _ h]
  simp [specInlierMask, computeReprojError, exEstimator, exPoints, ptAt, List.range,
    List.range.loop]
  norm_num

theorem ex_cvRound : cvRound (3 / 4 : ℚ) = 1 := by
  have hf : ⌊(3 / 4 : ℚ)⌋ = 0 := by
    rw [Int.floor_eq_iff]; constructor <;> norm_num
  unfold cvRound
  simp only [hf]
  norm_num

theorem ex_update :
    cvRANSACUpdateNumIters exLog (1 / 2 : ℚ) ((((3 : Int) - 2 : Int) : ℚ) / ((3 : Int) : ℚ)) 1 2
      = .ok 1 := by
  unfold cvRANSACUpdateNumIters
  have h1 : ((((3 : Int) - 2 : Int) : ℚ) / ((3 : Int) : ℚ)) = 1 / 3 := by norm_num
  simp only [h1]
  norm_num [DBL_MIN, exLog]
  exact ex_cvRound

theorem ex_run :
    runRANSAC exEstimator exLog (fun n => n) 5 0 exPoints exPoints (0 : ℚ) [0, 0, 0] 0 1 (1 / 2)
      = .ok { result := true, model := 0, mask0 := [1, 1, 0], totalIters := 1, pos := 1,
              maxGoodCount := 2,
              trace := [Event.sample true, Event.kernel [⟨0, 0⟩] [⟨0, 0⟩],
                        Event.candidate 0 2, Event.budget 1] } := by
  have hk : exEstimator.runKernel [⟨0, 0⟩] [⟨0, 0⟩] = [0] := by
    simp [exEstimator, ptAt]
  have hfi := ex_findInliers (List.replicate 3 0) (by simp)
  have hmp : exEstimator.modelPoints = 1 := rfl
  have hmi : exEstimator.maxIters = 2 := rfl
  have hcp : exEstimator.checkPartialSubsets = true := rfl
  have hlen : exPoints.length = 3 := rfl
  have hcand : ransacCandidate exEstimator exLog exPoints exPoints 1 (1 / 2)
      { mask := [0, 0, 0], tmask := List.replicate 3 0, model := 0, maxGoodCount := 0,
        niters := 2, ms1 := [⟨0, 0⟩], ms2 := [⟨0, 0⟩], pos := 1,
        trace := [Event.sample true, Event.kernel [⟨0, 0⟩] [⟨0, 0⟩]] } 0
      = .ok { mask := [1, 1, 0], tmask := [0, 0, 0], model := 0, maxGoodCount := 2,
              niters := 1, ms1 := [⟨0, 0⟩], ms2 := [⟨0, 0⟩], pos := 1,
              trace := [Event.sample true, Event.kernel [⟨0, 0⟩] [⟨0, 0⟩],
                        Event.candidate 0 2, Event.budget 1] } := by
    unfold ransacCandidate
    simp only [hlen, hfi, hmp]
    have hu : cvRANSACUpdateNumIters exLog (2⁻¹ : ℚ) 3⁻¹ 1 2 = .ok 1 := by
      have := ex_update
      norm_num at this
      simpa using this
    norm_num
    simp [hu]
  unfold runRANSAC
  simp only [hlen, hmp]
  norm_num [ransacInit, hlen, hmp, hmi]
  unfold ransacLoop
  simp only [sampleStep, hlen, hmp, hcp]
  norm_num [ex_getSubset]
  have hz : (ptAt [(⟨0, 0⟩ : Point ℚ)] 0).y - (ptAt [(⟨0, 0⟩ : Point ℚ)] 0).x = 0 := by
    simp [ptAt]
  simp only [ransacTrial, hk, ransacCandidates, hz, List.singleton_append, hcand]
  unfold ransacLoop
  norm_num

theorem runRANSAC_best_update_and_result_witness :
    ∃ r, runRANSAC exEstimator exLog (fun n => n) 5 0 exPoints exPoints (0 : ℚ) [0, 0, 0] 0 1
        (1 / 2) = .ok r ∧
      (r.result = true ↔ ∃ c ∈ candidates r.trace, (exEstimator.modelPoints : Int) ≤ c.2) ∧
      (r.result = true ↔ 0 < r.maxGoodCount) :=
  ⟨_, ex_run,
    (runRANSAC_best_update_and_result exEstimator exLog (fun n => n) 5 0 exPoints exPoints
      (0 : ℚ) [0, 0, 0] 0 1 (1 / 2) _ (le_refl 1) ex_run).2.1,
    (runRANSAC_best_update_and_result exEstimator exLog (fun n => n) 5 0 exPoints exPoints
      (0 : ℚ) [0, 0, 0] 0 1 (1 / 2) _ (le_refl 1) ex_run).2.2.1⟩

theorem runRANSAC_true_returns_best_witness :
    ∃ r, runRANSAC exEstimator exLog (fun n => n) 5 0 exPoints exPoints (0 : ℚ) [0, 0, 0] 0 1
        (1 / 2) = .ok r ∧ r.result = true ∧
      ∃ g : Int, (r.model, g) ∈ candidates r.trace ∧ g = ((r.mask0.count 1 : Nat) : Int) ∧
        ∀ c ∈ candidates r.trace, c.2 ≤ g := by
  obtain ⟨g, h1, _, _, h2, h3⟩ :=
    runRANSAC_true_returns_best exEstimator exLog (fun n => n) 5 0 exPoints exPoints
      (0 : ℚ) [0, 0, 0] 0 1 (1 / 2) _ ex_run rfl
  exact ⟨_, ex_run, rfl, g, h1, h2, h3⟩

theorem runRANSAC_iterations_bounded_witness :
    ∃ r, runRANSAC exEstimator exLog (fun n => n) 5 0 exPoints exPoints (0 : ℚ) [0, 0, 0] 0 1
        (1 / 2) = .ok r ∧
      (budgets r.trace).Pairwise (fun a b => b ≤ a) ∧
      (∀ b ∈ budgets r.trace, 0 ≤ b ∧ b ≤ exEstimator.maxIters) ∧
      ((kernelCalls r.trace).length : Int) ≤ exEstimator.maxIters :=
  have h := runRANSAC_iterations_bounded exEstimator exLog (fun n => n) 5 0 exPoints exPoints
    (0 : ℚ) [0, 0, 0] 0 1 (1 / 2) _
    (fun x _ hx => by unfold exLog; linarith) (by decide) ex_run
  ⟨_, ex_run, h.2.1, h.2.2.1, h.2.2.2.2.1⟩

theorem drivers_reject_too_few_points_witness :
    (∃ r, runRANSAC exEstimator exLog (fun n => n) 5 0 [] [] (7 : ℚ) [] 9 1 (1 / 2) = .ok r ∧
      r.result = false ∧ r.trace = [] ∧ r.pos = 0 ∧ r.model = 7 ∧ r.mask0 = [] ∧
      r.totalIters = 9) ∧
    (∃ r, runLMeDS exEstimator exLog (fun x => x) (fun n => n) 5 0 [] [] (7 : ℚ) [] (1 / 2) 0
        = .ok r ∧
      r.result = false ∧ r.trace = [] ∧ r.pos = 0 ∧ r.model = 7 ∧ r.mask = []) :=
  drivers_reject_too_few_points exEstimator exLog (fun x => x) (fun n => n) 5 0 [] [] (7 : ℚ) []
    9 1 (1 / 2) 0 rfl rfl (by decide)

theorem runRANSAC_exact_size_single_trial_witness :
    ∃ r, runRANSAC exEstimator exLog (fun n => n) (3 + 2) 0 [⟨1, 2⟩] [⟨3, 4⟩] (7 : ℚ) [0] 9 1
        (1 / 2) = .ok r ∧
      sampleCalls r.trace = [] ∧ kernelCalls r.trace = [([⟨1, 2⟩], [⟨3, 4⟩])] ∧
      r.totalIters = 1 ∧ r.pos = 0 :=
  runRANSAC_exact_size_single_trial exEstimator exLog (fun n => n) 3 0 [⟨1, 2⟩] [⟨3, 4⟩]
    (7 : ℚ) [0] 9 1 (1 / 2) rfl rfl rfl (le_refl 1)

theorem cvRound_intCast (n : Int) : cvRound ((n : K)) = n := by
  unfold cvRound
  simp

theorem log_DBL_MIN : Real.log (DBL_MIN : ℝ) = -(1022 * Real.log 2) := by
  unfold DBL_MIN
  rw [one_div, Real.log_inv, Real.log_pow]
  norm_num

/-- C5 (counterexample): at `p = 1 - 2^-1023`, `ep = 1/2`, `model_points = 1`,
`max_iters = 2000` the code returns 1022, because the numerator is
`log(max(1-p, DBL_MIN)) = log(DBL_MIN)`, while the formula of the claim,
`round(log(1-p) / log(1-(1-ep)^k))`, gives 1023. -/
theorem cvRANSACUpdateNumIters_clamps_numerator :
    cvRANSACUpdateNumIters Real.log (1 - 1 / 2 ^ 1023 : ℝ) (1 / 2) 1 2000 = .ok 1022 ∧
    specUpdateNumIters Real.log (1 - 1 / 2 ^ 1023 : ℝ) (1 / 2) 1 2000 = 1023 := by
  have hl2 : 0 < Real.log 2 := Real.log_pos (by norm_num)
  have hp0 : (0 : ℝ) ≤ 1 - 1 / 2 ^ 1023 := by norm_num
  have hp1 : (1 - 1 / 2 ^ 1023 : ℝ) ≤ 1 := by norm_num
  have hep : min (max (1 / 2 : ℝ) 0) 1 = 1 / 2 := by
    rw [max_eq_left (by norm_num), min_eq_left (by norm_num)]
  have hp : min (max (1 - 1 / 2 ^ 1023 : ℝ) 0) 1 = 1 - 1 / 2 ^ 1023 := by
    rw [max_eq_left hp0, min_eq_left hp1]
  have hden : (1 : ℝ) - (1 - 1 / 2) ^ 1 = 1 / 2 := by norm_num
  have hdm : ¬ ((1 / 2 : ℝ) < DBL_MIN) := by unfold DBL_MIN; norm_num
  have hlh : Real.log (1 / 2 : ℝ) = -Real.log 2 := by
    rw [one_div, Real.log_inv]
  constructor
  · unfold cvRANSACUpdateNumIters
    simp only [hep, hp]
    rw [if_neg (by norm_num)]
    have hnum : max (1 - (1 - 1 / 2 ^ 1023 : ℝ)) DBL_MIN = DBL_MIN := by
      apply max_eq_right; unfold DBL_MIN; norm_num
    simp only [Int.toNat_one, hden, hnum, if_neg hdm, hlh, log_DBL_MIN]
    rw [if_neg]
    · have : -(1022 * Real.log 2) / -Real.log 2 = ((1022 : Int) : ℝ) := by
        field_simp
      rw [this, cvRound_intCast]
    · push_neg
      constructor
      · linarith
      · push_cast; nlinarith
  · unfold specUpdateNumIters
    simp only [hep, hp, hden, if_neg hdm, hlh]
    have hnum : Real.log (1 - (1 - 1 / 2 ^ 1023 : ℝ)) = -(1023 * Real.log 2) := by
      have : (1 - (1 - 1 / 2 ^ 1023 : ℝ)) = (2 ^ 1023)⁻¹ := by norm_num
      rw [this, Real.log_inv, Real.log_pow]
      norm_num
    rw [hnum]
    have hr : -(1023 * Real.log 2) / -Real.log 2 = ((1023 : Int) : ℝ) := by
      field_simp
    rw [hr, if_neg, cvRound_intCast]
    push_neg
    constructor
    · linarith
    · norm_num

/-- C5 (amended): over the reals, for every `p`, `ep`, `model_points >= 1` and
`max_iters >= 0`, `cvRANSACUpdateNumIters` returns an integer `r` with
`0 <= r <= max_iters`. With `p'`, `ep'` the clamped arguments,
`d = 1-(1-ep')^k` and `ratio = log(max(1-p', DBL_MIN)) / log d`: `r = 0` when
`d < DBL_MIN`; otherwise `r = max_iters` when `log d = 0` or
`ratio >= max_iters`; otherwise `r` is `ratio` rounded to the nearest integer. -/
theorem cvRANSACUpdateNumIters_range_and_value (p ep : ℝ) (model_points max_iters : Int)
    (hk : 1 ≤ model_points) (hmax : 0 ≤ max_iters) :
    ∃ r : Int, cvRANSACUpdateNumIters Real.log p ep model_points max_iters = .ok r ∧
      0 ≤ r ∧ r ≤ max_iters ∧
      (1 - (1 - min (max ep 0) 1) ^ model_points.toNat < (DBL_MIN : ℝ) → r = 0) ∧
      (¬ 1 - (1 - min (max ep 0) 1) ^ model_points.toNat < (DBL_MIN : ℝ) →
        (Real.log (1 - (1 - min (max ep 0) 1) ^ model_points.toNat) = 0 ∨
          Real.log (max (1 - min (max p 0) 1) DBL_MIN) /
            Real.log (1 - (1 - min (max ep 0) 1) ^ model_points.toNat) ≥ (max_iters : ℝ)) →
        r = max_iters) ∧
      (¬ 1 - (1 - min (max ep 0) 1) ^ model_points.toNat < (DBL_MIN : ℝ) →
        ¬ (Real.log (1 - (1 - min (max ep 0) 1) ^ model_points.toNat) = 0 ∨
          Real.log (max (1 - min (max p 0) 1) DBL_MIN) /
            Real.log (1 - (1 - min (max ep 0) 1) ^ model_points.toNat) ≥ (max_iters : ℝ)) →
        r = cvRound (Real.log (max (1 - min (max p 0) 1) DBL_MIN) /
              Real.log (1 - (1 - min (max ep 0) 1) ^ model_points.toNat)) ∧
        |Real.log (max (1 - min (max p 0) 1) DBL_MIN) /
              Real.log (1 - (1 - min (max ep 0) 1) ^ model_points.toNat) - (r : ℝ)| ≤ 1 / 2) := by
  obtain ⟨r, hr⟩ := cvRANSACUpdateNumIters_ok Real.log p ep model_points max_iters hk
  have hlog : ∀ x : ℝ, 0 < x → x ≤ 1 → Real.log x ≤ 0 :=
    fun x h0 h1 => Real.log_nonpos (le_of_lt h0) h1
  have h0 := cvRANSACUpdateNumIters_nonneg Real.log hlog p ep model_points max_iters r hmax hr
  have h1 := cvRANSACUpdateNumIters_le_max Real.log p ep model_points max_iters r hr
  rw [max_eq_left hmax] at h1
  refine ⟨r, hr, h0, h1, ?_, ?_, ?_⟩
  · intro hd
    unfold cvRANSACUpdateNumIters at hr
    simp only at hr
    rw [if_neg (by omega), if_pos hd] at hr
    cases hr; rfl
  · intro hd hc
    have hep0 : (0 : ℝ) ≤ min (max ep 0) 1 := le_min (le_max_right _ _) zero_le_one
    have hep1 : min (max ep 0) 1 ≤ (1 : ℝ) := min_le_right _ _
    have hdpos : (0 : ℝ) < 1 - (1 - min (max ep 0) 1) ^ model_points.toNat :=
      lt_of_lt_of_le (by unfold DBL_MIN; positivity) (not_lt.mp hd)
    have hdle : 1 - (1 - min (max ep 0) 1) ^ model_points.toNat ≤ (1 : ℝ) := by
      have : (0 : ℝ) ≤ (1 - min (max ep 0) 1) ^ model_points.toNat :=
        pow_nonneg (by linarith) _
      linarith
    have hln := hlog _ hdpos hdle
    unfold cvRANSACUpdateNumIters at hr
    simp only at hr
    rw [if_neg (by omega), if_neg hd] at hr
    simp only [Except.ok.injEq] at hr
    rw [if_pos] at hr
    · exact hr.symm
    · rcases hc with hc | hc
      · left; rw [hc]
      · rcases eq_or_lt_of_le hln with hz | hneg
        · left; rw [hz]
        · right
          rw [ge_iff_le, le_div_iff_of_neg hneg] at hc
          linarith
  · intro hd hc
    push_neg at hc
    obtain ⟨hne, hlt⟩ := hc
    have hep0 : (0 : ℝ) ≤ min (max ep 0) 1 := le_min (le_max_right _ _) zero_le_one
    have hdpos : (0 : ℝ) < 1 - (1 - min (max ep 0) 1) ^ model_points.toNat :=
      lt_of_lt_of_le (by unfold DBL_MIN; positivity) (not_lt.mp hd)
    have hdle : 1 - (1 - min (max ep 0) 1) ^ model_points.toNat ≤ (1 : ℝ) := by
      have hep1 : min (max ep 0) 1 ≤ (1 : ℝ) := min_le_right _ _
      have : (0 : ℝ) ≤ (1 - min (max ep 0) 1) ^ model_points.toNat :=
        pow_nonneg (by linarith) _
      linarith
    have hneg : Real.log (1 - (1 - min (max ep 0) 1) ^ model_points.toNat) < 0 :=
      lt_of_le_of_ne (hlog _ hdpos hdle) hne
    unfold cvRANSACUpdateNumIters at hr
    simp only at hr
    rw [if_neg (by omega), if_neg hd] at hr
    simp only [Except.ok.injEq] at hr
    rw [if_neg] at hr
    · subst hr
      exact ⟨rfl, cvRound_near _⟩
    · push_neg
      refine ⟨hneg, ?_⟩
      rw [div_lt_iff_of_neg hneg] at hlt
      linarith

theorem cvRANSACUpdateNumIters_range_and_value_witness :
    ∃ r : Int, cvRANSACUpdateNumIters Real.log (99 / 100) (1 / 2) 1 1000 = .ok r ∧
      0 ≤ r ∧ r ≤ 1000 := by
  obtain ⟨r, h1, h2, h3, _⟩ :=
    cvRANSACUpdateNumIters_range_and_value (99 / 100) (1 / 2) 1 1000 (le_refl 1) (by decide)
  exact ⟨r, h1, h2, h3⟩

/-- C15: for every confidence `p`, every `model_points >= 1`, every
`max_iters` and every `ep <= 0` (clamped to 0, so that `1-(1-ep)^k = 0`
underflows), `cvRANSACUpdateNumIters` returns 0, whatever the logarithm. -/
theorem cvRANSACUpdateNumIters_zero_outliers (log : K → K) (p ep : K)
    (model_points max_iters : Int) (hk : 1 ≤ model_points) (hep : ep ≤ 0) :
    cvRANSACUpdateNumIters log p ep model_points max_iters = .ok 0 := by
  unfold cvRANSACUpdateNumIters
  simp only
  rw [if_neg (by omega)]
  have h0 : min (max ep 0) 1 = (0 : K) := by
    rw [max_eq_right hep, min_eq_left zero_le_one]
  rw [h0, if_pos]
  simp only [sub_zero, one_pow, sub_self]
  unfold DBL_MIN
  positivity

theorem cvRANSACUpdateNumIters_zero_outliers_witness :
    cvRANSACUpdateNumIters Real.log (99 / 100) 0 4 1000 = .ok 0 :=
  cvRANSACUpdateNumIters_zero_outliers Real.log (99 / 100) 0 4 1000 (by decide) (le_refl 0)

theorem getSubsetInner_partial_iters (modelPoints : Nat) (rng : Nat → Nat)
    (m1 m2 : List (Point K)) (maxAttempts : Int) :
    ∀ (fuel : Nat) (st st' : SubsetState K),
      getSubsetInner true modelPoints rng m1 m2 maxAttempts fuel st = some st' →
      st'.iters = st.iters := by
  intro fuel
  induction fuel with
  | zero => intro st st' h; simp [getSubsetInner] at h
  | succ fuel ih =>
    intro st st' h
    unfold getSubsetInner at h
    split at h
    · simp only at h
      split at h
      · exact (ih _ _ h).trans rfl
      · simp only [checkSubset_partial_true, Bool.not_true, Bool.or_self, Bool.and_false,
          Bool.false_eq_true, if_false] at h
        exact (ih _ _ h).trans rfl
    · cases h; rfl

/-- With `checkPartialSubsets` enabled, `checkSubset` returns true for
every point sequence and every `count` (the loop over `i` is the single
iteration `i = i1 = count-1`, and `i >= i1` holds with or without a break);
so a completed `getSubset` call under this policy leaves the attempt counter
`iters` at 0: no pick was rejected for degeneracy. -/
theorem getSubset_partial_iters_zero (m : List (Point K)) (count : Int)
    (modelPoints : Nat) (rng : Nat → Nat) (fuel pos : Nat) (m1 m2 ms1 ms2 : List (Point K))
    (maxAttempts : Int) :
    checkSubset true m count = true ∧
    ∀ (found : Bool) (st : SubsetState K),
      getSubset true modelPoints rng fuel pos m1 m2 ms1 ms2 maxAttempts = some (found, st) →
      st.iters = 0 := by
  refine ⟨checkSubset_partial_true m count, ?_⟩
  intro found st h
  unfold getSubset at h
  simp only at h
  split at h
  · cases h
  · rename_i st1 hout
    simp only [Option.some.injEq, Prod.mk.injEq] at h
    obtain ⟨_, rfl⟩ := h
    cases fuel with
    | zero => simp [getSubsetOuter] at hout
    | succ fuel =>
      unfold getSubsetOuter at hout
      split at hout
      · split at hout
        · cases hout
        · rename_i st2 hin
          have := getSubsetInner_partial_iters modelPoints rng m1 m2 maxAttempts _ _ _ hin
          simp only [Bool.not_true, Bool.false_and, Bool.false_eq_true, if_false,
            Option.some.injEq] at hout
          subst hout
          simpa using this
      · cases hout; rfl

theorem cvRound_of_mem_Ioo (x : K) (n : Int) (h1 : (n : K) + 1 / 2 < x) (h2 : x < (n : K) + 1) :
    cvRound x = n + 1 := by
  have hf : ⌊x⌋ = n := by
    rw [Int.floor_eq_iff]
    constructor <;> linarith
  unfold cvRound
  simp only [hf]
  rw [if_neg (by linarith), if_pos (by linarith)]

/-- C16: over the reals, `cvRANSACUpdateNumIters(p = 0.99, ep = 0.5,
model_points = 1, max_iters = 1000)` returns 7, which is
`log(0.01)/log(0.5)` (about 6.64) rounded to the nearest integer and is within
the cap. -/
theorem cvRANSACUpdateNumIters_example_seven :
    cvRANSACUpdateNumIters Real.log (99 / 100) (1 / 2) 1 1000 = .ok 7 ∧
    cvRound (Real.log (1 / 100) / Real.log (1 / 2)) = 7 ∧
    |Real.log (1 / 100) / Real.log (1 / 2) - 7| ≤ 1 / 2 ∧ (7 : Int) ≤ 1000 := by
  have hl2 : 0 < Real.log 2 := Real.log_pos (by norm_num)
  have hlh : Real.log (1 / 2 : ℝ) = -Real.log 2 := by
    rw [one_div, Real.log_inv]
  have hlc : Real.log (1 / 100 : ℝ) = -Real.log 100 := by
    rw [one_div, Real.log_inv]
  have hlo : 13 / 2 * Real.log 2 < Real.log 100 := by
    have h : Real.log ((2 : ℝ) ^ 13) < Real.log ((100 : ℝ) ^ 2) :=
      Real.log_lt_log (by positivity) (by norm_num)
    rw [Real.log_pow, Real.log_pow] at h
    push_cast at h
    linarith
  have hhi : Real.log 100 < 7 * Real.log 2 := by
    have h : Real.log (100 : ℝ) < Real.log ((2 : ℝ) ^ 7) :=
      Real.log_lt_log (by positivity) (by norm_num)
    rw [Real.log_pow] at h
    push_cast at h
    linarith
  have hratio : Real.log (1 / 100 : ℝ) / Real.log (1 / 2) = Real.log 100 / Real.log 2 := by
    rw [hlh, hlc, neg_div_neg_eq]
  have hr1 : ((6 : Int) : ℝ) + 1 / 2 < Real.log 100 / Real.log 2 := by
    rw [lt_div_iff₀ hl2]; push_cast; linarith
  have hr2 : Real.log 100 / Real.log 2 < ((6 : Int) : ℝ) + 1 := by
    rw [div_lt_iff₀ hl2]; push_cast; linarith
  have hround : cvRound (Real.log (1 / 100 : ℝ) / Real.log (1 / 2)) = 7 := by
    rw [hratio, cvRound_of_mem_Ioo _ 6 hr1 hr2]; rfl
  refine ⟨?_, hround, ?_, by decide⟩
  · unfold cvRANSACUpdateNumIters
    have hp : min (max (99 / 100 : ℝ) 0) 1 = 99 / 100 := by
      rw [max_eq_left (by norm_num), min_eq_left (by norm_num)]
    have hep : min (max (1 / 2 : ℝ) 0) 1 = 1 / 2 := by
      rw [max_eq_left (by norm_num), min_eq_left (by norm_num)]
    have hnum : max (1 - (99 / 100 : ℝ)) DBL_MIN = 1 / 100 := by
      rw [max_eq_left]
      · norm_num
      · unfold DBL_MIN; norm_num
    have hden : (1 : ℝ) - (1 - 1 / 2) ^ (1 : Int).toNat = 1 / 2 := by norm_num
    have hdm : ¬ ((1 / 2 : ℝ) < DBL_MIN) := by unfold DBL_MIN; norm_num
    simp only [hp, hep, hnum, hden]
    rw [if_neg (by norm_num), if_neg hdm, if_neg, hround]
    push_neg
    constructor
    · rw [hlh]; linarith
    · rw [hlh, hlc]; push_cast; nlinarith
  · rw [hratio, abs_le]
    push_cast at hr1 hr2
    constructor <;> linarith

theorem scored_append {M : Type} (a b : List (Event K M)) :
    scored (a ++ b) = scored a ++ scored b := by
  simp [scored]

theorem lmedsCandidate_unfold {M : Type} (est : Estimator K M) (m1 m2 : List (Point K))
    (st : LmedsState K M) (model_i : M) :
    lmedsCandidate est m1 m2 st model_i =
      if lmedsScore est m1 m2 model_i < st.minMedian then
        { st with minMedian := lmedsScore est m1 m2 model_i, model := model_i,
                  trace := st.trace ++ [Event.scored model_i (lmedsScore est m1 m2 model_i)] }
      else
        { st with trace := st.trace ++ [Event.scored model_i (lmedsScore est m1 m2 model_i)] } := by
  rfl

theorem lmedsCandidate_frame {M : Type} (est : Estimator K M) (m1 m2 : List (Point K))
    (st : LmedsState K M) (model_i : M) :
    sampleCalls (lmedsCandidate est m1 m2 st model_i).trace = sampleCalls st.trace ∧
    kernelCalls (lmedsCandidate est m1 m2 st model_i).trace = kernelCalls st.trace ∧
    (lmedsCandidate est m1 m2 st model_i).ms1 = st.ms1 ∧
    (lmedsCandidate est m1 m2 st model_i).ms2 = st.ms2 ∧
    (lmedsCandidate est m1 m2 st model_i).pos = st.pos ∧
    (st.trace ≠ [] → (lmedsCandidate est m1 m2 st model_i).trace ≠ []) := by
  rw [lmedsCandidate_unfold]
  split <;> simp [sampleCalls_append, kernelCalls_append, sampleCalls, kernelCalls]

theorem lmedsCandidate_inv {M : Type} (est : Estimator K M) (m1 m2 : List (Point K))
    (st : LmedsState K M) (model_i : M) (hinv : LmedsInv est m1 m2 st) :
    LmedsInv est m1 m2 (lmedsCandidate est m1 m2 st model_i) := by
  obtain ⟨i1, i2, i3⟩ := hinv
  have hsc : scored (st.trace ++ [Event.scored model_i (lmedsScore est m1 m2 model_i)])
      = scored st.trace ++ [(model_i, lmedsScore est m1 m2 model_i)] := by
    simp [scored_append, scored]
  rw [lmedsCandidate_unfold]
  split
  · rename_i hlt
    refine ⟨?_, le_trans (le_of_lt hlt) i2, ?_⟩
    · intro c hc
      simp only [hsc, List.mem_append, List.mem_singleton] at hc
      rcases hc with hc | hc
      · exact ⟨(i1 c hc).1, le_trans (le_of_lt hlt) (i1 c hc).2⟩
      · subst hc; exact ⟨rfl, le_refl _⟩
    · intro _
      refine ⟨scored st.trace, [], hsc, ?_⟩
      intro d hd
      exact lt_of_lt_of_le hlt (i1 d hd).2
  · rename_i hge
    refine ⟨?_, i2, ?_⟩
    · intro c hc
      simp only [hsc, List.mem_append, List.mem_singleton] at hc
      rcases hc with hc | hc
      · exact i1 c hc
      · subst hc; exact ⟨rfl, not_lt.mp hge⟩
    · intro hp
      obtain ⟨pre, post, h1, h2⟩ := i3 hp
      refine ⟨pre, post ++ [(model_i, lmedsScore est m1 m2 model_i)], ?_, h2⟩
      simp only [hsc]
      rw [h1]
      simp

theorem lmedsCandidates_inv {M : Type} (est : Estimator K M) (m1 m2 : List (Point K)) :
    ∀ (models : List M) (st : LmedsState K M), LmedsInv est m1 m2 st →
      LmedsInv est m1 m2 (models.foldl (lmedsCandidate est m1 m2) st) ∧
      sampleCalls (models.foldl (lmedsCandidate est m1 m2) st).trace = sampleCalls st.trace ∧
      kernelCalls (models.foldl (lmedsCandidate est m1 m2) st).trace = kernelCalls st.trace ∧
      (models.foldl (lmedsCandidate est m1 m2) st).ms1 = st.ms1 ∧
      (models.foldl (lmedsCandidate est m1 m2) st).ms2 = st.ms2 ∧
      (models.foldl (lmedsCandidate est m1 m2) st).pos = st.pos ∧
      (st.trace ≠ [] → (models.foldl (lmedsCandidate est m1 m2) st).trace ≠ []) := by
  intro models
  induction models with
  | nil => intro st hinv; exact ⟨hinv, rfl, rfl, rfl, rfl, rfl, id⟩
  | cons model_i rest ih =>
    intro st hinv
    simp only [List.foldl_cons]
    have hf := lmedsCandidate_frame est m1 m2 st model_i
    obtain ⟨a, b, c, d, e, f, g⟩ := ih _ (lmedsCandidate_inv est m1 m2 st model_i hinv)
    exact ⟨a, b.trans hf.1, c.trans hf.2.1, d.trans hf.2.2.1, e.trans hf.2.2.2.1,
      f.trans hf.2.2.2.2.1, fun hne => g (hf.2.2.2.2.2 hne)⟩

theorem LmedsInv_congr {M : Type} (est : Estimator K M) (m1 m2 : List (Point K))
    (st st' : LmedsState K M)
    (h1 : st'.minMedian = st.minMedian) (h2 : st'.model = st.model)
    (h3 : scored st'.trace = scored st.trace)
    (hinv : LmedsInv est m1 m2 st) : LmedsInv est m1 m2 st' := by
  unfold LmedsInv at hinv ⊢
  rw [h1, h2, h3]
  exact hinv

theorem lmedsTrial_inv {M : Type} (est : Estimator K M) (m1 m2 : List (Point K))
    (st : LmedsState K M) (hinv : LmedsInv est m1 m2 st) :
    LmedsInv est m1 m2 (lmedsTrial est m1 m2 st) ∧
    sampleCalls (lmedsTrial est m1 m2 st).trace = sampleCalls st.trace ∧
    kernelCalls (lmedsTrial est m1 m2 st).trace = kernelCalls st.trace ++ [(st.ms1, st.ms2)] ∧
    (lmedsTrial est m1 m2 st).ms1 = st.ms1 ∧ (lmedsTrial est m1 m2 st).ms2 = st.ms2 ∧
    (lmedsTrial est m1 m2 st).pos = st.pos ∧ (lmedsTrial est m1 m2 st).trace ≠ [] := by
  unfold lmedsTrial
  simp only
  have hk : LmedsInv est m1 m2 { st with trace := st.trace ++ [Event.kernel st.ms1 st.ms2] } :=
    LmedsInv_congr est m1 m2 st _ rfl rfl (by simp [scored_append, scored]) hinv
  obtain ⟨a, b, c, d, e, f, g⟩ := lmedsCandidates_inv est m1 m2 (est.runKernel st.ms1 st.ms2) _ hk
  refine ⟨a, ?_, ?_, d, e, f, g (by simp)⟩
  · rw [b]; simp [sampleCalls_append, sampleCalls]
  · rw [c]; simp [kernelCalls_append, kernelCalls]

theorem lmedsLoop_exit {M : Type} (est : Estimator K M) (rng : Nat → Nat)
    (fuel : Nat) (m1 m2 : List (Point K)) (niters : Int) :
    ∀ (loopFuel : Nat) (iter : Int) (st : LmedsState K M) (ex : LoopExit (LmedsState K M)),
      LmedsInv est m1 m2 st → LmedsHead niters iter st →
      lmedsLoop est rng fuel m1 m2 niters loopFuel iter st = .ok ex →
      LmedsExit est m1 m2 niters ex := by
  intro loopFuel
  induction loopFuel with
  | zero => intro iter st ex _ _ h; simp [lmedsLoop] at h
  | succ loopFuel ih =>
    intro iter st ex hinv hhead h
    obtain ⟨g1, g2, g3, g4, g5, g6, g7⟩ := hhead
    unfold lmedsLoop at h
    split at h
    · rename_i hlt
      have hmx : niters ≤ max niters 0 := le_max_left _ _
      split at h
      · cases h
      · rename_i found ms1 ms2 pos evs hs
        have hev := sampleStep_events est rng fuel m1 m2 _ _ _ _ _ _ _ _ hs
        have hinv1 : LmedsInv est m1 m2
            { st with ms1 := ms1, ms2 := ms2, pos := pos, trace := st.trace ++ evs } := by
          refine LmedsInv_congr est m1 m2 st _ rfl rfl ?_ hinv
          rcases hev with ⟨he, _⟩ | ⟨he, _⟩ <;> subst he <;> simp [scored_append, scored]
        have hk1 : kernelCalls (st.trace ++ evs) = kernelCalls st.trace := by
          rcases hev with ⟨he, _⟩ | ⟨he, _⟩ <;> subst he <;> simp [kernelCalls_append, kernelCalls]
        have hs1 : sampleCalls (st.trace ++ evs) = sampleCalls st.trace ∨
            sampleCalls (st.trace ++ evs) = sampleCalls st.trace ++ [found] := by
          rcases hev with ⟨he, _⟩ | ⟨he, _⟩ <;> subst he <;> simp [sampleCalls_append, sampleCalls]
        simp only at h
        split at h
        · rename_i hfound
          obtain ⟨a, b, c, _, _, _, e⟩ := lmedsTrial_inv est m1 m2 _ hinv1
          simp only at b c
          refine ih (iter + 1) _ ex a ⟨by omega, by omega, ?_, ?_, ?_, fun _ => e, ?_⟩ h
          · rw [b]
            rcases hs1 with h1 | h1 <;> rw [h1]
            · omega
            · simp only [List.length_append, List.length_singleton]; push_cast; omega
          · rw [c, hk1]
            simp only [List.length_append, List.length_singleton]; push_cast; omega
          · rw [b]
            rcases hs1 with h1 | h1 <;> rw [h1]
            · exact g5
            · intro x hx
              simp only [List.mem_append, List.mem_singleton] at hx
              rcases hx with hx | hx
              · exact g5 x hx
              · rw [hx]; exact hfound
          · intro h0; omega
        · rename_i hfound
          have hff : found = false := by simpa using hfound
          subst hff
          have hevs : evs = [Event.sample false] := by
            rcases hev with ⟨he, _⟩ | ⟨_, he, _⟩
            · exact he
            · cases he
          subst hevs
          split at h
          · rename_i hi0
            cases h
            obtain ⟨t0, m0⟩ := g7 hi0
            exact ⟨by simp [t0], m0⟩
          · rename_i hi0
            cases h
            refine ⟨hinv1, g1, g2, ?_, ?_, Or.inr ⟨st.trace, g6 (by omega), rfl, g5⟩⟩
            · have hsf : sampleCalls (st.trace ++ [Event.sample false])
                  = sampleCalls st.trace ++ [false] := by
                simp [sampleCalls_append, sampleCalls]
              simp only [hsf, List.length_append, List.length_singleton]
              push_cast
              omega
            · simp only [hk1]; omega
    · cases h
      exact ⟨hinv, g1, g2, by omega, by omega, Or.inl g5⟩

theorem runLMeDS_cases {M : Type} (est : Estimator K M) (log sqrt : K → K) (rng : Nat → Nat)
    (fuel pos : Nat) (m1 m2 : List (Point K)) (model : M) (mask : List Nat)
    (conf : K) (_maxIters : Int) (r : LmedsResult K M)
    (h : runLMeDS est log sqrt rng fuel pos m1 m2 model mask conf _maxIters = .ok r) :
    m1.length = m2.length ∧ m1.length = mask.length ∧
    ((m1.length < est.modelPoints ∧ r.result = false ∧ r.model = model ∧ r.mask = mask ∧
        r.pos = pos ∧ r.trace = [] ∧ r.minMedian = DBL_MAX) ∨
     (est.modelPoints ≤ m1.length ∧
      ∃ niters, lmedsNiters log est.modelPoints m1.length conf _maxIters = .ok niters ∧
        r.niters = niters ∧
      ∃ ex, lmedsLoop est rng fuel m1 m2 niters fuel 0 (lmedsInit est pos m1 m2 model) = .ok ex ∧
        ((∃ st, ex = .aborted st ∧ r.result = false ∧ r.model = st.model ∧ r.mask = mask ∧
            r.pos = st.pos ∧ r.trace = st.trace ∧ r.minMedian = st.minMedian) ∨
         (∃ iter st, ex = .done iter st ∧ r.model = st.model ∧ r.pos = st.pos ∧
            r.trace = st.trace ∧ r.minMedian = st.minMedian ∧ r.iter = iter ∧
            ((¬ st.minMedian < DBL_MAX ∧ r.result = false ∧ r.mask = mask) ∨
             (st.minMedian < DBL_MAX ∧ est.modelPoints < m1.length ∧
              r.mask = (findInliers est.reprojError m1 m2 st.model m1.length mask
                (specSigma sqrt m1.length est.modelPoints st.minMedian)).1 ∧
              r.result = decide ((findInliers est.reprojError m1 m2 st.model m1.length mask
                (specSigma sqrt m1.length est.modelPoints st.minMedian)).2
                  ≥ est.modelPoints))))))) := by
  unfold runLMeDS at h
  simp only at h
  split at h
  · cases h
  · rename_i hsz
    have hsz2 : m1.length = m2.length ∧ m1.length = mask.length := by
      by_contra hc; exact hsz hc
    refine ⟨hsz2.1, hsz2.2, ?_⟩
    split at h
    · rename_i hlt
      cases h
      exact Or.inl ⟨by exact_mod_cast hlt, rfl, rfl, rfl, rfl, rfl, rfl⟩
    · rename_i hge
      right
      refine ⟨by omega, ?_⟩
      split at h
      · cases h
      · rename_i niters hn
        split at h
        · cases h
        · rename_i st hl
          cases h
          exact ⟨niters, hn, rfl, _, hl, Or.inl ⟨st, rfl, rfl, rfl, rfl, rfl, rfl, rfl⟩⟩
        · rename_i iter st hl
          split at h
          · rename_i hfin
            split at h
            · cases h
            · rename_i hne
              cases h
              refine ⟨niters, hn, rfl, _, hl, Or.inr ⟨iter, st, rfl, rfl, rfl, rfl, rfl, rfl,
                Or.inr ⟨hfin, by omega, ?_, ?_⟩⟩⟩
              · simp only [specSigma]
                push_cast
                rfl
              · simp only [specSigma]
                push_cast
                rfl
          · rename_i hfin
            cases h
            exact ⟨niters, hn, rfl, _, hl, Or.inr ⟨iter, st, rfl, rfl, rfl, rfl, rfl, rfl,
              Or.inl ⟨hfin, rfl, rfl⟩⟩⟩

theorem lmedsInit_inv {M : Type} (est : Estimator K M) (pos : Nat) (m1 m2 : List (Point K))
    (model : M) (niters : Int) :
    LmedsInv est m1 m2 (lmedsInit est pos m1 m2 model) ∧
    LmedsHead niters 0 (lmedsInit est pos m1 m2 model) := by
  refine ⟨⟨?_, le_refl _, ?_⟩, ⟨le_refl _, le_max_right _ _, ?_, ?_, ?_, ?_, ?_⟩⟩
  · intro c hc; simp [lmedsInit, scored] at hc
  · intro hp; simp [lmedsInit] at hp
  · simp [lmedsInit, sampleCalls]
  · simp [lmedsInit, kernelCalls]
  · intro b hb; simp [lmedsInit, sampleCalls] at hb
  · intro hp; exact absurd hp (lt_irrefl _)
  · intro _; exact ⟨rfl, rfl⟩

theorem lmedsNiters_ok (log : K → K) (hlog : ∀ x : K, 0 < x → x < 1 → log x < 0)
    (modelPoints : Nat) (count : Int) (conf : K) (v : Int) (hmp : 1 ≤ modelPoints) :
    lmedsNiters log modelPoints count conf v =
      .ok (min (max (cvRound (log (1 - conf) / log (1 - (1 - 45 / 100) ^ modelPoints))) 3)
        (if v > 0 then v else if v < 0 then -v * count else count)) := by
  have hb0 : (0 : K) < 1 - 45 / 100 := by norm_num
  have hb1 : (1 : K) - 45 / 100 < 1 := by norm_num
  have hp0 : (0 : K) < (1 - 45 / 100) ^ modelPoints := pow_pos hb0 _
  have hp1 : ((1 : K) - 45 / 100) ^ modelPoints < 1 :=
    pow_lt_one₀ (le_of_lt hb0) hb1 (by omega)
  have hd : log (1 - (1 - 45 / 100) ^ modelPoints) < 0 :=
    hlog _ (by linarith) (by linarith)
  unfold lmedsNiters
  simp only
  rw [if_neg (ne_of_lt hd)]

/-- C12 (counterexample): with confidence 1/2, override `v = 1`, `N = 5` and
`modelPoints = 1` (real logarithm) the cap is 1 and `niters` is 1, below 3. -/
theorem lmedsNiters_below_three :
    lmedsNiters Real.log 1 5 (1 / 2 : ℝ) 1 = .ok 1 ∧ ¬ ((3 : Int) ≤ 1) := by
  refine ⟨?_, by decide⟩
  rw [lmedsNiters_ok Real.log (fun x h0 h1 => Real.log_neg h0 h1) 1 5 (1 / 2) 1 (le_refl 1)]
  simp only [gt_iff_lt, zero_lt_one, if_true, Except.ok.injEq]
  exact min_eq_right (le_trans (by decide) (le_max_right _ _))

/-- C12 (amended): for `N >= modelPoints >= 1`, every confidence and every
override `v` (with a logarithm that is negative on (0,1), as the libm one),
`niters = min(max(round(..), 3), cap)` where the cap is `v` when `v > 0`,
`|v|*N` when `v < 0` and `N` when `v = 0`: so `1 <= niters <= cap`,
`niters >= min(3, cap)`, and `3 <= niters` when the cap is at least 3. A loop
of `runLMeDS` that is left normally has run at most `niters` iterations (loop
variable, sampler calls and kernel calls are all at most `niters`); a loop
aborted by the `return false` of iteration 0 has made one sampler call. -/
theorem lmedsNiters_clamped {M : Type} (est : Estimator K M) (log : K → K)
    (m1 m2 : List (Point K)) (conf : K) (v : Int)
    (hlog : ∀ x : K, 0 < x → x < 1 → log x < 0)
    (hmp : 1 ≤ est.modelPoints) (hN : est.modelPoints ≤ m1.length) :
    ∃ n : Int, lmedsNiters log est.modelPoints m1.length conf v = .ok n ∧
      n ≤ (if 0 < v then v else if v < 0 then |v| * m1.length else m1.length) ∧
      min 3 (if 0 < v then v else if v < 0 then |v| * m1.length else m1.length) ≤ n ∧
      ((3 : Int) ≤ (if 0 < v then v else if v < 0 then |v| * m1.length else m1.length) →
        3 ≤ n) ∧
      1 ≤ n ∧
      ∀ (rng : Nat → Nat) (fuel pos : Nat) (model : M) (ex : LoopExit (LmedsState K M)),
        lmedsLoop est rng fuel m1 m2 n fuel 0 (lmedsInit est pos m1 m2 model) = .ok ex →
        (∀ st, ex = .aborted st → st.trace = [Event.sample false]) ∧
        (∀ iter st, ex = .done iter st →
          0 ≤ iter ∧ iter ≤ n ∧ ((sampleCalls st.trace).length : Int) ≤ n ∧
          ((kernelCalls st.trace).length : Int) ≤ n) := by
  have hcap : (if v > 0 then v else if v < 0 then -v * (m1.length : Int) else m1.length)
      = (if 0 < v then v else if v < 0 then |v| * m1.length else m1.length) := by
    split
    · rfl
    · split
      · rename_i h; rw [abs_of_neg h]
      · rfl
  have hcap1 : (1 : Int) ≤ (if 0 < v then v else if v < 0 then |v| * m1.length
      else m1.length) := by
    split
    · omega
    · split
      · rename_i h
        rw [abs_of_neg h]
        have h1 : (1 : Int) ≤ -v := by omega
        have h2 : (1 : Int) ≤ (m1.length : Int) := by omega
        nlinarith
      · omega
  refine ⟨_, lmedsNiters_ok log hlog est.modelPoints m1.length conf v hmp, ?_, ?_, ?_, ?_, ?_⟩
  · rw [hcap]; exact min_le_right _ _
  · rw [hcap]; exact min_le_min (le_max_right _ _) (le_refl _)
  · intro h3
    rw [hcap]; exact le_min (le_max_right _ _) h3
  · rw [hcap]; exact le_min (le_trans (by decide) (le_max_right _ _)) hcap1
  · intro rng fuel pos model ex hl
    have hn1 : (1 : Int) ≤ min (max (cvRound (log (1 - conf) /
        log (1 - (1 - 45 / 100) ^ est.modelPoints))) 3)
        (if v > 0 then v else if v < 0 then -v * (m1.length : Int) else m1.length) := by
      rw [hcap]; exact le_min (le_trans (by decide) (le_max_right _ _)) hcap1
    obtain ⟨hi, hh⟩ := lmedsInit_inv est pos m1 m2 model
      (min (max (cvRound (log (1 - conf) / log (1 - (1 - 45 / 100) ^ est.modelPoints))) 3)
        (if v > 0 then v else if v < 0 then -v * (m1.length : Int) else m1.length))
    have hex := lmedsLoop_exit est rng fuel m1 m2 _ fuel 0 _ ex hi hh hl
    constructor
    · intro st he; subst he; exact hex.1
    · intro iter st he
      subst he
      obtain ⟨_, e1, e2, e3, e4, _⟩ := hex
      rw [max_eq_left (by omega)] at e2 e3 e4
      exact ⟨e1, e2, e3, e4⟩

theorem ex_errors : computeReprojError exEstimator.reprojError exPoints exPoints (0 : ℚ) 3
    = [0, 0, 9] := by
  simp [computeReprojError, exEstimator, exPoints, ptAt, List.range, List.range.loop]
  norm_num

theorem ex_score : lmedsScore exEstimator exPoints exPoints (0 : ℚ) = 0 := by
  have hlen : exPoints.length = 3 := rfl
  unfold lmedsScore
  rw [hlen, ex_errors]
  simp [icvSortDistances, lmedsMedian]

theorem ex_niters : lmedsNiters exLog exEstimator.modelPoints (exPoints.length : Int)
    (1 / 2 : ℚ) 1 = .ok 1 := by
  rw [lmedsNiters_ok exLog (fun x _ h1 => by unfold exLog; linarith) exEstimator.modelPoints
    _ _ _ (le_refl 1)]
  simp only [gt_iff_lt, zero_lt_one, if_true, Except.ok.injEq]
  exact min_eq_right (le_trans (by decide) (le_max_right _ _))

theorem ex_lmedsLoop :
    lmedsLoop exEstimator (fun n => n) 5 exPoints exPoints 1 5 0
        (lmedsInit exEstimator 0 exPoints exPoints (7 : ℚ))
      = .ok (.done 1 { model := 0, minMedian := 0, ms1 := [⟨0, 0⟩], ms2 := [⟨0, 0⟩], pos := 1,
                       trace := [Event.sample true, Event.kernel [⟨0, 0⟩] [⟨0, 0⟩],
                                 Event.scored 0 0] }) := by
  have hmp : exEstimator.modelPoints = 1 := rfl
  have hcp : exEstimator.checkPartialSubsets = true := rfl
  have hlen : exPoints.length = 3 := rfl
  have hk : exEstimator.runKernel [⟨0, 0⟩] [⟨0, 0⟩] = [0] := by
    simp [exEstimator, ptAt]
  have hdm : (0 : ℚ) < DBL_MAX := by unfold DBL_MAX; norm_num
  have hcand : lmedsCandidate exEstimator exPoints exPoints
      { model := 7, minMedian := DBL_MAX, ms1 := [⟨0, 0⟩], ms2 := [⟨0, 0⟩], pos := 1,
        trace := [Event.sample true, Event.kernel [⟨0, 0⟩] [⟨0, 0⟩]] } 0
      = { model := 0, minMedian := 0, ms1 := [⟨0, 0⟩], ms2 := [⟨0, 0⟩], pos := 1,
          trace := [Event.sample true, Event.kernel [⟨0, 0⟩] [⟨0, 0⟩], Event.scored 0 0] } := by
    rw [lmedsCandidate_unfold, ex_score, if_pos hdm]
    simp
  unfold lmedsLoop
  simp only [sampleStep, lmedsInit, hlen, hmp, hcp]
  norm_num [ex_getSubset]
  simp only [lmedsTrial, hk, List.foldl_cons, List.foldl_nil, List.singleton_append, hcand]
  unfold lmedsLoop
  norm_num

theorem ex_lmeds_run :
    runLMeDS exEstimator exLog exSqrt (fun n => n) 5 0 exPoints exPoints (7 : ℚ) [0, 0, 0]
        (1 / 2) 1
      = .ok { result := true, model := 0, mask := [1, 1, 0], pos := 1, minMedian := 0,
              iter := 1, niters := 1,
              trace := [Event.sample true, Event.kernel [⟨0, 0⟩] [⟨0, 0⟩],
                        Event.scored 0 0] } := by
  have hmp : exEstimator.modelPoints = 1 := rfl
  have hlen : exPoints.length = 3 := rfl
  have hdm : (0 : ℚ) < DBL_MAX := by unfold DBL_MAX; norm_num
  have hn := ex_niters
  have hl := ex_lmedsLoop
  have hfi : ∀ s : ℚ, s = 1 / 1000 →
      findInliers exEstimator.reprojError exPoints exPoints (0 : ℚ) 3 [0, 0, 0] s
        = ([1, 1, 0], 2) := by
    intro s hs
    subst hs
    rw [findInliers_eq exEstimator.reprojError exPoints exPoints (0 : ℚ) 3 [0, 0, 0] (1 / 1000)
      rfl, ex_errors]
    simp [specInlierMask]
    norm_num
  unfold runLMeDS
  simp only [hn, hl]
  rw [if_neg (by simp [hlen]), if_neg (by simp [hlen, hmp])]
  simp only [if_pos hdm, hlen, hmp]
  rw [if_neg (by norm_num)]
  rw [hfi _ (by simp [exSqrt])]
  simp

theorem lmedsNiters_clamped_witness :
    ∃ n : Int, lmedsNiters exLog exEstimator.modelPoints (exPoints.length : Int) (1 / 2 : ℚ) 1
        = .ok n ∧ n ≤ 1 ∧ 1 ≤ n ∧
      ∃ iter st, lmedsLoop exEstimator (fun k => k) 5 exPoints exPoints n 5 0
          (lmedsInit exEstimator 0 exPoints exPoints (7 : ℚ)) = .ok (.done iter st) ∧
        iter ≤ n ∧ ((kernelCalls st.trace).length : Int) ≤ n := by
  obtain ⟨n, h1, _, _, _, h5, h6⟩ :=
    lmedsNiters_clamped exEstimator exLog exPoints exPoints (1 / 2 : ℚ) 1
      (fun x _ hx => by unfold exLog; linarith) (le_refl 1) (by decide)
  have hn : n = 1 := by
    have := h1.symm.trans ex_niters
    simp at this
    exact this
  subst hn
  obtain ⟨_, h7⟩ := h6 (fun k => k) 5 0 (7 : ℚ) _ ex_lmedsLoop
  obtain ⟨_, a, _, b⟩ := h7 _ _ rfl
  exact ⟨1, h1, le_refl 1, h5, _, _, ex_lmedsLoop, a, b⟩

theorem lmedsLoop_exact_size {M : Type} (est : Estimator K M) (rng : Nat → Nat)
    (fuel : Nat) (m1 m2 : List (Point K)) (niters : Int)
    (hN : ¬ m1.length > est.modelPoints) :
    ∀ (loopFuel : Nat) (iter : Int) (st : LmedsState K M),
      LmedsInv est m1 m2 st → st.ms1 = m1 → st.ms2 = m2 →
      (niters - iter).toNat < loopFuel →
      ∃ st', lmedsLoop est rng fuel m1 m2 niters loopFuel iter st
          = .ok (.done (max iter niters) st') ∧
        kernelCalls st'.trace
          = kernelCalls st.trace ++ List.replicate (niters - iter).toNat (m1, m2) ∧
        sampleCalls st'.trace = sampleCalls st.trace ∧ st'.pos = st.pos ∧
        LmedsInv est m1 m2 st' := by
  intro loopFuel
  induction loopFuel with
  | zero => intro iter st _ _ _ h; omega
  | succ loopFuel ih =>
    intro iter st hinv h1 h2 hf
    unfold lmedsLoop
    split
    · rename_i hlt
      simp only [sampleStep, if_neg hN, List.append_nil]
      obtain ⟨a, b, c, d, e, f, _⟩ := lmedsTrial_inv est m1 m2 st hinv
      obtain ⟨st', g1, g2, g3, g4, g5⟩ := ih (iter + 1) (lmedsTrial est m1 m2 st) a
        (d.trans h1) (e.trans h2) (by omega)
      refine ⟨st', ?_, ?_, g3.trans b, g4.trans f, g5⟩
      · simp only [if_true]
        rw [g1, max_eq_right (by omega), max_eq_right (by omega)]
      · rw [g2, c, h1, h2]
        have : (niters - iter).toNat = (niters - (iter + 1)).toNat + 1 := by omega
        rw [this, List.replicate_succ]
        simp
    · rename_i hge
      refine ⟨st, ?_, ?_, rfl, rfl, hinv⟩
      · rw [max_eq_left (by omega)]
      · have : (niters - iter).toNat = 0 := by omega
        rw [this]; simp

/-- C11 (code defect): on an input with `N == modelPoints`, whenever the cap
(`v` when `v > 0`, `|v|*N` when `v < 0`, `N` when `v = 0`) is at least 3, the
`niters` that `runLMeDS` computes is at least 3, not 1, and its loop (given
fuel) runs `niters` trials: the kernel is called `niters` times, each time on
the entire correspondence set, without any sampler call. -/
theorem runLMeDS_exact_size_repeats_trials {M : Type} (est : Estimator K M) (log : K → K)
    (rng : Nat → Nat) (fuel pos : Nat) (m1 m2 : List (Point K)) (model : M)
    (conf : K) (v n : Int)
    (hN : m1.length = est.modelPoints)
    (hcap : (3 : Int) ≤ (if 0 < v then v else if v < 0 then |v| * m1.length else m1.length))
    (hn : lmedsNiters log est.modelPoints m1.length conf v = .ok n)
    (hfuel : n.toNat < fuel) :
    3 ≤ n ∧
    ∃ st, lmedsLoop est rng fuel m1 m2 n fuel 0 (lmedsInit est pos m1 m2 model)
        = .ok (.done n st) ∧
      kernelCalls st.trace = List.replicate n.toNat (m1, m2) ∧
      sampleCalls st.trace = [] := by
  have h3 : 3 ≤ n := by
    unfold lmedsNiters at hn
    simp only at hn
    split at hn
    · cases hn
    · simp only [Except.ok.injEq] at hn
      subst hn
      refine le_min (le_max_right _ _) ?_
      have hc : (if v > 0 then v else if v < 0 then -v * (m1.length : Int) else m1.length)
          = (if 0 < v then v else if v < 0 then |v| * m1.length else m1.length) := by
        split
        · rfl
        · split
          · rename_i h; rw [abs_of_neg h]
          · rfl
      rw [hc]; exact hcap
  refine ⟨h3, ?_⟩
  have hgt : ¬ m1.length > est.modelPoints := by omega
  have hgt2 : ¬ ((m1.length : Int) > est.modelPoints) := by omega
  obtain ⟨hi, _⟩ := lmedsInit_inv est pos m1 m2 model n
  obtain ⟨st, g1, g2, g3, _, _⟩ := lmedsLoop_exact_size est rng fuel m1 m2 n hgt fuel 0
    (lmedsInit est pos m1 m2 model) hi
    (by simp only [lmedsInit]; rw [if_neg hgt2])
    (by simp only [lmedsInit]; rw [if_neg hgt2]) (by simpa using hfuel)
  refine ⟨st, ?_, ?_, ?_⟩
  · rw [g1, max_eq_right (by omega)]
  · rw [g2]; simp [lmedsInit, kernelCalls]
  · rw [g3]; simp [lmedsInit, sampleCalls]

theorem ex_niters_exact : lmedsNiters exLog exEstimator.modelPoints
    (([⟨1, 2⟩] : List (Point ℚ)).length : Int) (1 / 2 : ℚ) 5 = .ok 3 := by
  rw [lmedsNiters_ok exLog (fun x _ h1 => by unfold exLog; linarith) exEstimator.modelPoints
    _ _ _ (le_refl 1)]
  have hr : cvRound (exLog (1 - 1 / 2) / exLog (1 - (1 - 45 / 100) ^ exEstimator.modelPoints))
      ≤ 3 := by
    apply cvRound_le_of_lt
    have : exEstimator.modelPoints = 1 := rfl
    rw [this]
    unfold exLog
    norm_num
  simp only [gt_iff_lt, Except.ok.injEq]
  rw [if_pos (by decide), max_eq_right hr]
  decide

theorem runLMeDS_exact_size_repeats_trials_witness :
    ∃ st, lmedsLoop exEstimator (fun k => k) 5 [⟨1, 2⟩] [⟨1, 2⟩] 3 5 0
        (lmedsInit exEstimator 0 [⟨1, 2⟩] [⟨1, 2⟩] (7 : ℚ)) = .ok (.done 3 st) ∧
      kernelCalls st.trace = List.replicate 3 ([⟨1, 2⟩], [⟨1, 2⟩]) ∧
      sampleCalls st.trace = [] :=
  (runLMeDS_exact_size_repeats_trials exEstimator exLog (fun k => k) 5 0 [⟨1, 2⟩] [⟨1, 2⟩]
    (7 : ℚ) (1 / 2) 5 3 rfl (by decide) ex_niters_exact (by decide)).2

/-- C18 (code defect): in a run of `runLMeDS` with `N == modelPoints` whose
loop ends with a finite `minMedian`, the divisor `N - modelPoints` of line 296
is zero: the noise scale has no value (the run is `Fault.divByZero`). -/
theorem runLMeDS_exact_size_zero_divisor {M : Type} (est : Estimator K M) (log sqrt : K → K)
    (rng : Nat → Nat) (fuel pos : Nat) (m1 m2 : List (Point K)) (model : M) (mask : List Nat)
    (conf : K) (v n iter : Int) (st : LmedsState K M)
    (h12 : m1.length = m2.length) (hm : m1.length = mask.length)
    (hN : m1.length = est.modelPoints)
    (hn : lmedsNiters log est.modelPoints m1.length conf v = .ok n)
    (hl : lmedsLoop est rng fuel m1 m2 n fuel 0 (lmedsInit est pos m1 m2 model)
      = .ok (.done iter st))
    (hfin : st.minMedian < DBL_MAX) :
    (m1.length : Int) - est.modelPoints = 0 ∧
    runLMeDS est log sqrt rng fuel pos m1 m2 model mask conf v = .error .divByZero := by
  have h0 : (m1.length : Int) - est.modelPoints = 0 := by omega
  refine ⟨h0, ?_⟩
  unfold runLMeDS
  simp only [hn, hl]
  rw [if_neg (not_not_intro ⟨h12, hm⟩), if_neg (by omega)]
  simp only [if_pos hfin, if_pos h0]

theorem ex_niters_one : lmedsNiters exLog exEstimator.modelPoints
    (([⟨1, 2⟩] : List (Point ℚ)).length : Int) (1 / 2 : ℚ) 1 = .ok 1 := by
  rw [lmedsNiters_ok exLog (fun x _ h1 => by unfold exLog; linarith) exEstimator.modelPoints
    _ _ _ (le_refl 1)]
  simp only [gt_iff_lt, zero_lt_one, if_true, Except.ok.injEq]
  exact min_eq_right (le_trans (by decide) (le_max_right _ _))

theorem ex_lmedsLoop_exact :
    lmedsLoop exEstimator (fun k => k) 5 [⟨1, 2⟩] [⟨1, 2⟩] 1 5 0
        (lmedsInit exEstimator 0 [⟨1, 2⟩] [⟨1, 2⟩] (7 : ℚ))
      = .ok (.done 1 { model := 1, minMedian := 0, ms1 := [⟨1, 2⟩], ms2 := [⟨1, 2⟩], pos := 0,
                       trace := [Event.kernel [⟨1, 2⟩] [⟨1, 2⟩], Event.scored 1 0] }) := by
  have hmp : exEstimator.modelPoints = 1 := rfl
  have hk : exEstimator.runKernel [⟨1, 2⟩] [⟨1, 2⟩] = [1] := by
    simp [exEstimator, ptAt]
    norm_num
  have hdm : (0 : ℚ) < DBL_MAX := by unfold DBL_MAX; norm_num
  have hsc : lmedsScore exEstimator [⟨1, 2⟩] [⟨1, 2⟩] (1 : ℚ) = 0 := by
    simp [lmedsScore, computeReprojError, exEstimator, ptAt, icvSortDistances, lmedsMedian]
    norm_num
  have hcand : lmedsCandidate exEstimator [⟨1, 2⟩] [⟨1, 2⟩]
      { model := 7, minMedian := DBL_MAX, ms1 := [⟨1, 2⟩], ms2 := [⟨1, 2⟩], pos := 0,
        trace := [Event.kernel [⟨1, 2⟩] [⟨1, 2⟩]] } 1
      = { model := 1, minMedian := 0, ms1 := [⟨1, 2⟩], ms2 := [⟨1, 2⟩], pos := 0,
          trace := [Event.kernel [⟨1, 2⟩] [⟨1, 2⟩], Event.scored 1 0] } := by
    rw [lmedsCandidate_unfold, hsc, if_pos hdm]
    simp
  unfold lmedsLoop
  simp only [sampleStep, lmedsInit, hmp]
  norm_num
  simp only [lmedsTrial, hk, List.foldl_cons, List.foldl_nil, List.nil_append, hcand]
  unfold lmedsLoop
  norm_num

theorem runLMeDS_exact_size_zero_divisor_witness :
    ((([⟨1, 2⟩] : List (Point ℚ)).length : Int) - exEstimator.modelPoints = 0) ∧
    runLMeDS exEstimator exLog exSqrt (fun k => k) 5 0 [⟨1, 2⟩] [⟨1, 2⟩] (7 : ℚ) [0] (1 / 2) 1
      = .error .divByZero :=
  runLMeDS_exact_size_zero_divisor exEstimator exLog exSqrt (fun k => k) 5 0 [⟨1, 2⟩] [⟨1, 2⟩]
    (7 : ℚ) [0] (1 / 2) 1 1 1 _ rfl rfl rfl ex_niters_one ex_lmedsLoop_exact
    (by unfold DBL_MAX; norm_num)

theorem lmedsMedian_odd (err : List K) (N : Nat) (h : N % 2 = 1) :
    lmedsMedian err N = err.getD (N / 2) 0 := by
  unfold lmedsMedian
  rw [if_pos (by omega)]
  congr 1

theorem lmedsMedian_even (err : List K) (N : Nat) (h : N % 2 = 0) :
    lmedsMedian err N = (err.getD (N / 2 - 1) 0 + err.getD (N / 2) 0) / 2 := by
  unfold lmedsMedian
  rw [if_neg (by omega)]
  have h1 : ((N : Int) / 2 - 1).toNat = N / 2 - 1 := by omega
  have h2 : ((N : Int) / 2).toNat = N / 2 := by omega
  rw [h1, h2]
  ring

/-- Summary of a completed run of `runLMeDS` (proof device): aborted or stopped
before the loop with nothing scored, or left through the loop in a state
satisfying the loop invariant. -/
theorem runLMeDS_exit {M : Type} (est : Estimator K M) (log sqrt : K → K) (rng : Nat → Nat)
    (fuel pos : Nat) (m1 m2 : List (Point K)) (model : M) (mask : List Nat)
    (conf : K) (v : Int) (r : LmedsResult K M)
    (h : runLMeDS est log sqrt rng fuel pos m1 m2 model mask conf v = .ok r) :
    (r.result = false ∧ scored r.trace = [] ∧ r.minMedian = DBL_MAX ∧
      (m1.length < est.modelPoints ∨ r.trace = [Event.sample false])) ∨
    (est.modelPoints ≤ m1.length ∧ m1.length = mask.length ∧
      ∃ iter st, LmedsExit est m1 m2 r.niters (.done iter st) ∧
        r.model = st.model ∧ r.trace = st.trace ∧ r.minMedian = st.minMedian ∧ r.iter = iter ∧
        ((¬ st.minMedian < DBL_MAX ∧ r.result = false ∧ r.mask = mask) ∨
         (st.minMedian < DBL_MAX ∧ est.modelPoints < m1.length ∧
          r.mask = (findInliers est.reprojError m1 m2 st.model m1.length mask
            (specSigma sqrt m1.length est.modelPoints st.minMedian)).1 ∧
          r.result = decide ((findInliers est.reprojError m1 m2 st.model m1.length mask
            (specSigma sqrt m1.length est.modelPoints st.minMedian)).2
              ≥ est.modelPoints)))) := by
  obtain ⟨_, hm, hc⟩ := runLMeDS_cases est log sqrt rng fuel pos m1 m2 model mask conf v r h
  rcases hc with ⟨a, b, _, _, _, c, d⟩ | ⟨hge, niters, hn, hrn, ex, hl, hc⟩
  · left
    exact ⟨b, by rw [c]; simp [scored], d, Or.inl a⟩
  · obtain ⟨hi, hh⟩ := lmedsInit_inv est pos m1 m2 model niters
    have hex := lmedsLoop_exit est rng fuel m1 m2 niters fuel 0 _ ex hi hh hl
    rcases hc with ⟨st, he, a, _, _, _, c, d⟩ | ⟨iter, st, he, a, _, c, d, e, f⟩
    · subst he
      left
      obtain ⟨t1, t2⟩ := hex
      exact ⟨a, by rw [c, t1]; simp [scored], d.trans t2, Or.inr (c.trans t1)⟩
    · subst he
      right
      rw [← hrn] at hex
      exact ⟨hge, hm, iter, st, hex, a, c, d, e, f⟩

/-- C13: every candidate `runLMeDS` evaluates is scored by the median of its
sorted full error vector (sorted ascending, a permutation of the errors; the
element at index `N/2` when `N` is odd, index 2 for length 5; the average of
the elements at `N/2-1` and `N/2` when `N` is even, indices 1 and 2 for length
4). After the loop, `minMedian` is at most every score, and as soon as one
score is finite (below `DBL_MAX`) it is the minimum of the scores and the
model in the output buffer is the first evaluated candidate attaining it. This
holds at the exit of the loop (any `niters`, any fuel) and for the values a
completed run returns. (The ascending sort stands for the sort of the code
through integer bit patterns, which is the same order when no error is
negative.) -/
theorem runLMeDS_min_median {M : Type} (est : Estimator K M) (log sqrt : K → K)
    (rng : Nat → Nat) (fuel pos : Nat) (m1 m2 : List (Point K)) (model : M) (mask : List Nat)
    (conf : K) (v niters iter : Int) (st : LmedsState K M)
    (hl : lmedsLoop est rng fuel m1 m2 niters fuel 0 (lmedsInit est pos m1 m2 model)
      = .ok (.done iter st)) :
    (∀ err : List K, (icvSortDistances err).Sorted (fun a b => a ≤ b) ∧
      (icvSortDistances err).Perm err) ∧
    (∀ (err : List K) (N : Nat), N % 2 = 1 → lmedsMedian err N = err.getD (N / 2) 0) ∧
    (∀ (err : List K) (N : Nat), N % 2 = 0 →
      lmedsMedian err N = (err.getD (N / 2 - 1) 0 + err.getD (N / 2) 0) / 2) ∧
    (∀ err : List K, lmedsMedian err 5 = err.getD 2 0 ∧
      lmedsMedian err 4 = (err.getD 1 0 + err.getD 2 0) / 2) ∧
    (∀ c ∈ scored st.trace,
      c.2 = lmedsMedian (icvSortDistances
        (computeReprojError est.reprojError m1 m2 c.1 m1.length)) m1.length ∧
      st.minMedian ≤ c.2) ∧
    ((∃ c ∈ scored st.trace, c.2 < DBL_MAX) →
      ∃ pre post, scored st.trace = pre ++ (st.model, st.minMedian) :: post ∧
        (∀ d ∈ pre, st.minMedian < d.2) ∧ (∀ d ∈ post, st.minMedian ≤ d.2)) ∧
    (∀ r, runLMeDS est log sqrt rng fuel pos m1 m2 model mask conf v = .ok r →
      (∀ c ∈ scored r.trace, r.minMedian ≤ c.2) ∧
      ((∃ c ∈ scored r.trace, c.2 < DBL_MAX) →
        ∃ pre post, scored r.trace = pre ++ (r.model, r.minMedian) :: post ∧
          (∀ d ∈ pre, r.minMedian < d.2) ∧ (∀ d ∈ post, r.minMedian ≤ d.2))) := by
  have key : ∀ st : LmedsState K M, LmedsInv est m1 m2 st →
      (∀ c ∈ scored st.trace, st.minMedian ≤ c.2) ∧
      ((∃ c ∈ scored st.trace, c.2 < DBL_MAX) →
        ∃ pre post, scored st.trace = pre ++ (st.model, st.minMedian) :: post ∧
          (∀ d ∈ pre, st.minMedian < d.2) ∧ (∀ d ∈ post, st.minMedian ≤ d.2)) := by
    intro st ⟨j1, _, j3⟩
    refine ⟨fun c hc => (j1 c hc).2, ?_⟩
    rintro ⟨c, hc, hlt⟩
    obtain ⟨pre, post, h1, h2⟩ := j3 (lt_of_le_of_lt (j1 c hc).2 hlt)
    refine ⟨pre, post, h1, h2, ?_⟩
    intro d hd
    exact (j1 d (by rw [h1]; simp [hd])).2
  obtain ⟨hi, hh⟩ := lmedsInit_inv est pos m1 m2 model niters
  obtain ⟨hinv, _⟩ := lmedsLoop_exit est rng fuel m1 m2 niters fuel 0 _ _ hi hh hl
  refine ⟨?_, lmedsMedian_odd, lmedsMedian_even, ?_, ?_, (key st hinv).2, ?_⟩
  · intro err
    exact ⟨List.sorted_insertionSort _ err, List.perm_insertionSort _ err⟩
  · intro err
    exact ⟨lmedsMedian_odd err 5 rfl, lmedsMedian_even err 4 rfl⟩
  · intro c hc
    exact ⟨(hinv.1 c hc).1, (hinv.1 c hc).2⟩
  · intro r hr
    rcases runLMeDS_exit est log sqrt rng fuel pos m1 m2 model mask conf v r hr with
      ⟨_, a, _, _⟩ | ⟨_, _, it, st', hex, a, b, c, _⟩
    · rw [a]
      exact ⟨fun c hc => absurd hc (List.not_mem_nil c),
        fun ⟨c, hc, _⟩ => absurd hc (List.not_mem_nil c)⟩
    · rw [a, b, c]
      exact key st' hex.1

theorem runLMeDS_min_median_witness :
    ∃ pre post,
      scored ([Event.sample true, Event.kernel [⟨0, 0⟩] [⟨0, 0⟩], Event.scored 0 0]
        : List (Event ℚ ℚ)) = pre ++ ((0 : ℚ), (0 : ℚ)) :: post ∧
      (∀ d ∈ pre, (0 : ℚ) < d.2) ∧ (∀ d ∈ post, (0 : ℚ) ≤ d.2) :=
  (runLMeDS_min_median exEstimator exLog exSqrt (fun n => n) 5 0 exPoints exPoints (7 : ℚ)
    [0, 0, 0] (1 / 2) 1 1 1 _ ex_lmedsLoop).2.2.2.2.2.1
    ⟨(0, 0), by simp [scored], by unfold DBL_MAX; norm_num⟩

theorem mem_of_head? {α : Type} (l : List α) (a : α) (h : l.head? = some a) : a ∈ l := by
  cases l with
  | nil => simp at h
  | cons x xs =>
    simp only [List.head?_cons, Option.some.injEq] at h
    subst h
    simp

/-- A completed run of `runLMeDS` (sizes match, else the assertion
fails) returns true if and only if `N >= modelPoints`, sampling did not fail
in iteration 0, some evaluated candidate had a finite median (equivalently
`minMedian < DBL_MAX`), and at least `modelPoints` correspondences have an
error under the best model that is `<= sigma^2`, with `sigma` the noise scale
computed from `minMedian`. When it returns true, the caller's mask is the
inlier mask of the best model under `sigma` in correspondence order, and the
best model is the one whose score is `minMedian`. -/
theorem runLMeDS_result_of_ok {M : Type} (est : Estimator K M) (log sqrt : K → K)
    (rng : Nat → Nat) (fuel pos : Nat) (m1 m2 : List (Point K)) (model : M) (mask : List Nat)
    (conf : K) (v : Int) (r : LmedsResult K M)
    (h : runLMeDS est log sqrt rng fuel pos m1 m2 model mask conf v = .ok r) :
    m1.length = m2.length ∧ m1.length = mask.length ∧
    (r.result = true ↔
      (est.modelPoints ≤ m1.length ∧
       r.trace.head? ≠ some (Event.sample false) ∧
       (∃ c ∈ scored r.trace, c.2 < DBL_MAX) ∧
       (est.modelPoints : Int) ≤
        (((specInlierMask (computeReprojError est.reprojError m1 m2 r.model m1.length)
          (specSigma sqrt m1.length est.modelPoints r.minMedian)).count 1 : Nat) : Int))) ∧
    ((∃ c ∈ scored r.trace, c.2 < DBL_MAX) ↔ r.minMedian < DBL_MAX) ∧
    (r.result = true →
      r.minMedian = lmedsScore est m1 m2 r.model ∧
      r.mask.length = m1.length ∧
      ∀ i, i < m1.length →
        (r.mask.getD i 0 = 1 ↔ est.reprojError m1 m2 r.model i ≤
          specSigma sqrt m1.length est.modelPoints r.minMedian *
            specSigma sqrt m1.length est.modelPoints r.minMedian) ∧
        (r.mask.getD i 0 = 0 ↔ ¬ est.reprojError m1 m2 r.model i ≤
          specSigma sqrt m1.length est.modelPoints r.minMedian *
            specSigma sqrt m1.length est.modelPoints r.minMedian)) := by
  obtain ⟨h12, hm, _⟩ := runLMeDS_cases est log sqrt rng fuel pos m1 m2 model mask conf v r h
  refine ⟨h12, hm, ?_⟩
  rcases runLMeDS_exit est log sqrt rng fuel pos m1 m2 model mask conf v r h with
    ⟨a, b, c, d⟩ | ⟨hge, _, iter, st, hex, a, b, c, _, hc⟩
  · refine ⟨?_, ?_, ?_⟩
    · rw [a]
      constructor
      · intro hf; cases hf
      · rintro ⟨_, _, ⟨x, hx, _⟩, _⟩
        rw [b] at hx
        exact absurd hx (List.not_mem_nil x)
    · rw [b, c]
      constructor
      · rintro ⟨x, hx, _⟩; exact absurd hx (List.not_mem_nil x)
      · intro hlt; exact absurd hlt (lt_irrefl _)
    · intro hf; rw [a] at hf; cases hf
  · obtain ⟨⟨j1, j2, j3⟩, _, _, _, _, hs⟩ := hex
    have hfin : (∃ c ∈ scored r.trace, c.2 < DBL_MAX) ↔ r.minMedian < DBL_MAX := by
      rw [b, c]
      constructor
      · rintro ⟨x, hx, hlt⟩; exact lt_of_le_of_lt (j1 x hx).2 hlt
      · intro hlt
        obtain ⟨pre, post, h1, _⟩ := j3 hlt
        exact ⟨(st.model, st.minMedian), by rw [h1]; simp, hlt⟩
    have hhead : r.trace.head? ≠ some (Event.sample false) := by
      rw [b]
      intro hh
      rcases hs with hs | ⟨tr0, hne, htr, hall⟩
      · have := hs false (mem_sampleCalls st.trace false (mem_of_head? _ _ hh))
        cases this
      · rw [htr, List.head?_append_of_ne_nil _ hne] at hh
        have := hall false (mem_sampleCalls tr0 false (mem_of_head? _ _ hh))
        cases this
    rcases hc with ⟨hnf, hres, _⟩ | ⟨hf, hgt, hmask, hres⟩
    · refine ⟨?_, hfin, ?_⟩
      · rw [hres]
        constructor
        · intro hf; cases hf
        · rintro ⟨_, _, hx, _⟩
          rw [hfin, c] at hx
          exact absurd hx hnf
      · intro hf; rw [hres] at hf; cases hf
    · rw [findInliers_eq _ _ _ _ _ _ _ hm.symm] at hmask hres
      simp only at hmask hres
      refine ⟨?_, hfin, ?_⟩
      · rw [hres, decide_eq_true_iff, a, c]
        constructor
        · intro hcount
          exact ⟨hge, hhead, by rw [hfin, c]; exact hf, hcount⟩
        · rintro ⟨_, _, _, hcount⟩
          exact hcount
      · intro _
        obtain ⟨pre, post, h1, _⟩ := j3 hf
        have hmem : (st.model, st.minMedian) ∈ scored st.trace := by rw [h1]; simp
        refine ⟨by rw [a, c]; exact (j1 _ hmem).1, ?_, ?_⟩
        · rw [hmask, specInlierMask_length, computeReprojError_length]
        · intro i hi
          rw [hmask, a, c,
            specInlierMask_getD _ _ _ (by rw [computeReprojError_length]; exact hi),
            computeReprojError_getD _ _ _ _ _ _ hi]
          by_cases hc : est.reprojError m1 m2 st.model i ≤
              specSigma sqrt m1.length est.modelPoints st.minMedian *
                specSigma sqrt m1.length est.modelPoints st.minMedian <;> simp [hc]

theorem sorted_count_le (s : List K) (hs : s.Sorted (fun a b => a ≤ b)) (k : Nat)
    (hk : k < s.length) :
    k + 1 ≤ s.countP (fun e => decide (e ≤ s.getD k 0)) := by
  have hsplit : s = s.take (k + 1) ++ s.drop (k + 1) := (List.take_append_drop _ _).symm
  have hall : (s.take (k + 1)).countP (fun e => decide (e ≤ s.getD k 0))
      = (s.take (k + 1)).length := by
    rw [List.countP_eq_length]
    intro a ha
    obtain ⟨i, hi, rfl⟩ := List.mem_iff_getElem.mp ha
    rw [List.length_take] at hi
    rw [List.getElem_take]
    simp only [decide_eq_true_eq]
    rw [List.getD_eq_getElem?_getD, List.getElem?_eq_getElem hk, Option.getD_some]
    have hi2 : i < s.length := by omega
    exact hs.rel_get_of_le (a := ⟨i, hi2⟩) (b := ⟨k, hk⟩) (by simp; omega)
  have hlen : (s.take (k + 1)).length = k + 1 := by
    rw [List.length_take]; omega
  calc k + 1 = (s.take (k + 1)).countP (fun e => decide (e ≤ s.getD k 0)) := by
        rw [hall, hlen]
    _ ≤ (s.take (k + 1)).countP (fun e => decide (e ≤ s.getD k 0))
          + (s.drop (k + 1)).countP (fun e => decide (e ≤ s.getD k 0)) := Nat.le_add_right _ _
    _ = s.countP (fun e => decide (e ≤ s.getD k 0)) := by
        rw [← List.countP_append, ← hsplit]

theorem median_count (err : List K) (hN : 1 ≤ err.length) :
    (err.length + 1) / 2 ≤
      err.countP (fun e => decide (e ≤ lmedsMedian (icvSortDistances err) err.length)) := by
  have hs : (icvSortDistances err).Sorted (fun a b => a ≤ b) := List.sorted_insertionSort _ err
  have hp : (icvSortDistances err).Perm err := List.perm_insertionSort _ err
  have hl : (icvSortDistances err).length = err.length := hp.length_eq
  rw [← hp.countP_eq]
  rcases Nat.mod_two_eq_zero_or_one err.length with he | ho
  · -- even length
    rw [lmedsMedian_even _ _ he]
    have hk1 : err.length / 2 - 1 < (icvSortDistances err).length := by omega
    have hk2 : err.length / 2 < (icvSortDistances err).length := by omega
    have hle : (icvSortDistances err).getD (err.length / 2 - 1) 0
        ≤ (icvSortDistances err).getD (err.length / 2) 0 := by
      rw [List.getD_eq_getElem?_getD, List.getElem?_eq_getElem hk1, Option.getD_some,
        List.getD_eq_getElem?_getD, List.getElem?_eq_getElem hk2, Option.getD_some]
      exact hs.rel_get_of_le (a := ⟨_, hk1⟩) (b := ⟨_, hk2⟩) (by simp)
    have h1 := sorted_count_le _ hs (err.length / 2 - 1) hk1
    refine le_trans (by omega) (le_trans h1 (List.countP_mono_left ?_))
    intro x _ hx
    simp only [decide_eq_true_eq] at hx ⊢
    linarith
  · rw [lmedsMedian_odd _ _ ho]
    have hk : err.length / 2 < (icvSortDistances err).length := by omega
    exact le_trans (by omega) (sorted_count_le _ hs (err.length / 2) hk)

theorem specInlierMask_count (err : List K) (t : K) :
    (specInlierMask err t).count 1 = err.countP (fun e => decide (e ≤ t * t)) := by
  unfold specInlierMask
  rw [List.count_eq_countP, List.countP_map]
  apply List.countP_congr
  intro x _
  by_cases h : x ≤ t * t <;> simp [h]

theorem specSigma_sq_ge (sqrt : K → K) (N modelPoints : Nat) (m : K) (hgt : modelPoints < N)
    (h0 : 0 ≤ sqrt m) (hsq : sqrt m * sqrt m = m) :
    m ≤ specSigma sqrt N modelPoints m * specSigma sqrt N modelPoints m := by
  have hd : (0 : K) < (N : K) - (modelPoints : K) := by
    have : (modelPoints : K) < (N : K) := by exact_mod_cast hgt
    linarith
  have h5 : (0 : K) ≤ 5 / ((N : K) - (modelPoints : K)) := div_nonneg (by norm_num) (le_of_lt hd)
  have hc : (1 : K) ≤ (25 / 10) * (14826 / 10000) * (1 + 5 / ((N : K) - (modelPoints : K))) := by
    have : (1 : K) ≤ (25 / 10) * (14826 / 10000) := by norm_num
    nlinarith
  have hge : sqrt m ≤ specSigma sqrt N modelPoints m := by
    unfold specSigma
    refine le_trans ?_ (le_max_left _ _)
    nlinarith
  calc m = sqrt m * sqrt m := hsq.symm
    _ ≤ specSigma sqrt N modelPoints m * specSigma sqrt N modelPoints m :=
        mul_self_le_mul_self h0 hge

theorem getD_nonneg (l : List K) (k : Nat) (h : ∀ e ∈ l, 0 ≤ e) : 0 ≤ l.getD k 0 := by
  rw [List.getD_eq_getElem?_getD]
  by_cases hk : k < l.length
  · rw [List.getElem?_eq_getElem hk, Option.getD_some]
    exact h _ (List.getElem_mem hk)
  · rw [List.getElem?_eq_none (by omega)]
    exact le_refl _

theorem lmedsScore_nonneg {M : Type} (est : Estimator K M) (m1 m2 : List (Point K)) (model : M)
    (hnn : ∀ i, 0 ≤ est.reprojError m1 m2 model i) :
    0 ≤ lmedsScore est m1 m2 model := by
  have hall : ∀ e ∈ icvSortDistances
      (computeReprojError est.reprojError m1 m2 model m1.length), 0 ≤ e := by
    intro e he
    have he2 := (List.perm_insertionSort _ _).mem_iff.mp he
    simp only [computeReprojError, List.mem_map, List.mem_range] at he2
    obtain ⟨i, _, rfl⟩ := he2
    exact hnn i
  unfold lmedsScore lmedsMedian
  split
  · exact getD_nonneg _ _ hall
  · exact mul_nonneg (add_nonneg (getD_nonneg _ _ hall) (getD_nonneg _ _ hall)) (by norm_num)

/-- In a completed run of `runLMeDS` with `N > modelPoints`, non-negative
errors and a finite `minMedian`, where `sqrt` is a square root at `minMedian`:
`sigma^2 >= minMedian`, the caller's mask is the inlier mask of the best model
under `sigma`, and it has at least `ceil(N/2)` ones (every correspondence
whose error is at most the median is an inlier); so the run returns true
whenever `ceil(N/2) >= modelPoints`. -/
theorem runLMeDS_half_inliers_of_ok {M : Type} (est : Estimator K M) (log sqrt : K → K)
    (rng : Nat → Nat) (fuel pos : Nat) (m1 m2 : List (Point K)) (model : M) (mask : List Nat)
    (conf : K) (v : Int) (r : LmedsResult K M)
    (h : runLMeDS est log sqrt rng fuel pos m1 m2 model mask conf v = .ok r)
    (hgt : est.modelPoints < m1.length)
    (hnn : ∀ (c : M) (i : Nat), 0 ≤ est.reprojError m1 m2 c i)
    (hfin : r.minMedian < DBL_MAX)
    (hsqrt : 0 ≤ r.minMedian →
      0 ≤ sqrt r.minMedian ∧ sqrt r.minMedian * sqrt r.minMedian = r.minMedian) :
    r.minMedian ≤ specSigma sqrt m1.length est.modelPoints r.minMedian *
      specSigma sqrt m1.length est.modelPoints r.minMedian ∧
    r.mask = specInlierMask (computeReprojError est.reprojError m1 m2 r.model m1.length)
      (specSigma sqrt m1.length est.modelPoints r.minMedian) ∧
    (m1.length + 1) / 2 ≤ r.mask.count 1 ∧
    (est.modelPoints ≤ (m1.length + 1) / 2 → r.result = true) := by
  rcases runLMeDS_exit est log sqrt rng fuel pos m1 m2 model mask conf v r h with
    ⟨_, _, c, _⟩ | ⟨_, hm, iter, st, hex, a, _, c, _, hc⟩
  · rw [c] at hfin; exact absurd hfin (lt_irrefl _)
  · obtain ⟨⟨j1, _, j3⟩, _⟩ := hex
    rcases hc with ⟨hnf, _, _⟩ | ⟨hf, _, hmask, hres⟩
    · rw [c] at hfin; exact absurd hfin hnf
    · rw [findInliers_eq _ _ _ _ _ _ _ hm.symm] at hmask hres
      simp only at hmask hres
      obtain ⟨pre, post, h1, _⟩ := j3 hf
      have hmem : (st.model, st.minMedian) ∈ scored st.trace := by rw [h1]; simp
      have hscore : st.minMedian = lmedsScore est m1 m2 st.model := (j1 _ hmem).1
      have hm0 : 0 ≤ st.minMedian := by
        rw [hscore]; exact lmedsScore_nonneg est m1 m2 st.model (hnn st.model)
      rw [c] at hsqrt ⊢
      rw [a]
      obtain ⟨s0, s1⟩ := hsqrt hm0
      have hsig := specSigma_sq_ge sqrt m1.length est.modelPoints st.minMedian hgt s0 s1
      have hcount : (m1.length + 1) / 2 ≤
          (specInlierMask (computeReprojError est.reprojError m1 m2 st.model m1.length)
            (specSigma sqrt m1.length est.modelPoints st.minMedian)).count 1 := by
        rw [specInlierMask_count]
        have hl := computeReprojError_length est.reprojError m1 m2 st.model m1.length
        have hmc := median_count (computeReprojError est.reprojError m1 m2 st.model m1.length)
          (by rw [hl]; omega)
        rw [hl] at hmc
        refine le_trans hmc (List.countP_mono_left ?_)
        intro x _ hx
        simp only [decide_eq_true_eq] at hx ⊢
        have : lmedsMedian (icvSortDistances
            (computeReprojError est.reprojError m1 m2 st.model m1.length)) m1.length
            = st.minMedian := hscore.symm
        rw [this] at hx
        exact le_trans hx hsig
      refine ⟨hsig, hmask, by rw [hmask]; exact hcount, ?_⟩
      intro hhalf
      rw [hres, decide_eq_true_iff]
      have : (est.modelPoints : Int) ≤ ((m1.length + 1) / 2 : Nat) := by exact_mod_cast hhalf
      have h2 : (((m1.length + 1) / 2 : Nat) : Int) ≤
          (((specInlierMask (computeReprojError est.reprojError m1 m2 st.model m1.length)
            (specSigma sqrt m1.length est.modelPoints st.minMedian)).count 1 : Nat) : Int) := by
        exact_mod_cast hcount
      exact le_trans this h2

theorem forBreak_all_false (brk : Int → Bool) :
    ∀ (n : Nat) (s : Int), (∀ j : Int, s ≤ j → j < s + n → brk j = false) →
      forBreak brk n s = s + n := by
  intro n
  induction n with
  | zero => intro s _; simp [forBreak]
  | succ n ih =>
    intro s h
    unfold forBreak
    rw [if_neg (by rw [h s (le_refl _) (by push_cast; omega)]; simp)]
    rw [ih (s + 1) (fun j h1 h2 => h j (by omega) (by push_cast; omega))]
    push_cast
    ring

theorem takenIdx_set (st : SubsetState K) (x : Nat) :
    (List.range st.i).map (fun j => (st.idx.set st.i x).getD j 0) = takenIdx st := by
  unfold takenIdx
  apply List.map_congr_left
  intro j hj
  have hj2 : j < st.i := List.mem_range.mp hj
  simp [List.getD_eq_getElem?_getD, List.getElem?_set_ne (Nat.ne_of_gt hj2)]

theorem dupScan_fresh (st : SubsetState K) (x : Nat) (h : x ∉ takenIdx st) :
    ¬ dupScan (st.idx.set st.i x) x st.i < st.i := by
  unfold dupScan
  rw [forBreak_all_false]
  · simp
  · intro j h1 h2
    simp only [decide_eq_false_iff_not]
    intro he
    apply h
    rw [← takenIdx_set st x]
    simp only [List.mem_map, List.mem_range]
    exact ⟨j.toNat, by omega, he.symm⟩

theorem getSubsetInner_terminates (cps : Bool) (modelPoints : Nat) (rng : Nat → Nat)
    (m1 m2 : List (Point K)) (maxAttempts : Int) (B : Nat)
    (hB : 1 ≤ B)
    (hfresh : ∀ (pos : Nat) (taken : List Nat), taken.length < modelPoints →
      ∃ d, d < B ∧ rng (pos + d) % m1.length ∉ taken) :
    ∀ (fuel R d : Nat) (st : SubsetState K),
      (modelPoints - st.i) + (maxAttempts - st.iters).toNat ≤ R →
      (st.i < modelPoints → rng (st.pos + d) % m1.length ∉ takenIdx st) →
      B * R + d + 1 ≤ fuel →
      ∃ st', getSubsetInner cps modelPoints rng m1 m2 maxAttempts fuel st = some st' ∧
        st'.pos ≤ st.pos + B * R + d ∧ st.iters ≤ st'.iters := by
  intro fuel
  induction fuel with
  | zero => intro R d st _ _ hf; omega
  | succ fuel ih =>
    intro R d st hR hd hf
    unfold getSubsetInner
    split
    · rename_i hc
      obtain ⟨hi, hit⟩ := hc
      have hR1 : 1 ≤ R := by omega
      obtain ⟨R', rfl⟩ : ∃ R', R = R' + 1 := ⟨R - 1, by omega⟩
      have hmul : B * (R' + 1) = B * R' + B := Nat.mul_succ B R'
      simp only
      split
      · -- duplicate: the fresh draw is further on
        rename_i hdup
        have hd0 : d ≠ 0 := by
          intro h0
          subst h0
          exact dupScan_fresh st _ (hd hi) hdup
        obtain ⟨d', rfl⟩ : ∃ d', d = d' + 1 := ⟨d - 1, by omega⟩
        obtain ⟨st', h1, h2, h3⟩ := ih (R' + 1) d'
          { st with idx := st.idx.set st.i (rng st.pos % m1.length), pos := st.pos + 1 }
          hR
          (fun _ => by
            have := hd hi
            simp only [takenIdx] at this ⊢
            rw [takenIdx_set st _]
            simp only [takenIdx]
            have e : st.pos + 1 + d' = st.pos + (d' + 1) := by omega
            rw [e]; exact this)
          (by omega)
        exact ⟨st', h1, by simp only at h2; omega, h3⟩
      · -- a fresh index: accepted or rejected by the partial check
        have key : ∀ st2 : SubsetState K,
            (modelPoints - st2.i) + (maxAttempts - st2.iters).toNat ≤ R' →
            st2.pos = st.pos + 1 → st.iters ≤ st2.iters →
            ∃ st', getSubsetInner cps modelPoints rng m1 m2 maxAttempts fuel st2 = some st' ∧
              st'.pos ≤ st.pos + B * (R' + 1) + d ∧ st.iters ≤ st'.iters := by
          intro st2 hR2 hpos hit2
          have hex : ∃ d2, d2 < B ∧
              (st2.i < modelPoints → rng (st2.pos + d2) % m1.length ∉ takenIdx st2) := by
            by_cases h2 : st2.i < modelPoints
            · obtain ⟨d2, a, b⟩ := hfresh st2.pos (takenIdx st2) (by simp [takenIdx]; exact h2)
              exact ⟨d2, a, fun _ => b⟩
            · exact ⟨0, by omega, fun h => absurd h h2⟩
          obtain ⟨d2, hd2, hfr⟩ := hex
          obtain ⟨st', h1, h2, h3⟩ := ih R' d2 st2 hR2 hfr (by omega)
          exact ⟨st', h1, by omega, le_trans hit2 h3⟩
        split
        · exact key _ (by simp only; omega) rfl (by simp only; omega)
        · exact key _ (by simp only; omega) rfl (le_refl _)
    · exact ⟨st, rfl, by omega, le_refl _⟩

theorem getSubsetOuter_terminates (cps : Bool) (modelPoints : Nat) (rng : Nat → Nat)
    (m1 m2 : List (Point K)) (maxAttempts : Int) (B : Nat)
    (hmp : 1 ≤ modelPoints)
    (hfresh : ∀ (pos : Nat) (taken : List Nat), taken.length < modelPoints →
      ∃ d, d < B ∧ rng (pos + d) % m1.length ∉ taken) :
    ∀ (fuel : Nat) (st : SubsetState K), 0 ≤ st.iters →
      (B * (modelPoints + maxAttempts.toNat) + B) + (maxAttempts - st.iters).toNat + 1 ≤ fuel →
      ∃ st', getSubsetOuter cps modelPoints rng m1 m2 maxAttempts fuel st = some st' ∧
        st'.pos ≤ st.pos + ((maxAttempts - st.iters).toNat + 1)
          * (B * (modelPoints + maxAttempts.toNat) + B) := by
  have hB : 1 ≤ B := by
    obtain ⟨d, hd, _⟩ := hfresh 0 [] (by simpa using hmp)
    omega
  intro fuel
  induction fuel with
  | zero => intro st _ hf; omega
  | succ fuel ih =>
    intro st h0 hf
    unfold getSubsetOuter
    split
    · rename_i hlt
      obtain ⟨d, hd, hfr⟩ := hfresh st.pos (takenIdx { st with i := 0 }) (by simp [takenIdx]; omega)
      obtain ⟨st1, h1, h2, h3⟩ := getSubsetInner_terminates cps modelPoints rng m1 m2 maxAttempts
        B hB hfresh fuel (modelPoints + maxAttempts.toNat) d { st with i := 0 }
        (by simp only; omega) (fun _ => hfr) (by omega)
      simp only at h2 h3
      rw [h1]
      simp only
      split
      · obtain ⟨st', g1, g2⟩ := ih { st1 with iters := st1.iters + 1 }
          (by simp only; omega) (by simp only; omega)
        refine ⟨st', g1, ?_⟩
        simp only at g2
        have hA : (maxAttempts - (st1.iters + 1)).toNat + 1 + 1
            ≤ (maxAttempts - st.iters).toNat + 1 := by omega
        have hm := Nat.mul_le_mul_right (B * (modelPoints + maxAttempts.toNat) + B) hA
        rw [Nat.succ_mul] at hm
        omega
      · refine ⟨st1, rfl, ?_⟩
        have hA : 1 ≤ (maxAttempts - st.iters).toNat + 1 := by omega
        have hm := Nat.mul_le_mul_right (B * (modelPoints + maxAttempts.toNat) + B) hA
        omega
    · exact ⟨st, rfl, Nat.le_add_right _ _⟩

/-- C17 (counterexample): on the constant random stream 0 with `N = 3`,
`modelPoints = 2` and `maxAttempts = 300`, `getSubset` never returns, whatever
the fuel: slot 1 draws the duplicate index 0 for ever, and a duplicate is
redrawn without counting an attempt. -/
theorem getSubset_constant_stream_diverges :
    ¬ ∃ fuel : Nat, (getSubset true 2 (fun _ => 0) fuel 0 exPoints exPoints
        [⟨0, 0⟩, ⟨0, 0⟩] [⟨0, 0⟩, ⟨0, 0⟩] 300).isSome = true := by
  have hinner : ∀ (fuel : Nat) (st : SubsetState ℚ), st.idx.length = 2 → st.i ≤ 1 →
      (st.i = 1 → st.idx.getD 0 0 = 0) → st.iters < 300 →
      getSubsetInner true 2 (fun _ => 0) exPoints exPoints 300 fuel st = none := by
    intro fuel
    induction fuel with
    | zero => intro st _ _ _ _; rfl
    | succ fuel ih =>
      intro st hl hi h0 hit
      unfold getSubsetInner
      rw [if_pos ⟨by omega, hit⟩]
      have hlen : exPoints.length = 3 := rfl
      simp only [hlen, Nat.zero_mod]
      rcases Nat.eq_zero_or_pos st.i with hz | hp
      · have hnd : ¬ dupScan (st.idx.set st.i 0) 0 st.i < (st.i : Int) := by
          rw [hz]
          simp [dupScan, forBreak]
        rw [if_neg hnd]
        simp only [checkSubset_partial_true, Bool.not_true, Bool.or_self, Bool.and_false,
          Bool.false_eq_true, if_false]
        refine ih _ (by simpa using hl) (by simp only; omega) (fun _ => ?_) hit
        simp only [hz]
        cases hidx : st.idx with
        | nil => rw [hidx] at hl; simp at hl
        | cons a t => rfl
      · have hi1 : st.i = 1 := by omega
        have h0b : st.idx[0]?.getD 0 = 0 := by
          simpa [List.getD_eq_getElem?_getD] using h0 hi1
        have hget : (st.idx.set st.i 0).getD 0 0 = 0 := by
          rw [hi1]
          simpa [List.getD_eq_getElem?_getD, List.getElem?_set_ne] using h0b
        have hdup : dupScan (st.idx.set st.i 0) 0 st.i < (st.i : Int) := by
          rw [hi1]
          simp [dupScan, forBreak, h0b]
        rw [if_pos hdup]
        exact ih _ (by simpa using hl) hi (fun _ => hget) hit
  rintro ⟨fuel, h⟩
  unfold getSubset at h
  simp only at h
  cases fuel with
  | zero => simp [getSubsetOuter] at h
  | succ fuel =>
    unfold getSubsetOuter at h
    rw [if_pos (by decide)] at h
    rw [hinner fuel _ (by simp) (by simp) (by simp) (by decide)] at h
    simp at h

/-- C17 (amended): `getSubset` terminates when the random stream never repeats
already taken indices for `B` draws in a row or longer (from every position,
one of the next `B` draws is an index outside any list of fewer than
`modelPoints` indices). Then with enough fuel it returns, it has consumed at
most `(maxAttempts + 1) * (B * (modelPoints + maxAttempts) + B)` draws, a bound
that depends on `B` as well as on `maxAttempts` and `modelPoints`, the flag it
returns is `i == modelPoints && iters < maxAttempts`, and it is failure once
the attempt counter has reached the cap. -/
theorem getSubset_terminates (cps : Bool) (modelPoints : Nat) (rng : Nat → Nat)
    (m1 m2 ms1 ms2 : List (Point K)) (maxAttempts : Int) (B pos : Nat)
    (hmp : 1 ≤ modelPoints)
    (hfresh : ∀ (pos : Nat) (taken : List Nat), taken.length < modelPoints →
      ∃ d, d < B ∧ rng (pos + d) % m1.length ∉ taken) :
    ∀ fuel : Nat, (B * (modelPoints + maxAttempts.toNat) + B) + maxAttempts.toNat + 1 ≤ fuel →
      ∃ (found : Bool) (st : SubsetState K),
        getSubset cps modelPoints rng fuel pos m1 m2 ms1 ms2 maxAttempts = some (found, st) ∧
        st.pos ≤ pos + (maxAttempts.toNat + 1) * (B * (modelPoints + maxAttempts.toNat) + B) ∧
        (found = true ↔ st.i = modelPoints ∧ st.iters < maxAttempts) ∧
        (maxAttempts ≤ st.iters → found = false) := by
  intro fuel hf
  obtain ⟨st, h1, h2⟩ := getSubsetOuter_terminates cps modelPoints rng m1 m2 maxAttempts B hmp
    hfresh fuel
    { idx := List.replicate modelPoints 0, ms1 := ms1, ms2 := ms2, i := 0, iters := 0, pos := pos }
    (le_refl _) (by simpa using hf)
  refine ⟨decide (st.i = modelPoints) && decide (st.iters < maxAttempts), st, ?_, ?_, ?_, ?_⟩
  · unfold getSubset
    simp only [h1]
  · simpa using h2
  · simp
  · intro h
    simp only [Bool.and_eq_false_imp, decide_eq_true_eq, decide_eq_false_iff_not]
    intro _
    omega

/-- The stream 0, 1, 2, ... over three points: of two consecutive draws, one is
outside any list of at most one index. -/
theorem ex_fresh (pos : Nat) (taken : List Nat) (h : taken.length < 2) :
    ∃ d, d < 2 ∧ (fun n : Nat => n) (pos + d) % (exPoints).length ∉ taken := by
  have hlen : exPoints.length = 3 := rfl
  rw [hlen]
  match taken, h with
  | [], _ => exact ⟨0, by decide, by simp⟩
  | [a], _ =>
    by_cases ha : pos % 3 = a
    · refine ⟨1, by decide, ?_⟩
      simp only [List.mem_singleton]
      omega
    · refine ⟨0, by decide, ?_⟩
      simpa using ha

/-- Instance of C17 (amended): subsets of two out of the three points of
`exPoints`, drawn from the stream 0, 1, 2, ... with 300 attempts. -/
theorem getSubset_terminates_witness :
    ∃ (found : Bool) (st : SubsetState ℚ),
      getSubset true 2 (fun n => n) 907 0 exPoints exPoints
        [⟨0, 0⟩, ⟨0, 0⟩] [⟨0, 0⟩, ⟨0, 0⟩] 300 = some (found, st) ∧
      st.pos ≤ 0 + ((300 : Int).toNat + 1) * (2 * (2 + (300 : Int).toNat) + 2) ∧
      (found = true ↔ st.i = 2 ∧ st.iters < 300) ∧
      ((300 : Int) ≤ st.iters → found = false) :=
  getSubset_terminates true 2 (fun n => n) exPoints exPoints
    [⟨0, 0⟩, ⟨0, 0⟩] [⟨0, 0⟩, ⟨0, 0⟩] 300 2 0 (by decide) ex_fresh 907 (by decide)

theorem getSubset_returns (cps : Bool) (modelPoints : Nat) (rng : Nat → Nat)
    (m1 m2 ms1 ms2 : List (Point K)) (maxAttempts : Int) (B pos : Nat)
    (hmp : 1 ≤ modelPoints)
    (hfresh : ∀ (pos : Nat) (taken : List Nat), taken.length < modelPoints →
      ∃ d, d < B ∧ rng (pos + d) % m1.length ∉ taken)
    (fuel : Nat)
    (hf : (B * (modelPoints + maxAttempts.toNat) + B) + maxAttempts.toNat + 1 ≤ fuel) :
    ∃ (found : Bool) (st : SubsetState K),
      getSubset cps modelPoints rng fuel pos m1 m2 ms1 ms2 maxAttempts = some (found, st) := by
  obtain ⟨st, h1, _⟩ := getSubsetOuter_terminates cps modelPoints rng m1 m2 maxAttempts B hmp
    hfresh fuel
    { idx := List.replicate modelPoints 0, ms1 := ms1, ms2 := ms2, i := 0, iters := 0, pos := pos }
    (le_refl _) (by simpa using hf)
  refine ⟨decide (st.i = modelPoints) && decide (st.iters < maxAttempts), st, ?_⟩
  unfold getSubset
  simp only [h1]

theorem lmedsLoop_completes {M : Type} (est : Estimator K M) (rng : Nat → Nat) (fuel : Nat)
    (m1 m2 : List (Point K)) (n : Int) (B : Nat)
    (hmp : 1 ≤ est.modelPoints)
    (hfresh : ∀ (pos : Nat) (taken : List Nat), taken.length < est.modelPoints →
      ∃ d, d < B ∧ rng (pos + d) % m1.length ∉ taken)
    (hf : B * (est.modelPoints + 300) + B + 301 ≤ fuel) :
    ∀ (loopFuel : Nat) (iter : Int) (st : LmedsState K M), (n - iter).toNat < loopFuel →
      ∃ ex, lmedsLoop est rng fuel m1 m2 n loopFuel iter st = .ok ex := by
  intro loopFuel
  induction loopFuel with
  | zero => intro iter st h; omega
  | succ loopFuel ih =>
    intro iter st h
    unfold lmedsLoop
    split
    · have hs : ∃ found ms1 ms2 pos evs,
          sampleStep est rng fuel m1 m2 st.ms1 st.ms2 st.pos
            = (.ok (found, ms1, ms2, pos, evs) :
                Except Fault (Bool × List (Point K) × List (Point K) × Nat × List (Event K M))) := by
        unfold sampleStep
        split
        · obtain ⟨found, sub, hg⟩ := getSubset_returns est.checkPartialSubsets est.modelPoints
            rng m1 m2 st.ms1 st.ms2 300 B st.pos hmp hfresh fuel
            (by
              have h300 : (300 : Int).toNat = 300 := rfl
              rw [h300]; omega)
          rw [hg]
          exact ⟨_, _, _, _, _, rfl⟩
        · exact ⟨_, _, _, _, _, rfl⟩
      obtain ⟨found, ms1, ms2, pos, evs, hs⟩ := hs
      rw [hs]
      simp only
      cases found with
      | true =>
        simp only [if_true]
        exact ih _ _ (by omega)
      | false =>
        simp only [Bool.false_eq_true, if_false]
        split
        · exact ⟨_, rfl⟩
        · exact ⟨_, rfl⟩
    · exact ⟨_, rfl⟩

theorem runLMeDS_completes {M : Type} (est : Estimator K M) (log sqrt : K → K)
    (rng : Nat → Nat) (fuel pos : Nat) (m1 m2 : List (Point K)) (model : M) (mask : List Nat)
    (conf : K) (v : Int) (B : Nat)
    (h12 : m1.length = m2.length) (hm : m1.length = mask.length)
    (hne : m1.length ≠ est.modelPoints) (hmp : 1 ≤ est.modelPoints)
    (hlog : ∀ x : K, 0 < x → x < 1 → log x < 0)
    (hfresh : ∀ (pos : Nat) (taken : List Nat), taken.length < est.modelPoints →
      ∃ d, d < B ∧ rng (pos + d) % m1.length ∉ taken)
    (hf : B * (est.modelPoints + 300) + B + 301 ≤ fuel)
    (hcap : (if v > 0 then v else if v < 0 then -v * (m1.length : Int)
      else (m1.length : Int)).toNat < fuel) :
    ∃ r, runLMeDS est log sqrt rng fuel pos m1 m2 model mask conf v = .ok r := by
  unfold runLMeDS
  simp only
  rw [if_neg (not_not_intro ⟨h12, hm⟩)]
  by_cases hlt : (m1.length : Int) < est.modelPoints
  · rw [if_pos hlt]
    exact ⟨_, rfl⟩
  · rw [if_neg hlt, lmedsNiters_ok log hlog est.modelPoints _ conf v hmp]
    simp only
    obtain ⟨ex, hex⟩ := lmedsLoop_completes est rng fuel m1 m2
      (min (max (cvRound (log (1 - conf) / log (1 - (1 - 45 / 100) ^ est.modelPoints))) 3)
        (if v > 0 then v else if v < 0 then -v * (m1.length : Int) else (m1.length : Int)))
      B hmp hfresh hf fuel 0 (lmedsInit est pos m1 m2 model)
      (by
        have := min_le_right
          (max (cvRound (log (1 - conf) / log (1 - (1 - 45 / 100) ^ est.modelPoints))) 3)
          (if v > 0 then v else if v < 0 then -v * (m1.length : Int) else (m1.length : Int))
        omega)
    rw [hex]
    cases ex with
    | aborted st => exact ⟨_, rfl⟩
    | done iter st =>
      simp only
      split
      · rw [if_neg (by omega)]
        exact ⟨_, rfl⟩
      · exact ⟨_, rfl⟩

/-- C14: `runLMeDS` with matching sizes returns true if and only if
`N >= modelPoints`, sampling did not fail in iteration 0, some evaluated
candidate had a finite median (equivalently `minMedian < DBL_MAX`), and at
least `modelPoints` correspondences have an error under the best model that
is `<= sigma^2`, with `sigma` the noise scale computed from `minMedian`. When
it returns true, the caller's mask is the inlier mask of the best model under
`sigma` in correspondence order, and the best model is the one whose score is
`minMedian`. This holds of every run that returns a value; and the run does
return a value when the sizes match, `N` differs from `modelPoints >= 1`, the
logarithm is negative on (0,1), the random stream yields a not yet taken index
within every `B` consecutive draws, and the fuel covers the sampler calls and
the trial count. -/
theorem runLMeDS_result_iff {M : Type} (est : Estimator K M) (log sqrt : K → K)
    (rng : Nat → Nat) (fuel pos : Nat) (m1 m2 : List (Point K)) (model : M) (mask : List Nat)
    (conf : K) (v : Int) :
    (∀ r : LmedsResult K M,
      runLMeDS est log sqrt rng fuel pos m1 m2 model mask conf v = .ok r →
      m1.length = m2.length ∧ m1.length = mask.length ∧
      (r.result = true ↔
        (est.modelPoints ≤ m1.length ∧
         r.trace.head? ≠ some (Event.sample false) ∧
         (∃ c ∈ scored r.trace, c.2 < DBL_MAX) ∧
         (est.modelPoints : Int) ≤
          (((specInlierMask (computeReprojError est.reprojError m1 m2 r.model m1.length)
            (specSigma sqrt m1.length est.modelPoints r.minMedian)).count 1 : Nat) : Int))) ∧
      ((∃ c ∈ scored r.trace, c.2 < DBL_MAX) ↔ r.minMedian < DBL_MAX) ∧
      (r.result = true →
        r.minMedian = lmedsScore est m1 m2 r.model ∧
        r.mask.length = m1.length ∧
        ∀ i, i < m1.length →
          (r.mask.getD i 0 = 1 ↔ est.reprojError m1 m2 r.model i ≤
            specSigma sqrt m1.length est.modelPoints r.minMedian *
              specSigma sqrt m1.length est.modelPoints r.minMedian) ∧
          (r.mask.getD i 0 = 0 ↔ ¬ est.reprojError m1 m2 r.model i ≤
            specSigma sqrt m1.length est.modelPoints r.minMedian *
              specSigma sqrt m1.length est.modelPoints r.minMedian))) ∧
    (∀ B : Nat, m1.length = m2.length → m1.length = mask.length →
      m1.length ≠ est.modelPoints → 1 ≤ est.modelPoints →
      (∀ x : K, 0 < x → x < 1 → log x < 0) →
      (∀ (pos : Nat) (taken : List Nat), taken.length < est.modelPoints →
        ∃ d, d < B ∧ rng (pos + d) % m1.length ∉ taken) →
      B * (est.modelPoints + 300) + B + 301 ≤ fuel →
      (if v > 0 then v else if v < 0 then -v * (m1.length : Int)
        else (m1.length : Int)).toNat < fuel →
      ∃ r, runLMeDS est log sqrt rng fuel pos m1 m2 model mask conf v = .ok r) :=
  ⟨fun r h => runLMeDS_result_of_ok est log sqrt rng fuel pos m1 m2 model mask conf v r h,
   fun B h12 hm hne hmp hlog hfresh hf hcap =>
    runLMeDS_completes est log sqrt rng fuel pos m1 m2 model mask conf v B h12 hm hne hmp hlog
      hfresh hf hcap⟩

/-- Instance of C14: the run of `ex_lmeds_run` returns true with the mask of
its best model, and the same call with fuel 700 returns a value. -/
theorem runLMeDS_result_iff_witness :
    (∃ r, runLMeDS exEstimator exLog exSqrt (fun n => n) 5 0 exPoints exPoints (7 : ℚ) [0, 0, 0]
        (1 / 2) 1 = .ok r ∧ r.result = true ∧
      r.minMedian = lmedsScore exEstimator exPoints exPoints r.model ∧
      r.mask.length = exPoints.length) ∧
    (∃ r, runLMeDS exEstimator exLog exSqrt (fun n => n) 700 0 exPoints exPoints (7 : ℚ)
        [0, 0, 0] (1 / 2) 1 = .ok r) :=
  have h := (runLMeDS_result_iff exEstimator exLog exSqrt (fun n => n) 5 0 exPoints exPoints
    (7 : ℚ) [0, 0, 0] (1 / 2) 1).1 _ ex_lmeds_run
  ⟨⟨_, ex_lmeds_run, rfl, (h.2.2.2.2 rfl).1, (h.2.2.2.2 rfl).2.1⟩,
   (runLMeDS_result_iff exEstimator exLog exSqrt (fun n => n) 700 0 exPoints exPoints
    (7 : ℚ) [0, 0, 0] (1 / 2) 1).2 1 rfl rfl (by decide) (by decide)
    (fun x _ h1 => by unfold exLog; linarith)
    (fun pos taken ht => ⟨0, by decide, by
      have h0 : taken = [] := List.length_eq_zero.mp (by
        have h1 : exEstimator.modelPoints = 1 := rfl
        omega)
      simp [h0]⟩)
    (by decide) (by decide)⟩

/-- C20: in a run of `runLMeDS` with `N > modelPoints` and non-negative errors
whose loop ends with a finite `minMedian`, where `sqrt` is a square root at
`minMedian`: the run returns a value, with the best model and `minMedian` of
the loop; `sigma^2 >= minMedian`; the caller's mask is the inlier mask of the
best model under `sigma`, and it has at least `ceil(N/2)` ones (every
correspondence whose error is at most the median is an inlier); so the run
returns true whenever `ceil(N/2) >= modelPoints`. -/
theorem runLMeDS_half_inliers {M : Type} (est : Estimator K M) (log sqrt : K → K)
    (rng : Nat → Nat) (fuel pos : Nat) (m1 m2 : List (Point K)) (model : M) (mask : List Nat)
    (conf : K) (v n iter : Int) (st : LmedsState K M)
    (h12 : m1.length = m2.length) (hm : m1.length = mask.length)
    (hgt : est.modelPoints < m1.length)
    (hn : lmedsNiters log est.modelPoints m1.length conf v = .ok n)
    (hl : lmedsLoop est rng fuel m1 m2 n fuel 0 (lmedsInit est pos m1 m2 model)
      = .ok (.done iter st))
    (hfin : st.minMedian < DBL_MAX)
    (hnn : ∀ (c : M) (i : Nat), 0 ≤ est.reprojError m1 m2 c i)
    (hsqrt : 0 ≤ st.minMedian →
      0 ≤ sqrt st.minMedian ∧ sqrt st.minMedian * sqrt st.minMedian = st.minMedian) :
    ∃ r, runLMeDS est log sqrt rng fuel pos m1 m2 model mask conf v = .ok r ∧
      r.model = st.model ∧ r.minMedian = st.minMedian ∧
      r.minMedian ≤ specSigma sqrt m1.length est.modelPoints r.minMedian *
        specSigma sqrt m1.length est.modelPoints r.minMedian ∧
      r.mask = specInlierMask (computeReprojError est.reprojError m1 m2 r.model m1.length)
        (specSigma sqrt m1.length est.modelPoints r.minMedian) ∧
      (m1.length + 1) / 2 ≤ r.mask.count 1 ∧
      (est.modelPoints ≤ (m1.length + 1) / 2 → r.result = true) := by
  have hne : ¬ ((m1.length : Int) - est.modelPoints = 0) := by omega
  have hrun : ∃ r, runLMeDS est log sqrt rng fuel pos m1 m2 model mask conf v = .ok r ∧
      r.model = st.model ∧ r.minMedian = st.minMedian := by
    unfold runLMeDS
    simp only [hn, hl]
    rw [if_neg (not_not_intro ⟨h12, hm⟩), if_neg (by omega)]
    simp only [if_pos hfin, if_neg hne]
    exact ⟨_, rfl, rfl, rfl⟩
  obtain ⟨r, hr, e1, e2⟩ := hrun
  exact ⟨r, hr, e1, e2, runLMeDS_half_inliers_of_ok est log sqrt rng fuel pos m1 m2 model mask
    conf v r hr hgt hnn (by rw [e2]; exact hfin) (by rw [e2]; exact hsqrt)⟩

/-- Instance of C20: three correspondences, one point per subset, one trial. -/
theorem runLMeDS_half_inliers_witness :
    ∃ r, runLMeDS exEstimator exLog exSqrt (fun n => n) 5 0 exPoints exPoints (7 : ℚ) [0, 0, 0]
        (1 / 2) 1 = .ok r ∧
      (exPoints.length + 1) / 2 ≤ r.mask.count 1 ∧
      (exEstimator.modelPoints ≤ (exPoints.length + 1) / 2 → r.result = true) :=
  have h := runLMeDS_half_inliers exEstimator exLog exSqrt (fun n => n) 5 0 exPoints exPoints
    (7 : ℚ) [0, 0, 0] (1 / 2) 1 1 1 _ rfl rfl (by decide) ex_niters ex_lmedsLoop
    (by unfold DBL_MAX; norm_num)
    (fun c i => by simp only [exEstimator]; positivity)
    (fun _ => by simp [exSqrt])
  h.elim (fun r hr => ⟨r, hr.1, hr.2.2.2.2.2.1, hr.2.2.2.2.2.2⟩)

/-- C19: with `checkPartialSubsets` enabled, `checkSubset` returns true for
every point sequence and every `count` (the loop over `i` is the single
iteration `i = i1 = count-1`, and `i >= i1` holds with or without a break);
so a `getSubset` call under this policy that returns leaves the attempt
counter `iters` at 0: no pick was rejected for degeneracy. And the call does
return, with `iters = 0`, whenever the random stream yields a not yet taken
index within every `B` consecutive draws and the fuel covers them. -/
theorem checkSubset_partial_always_true (m : List (Point K)) (count : Int)
    (modelPoints : Nat) (rng : Nat → Nat) (fuel pos : Nat) (m1 m2 ms1 ms2 : List (Point K))
    (maxAttempts : Int) :
    checkSubset true m count = true ∧
    (∀ (found : Bool) (st : SubsetState K),
      getSubset true modelPoints rng fuel pos m1 m2 ms1 ms2 maxAttempts = some (found, st) →
      st.iters = 0) ∧
    (∀ B : Nat, 1 ≤ modelPoints →
      (∀ (pos : Nat) (taken : List Nat), taken.length < modelPoints →
        ∃ d, d < B ∧ rng (pos + d) % m1.length ∉ taken) →
      (B * (modelPoints + maxAttempts.toNat) + B) + maxAttempts.toNat + 1 ≤ fuel →
      ∃ (found : Bool) (st : SubsetState K),
        getSubset true modelPoints rng fuel pos m1 m2 ms1 ms2 maxAttempts = some (found, st) ∧
        st.iters = 0) := by
  have h := getSubset_partial_iters_zero m count modelPoints rng fuel pos m1 m2 ms1 ms2
    maxAttempts
  refine ⟨h.1, h.2, ?_⟩
  intro B hmp hfresh hf
  obtain ⟨found, st, hg⟩ := getSubset_returns true modelPoints rng m1 m2 ms1 ms2 maxAttempts B
    pos hmp hfresh fuel hf
  exact ⟨found, st, hg, h.2 found st hg⟩

/-- Instance of C19: three points, and a subset of one point drawn from the
stream 0, 1, 2, .... -/
theorem checkSubset_partial_always_true_witness :
    checkSubset true exPoints 3 = true ∧
    ({ idx := [0], ms1 := [⟨0, 0⟩], ms2 := [⟨0, 0⟩], i := 1, iters := 0, pos := 1 }
      : SubsetState ℚ).iters = 0 :=
  ⟨(checkSubset_partial_always_true exPoints 3 1 (fun n => n) 5 0 exPoints exPoints
      [⟨0, 0⟩] [⟨0, 0⟩] 300).1,
   (checkSubset_partial_always_true exPoints 3 1 (fun n => n) 5 0 exPoints exPoints
      [⟨0, 0⟩] [⟨0, 0⟩] 300).2.1 _ _ ex_getSubset⟩

end DriverTheorems

end ModelEst
